import Mathlib

/-!
Verification of the matrix-backed graph store in `src/src/graph/graph.c`
(redis-graph). The C code is shallowly embedded: a GraphBLAS boolean
matrix becomes a dimension pair plus a total entry function, the chunked
node-block storage becomes a total slot function indexed by node id
(block `k`, offset `i` corresponds to flat id `k * NODEBLOCK_CAP + i`),
and each C function becomes a state-passing Lean function with the same
structure.  GraphBLAS calls are modelled by their documented semantics:
`GrB_Matrix_setElement` writes only when the indices are in range (the C
code ignores the error return), `GxB_Matrix_resize` keeps exactly the
entries inside the new bounds, `GrB_assign` on a row/column region with
no mask and no accumulator replaces that region with the argument
vector's pattern, and `GrB_extract` with a complemented mask plus
`GrB_REPLACE` drops the masked positions.
-/

namespace RedisGraph

/-- Modelled from the spec: `NODEBLOCK_CAP` lives in the missing header
`graph.h`; the spec (§6.1) gives "positive integer, power of two
recommended, e.g. 16384". -/
def NODEBLOCK_CAP : Nat := 16384

/-- Modelled from the spec: `GRAPH_NO_LABEL` is a negative sentinel from
the missing header ("any negative value will do"). -/
def GRAPH_NO_LABEL : Int := -1

/-- Modelled from the spec: `GRAPH_NO_RELATION` is a negative sentinel
from the missing header ("any negative value will do"). -/
def GRAPH_NO_RELATION : Int := -1

/-- A GraphBLAS boolean matrix: dimensions plus a total entry function.
An absent sparse entry is `false`. -/
structure GMatrix where
  nrows : Nat
  ncols : Nat
  entry : Nat → Nat → Bool

instance : Inhabited GMatrix := ⟨⟨0, 0, fun _ _ => false⟩⟩

/-- `GrB_Matrix_new`: an empty boolean matrix of the given dimensions. -/
def GMatrix.new (r c : Nat) : GMatrix := ⟨r, c, fun _ _ => false⟩

/-- `GxB_Matrix_resize`: keep exactly the entries inside the new bounds. -/
def GMatrix.resize (m : GMatrix) (r c : Nat) : GMatrix :=
  ⟨r, c, fun i j => if i < r ∧ j < c then m.entry i j else false⟩

/-- `GrB_Matrix_setElement_BOOL(m, true, r, c)`.  The C call sites ignore
the return code, and GraphBLAS leaves the matrix unchanged on an
out-of-range index, so the write is guarded by the dimensions. -/
def GMatrix.setElement (m : GMatrix) (r c : Nat) : GMatrix :=
  if r < m.nrows ∧ c < m.ncols then
    ⟨m.nrows, m.ncols, fun i j => if i = r ∧ j = c then true else m.entry i j⟩
  else m

/-- `GrB_Col_assign(M, NULL, NULL, zero, GrB_ALL, n, col, NULL)` with an
empty vector: clears rows `[0, n)` of column `col`. -/
def GMatrix.clearColumn (m : GMatrix) (n col : Nat) : GMatrix :=
  ⟨m.nrows, m.ncols, fun i j => if j = col ∧ i < n then false else m.entry i j⟩

/-- `GrB_Row_assign(M, NULL, NULL, v, row, GrB_ALL, n, NULL)`: columns
`[0, n)` of row `row` are replaced by the pattern of `v`. -/
def GMatrix.assignRow (m : GMatrix) (n row : Nat) (v : Nat → Bool) : GMatrix :=
  ⟨m.nrows, m.ncols, fun i j => if i = row ∧ j < n then v j else m.entry i j⟩

/-- `GrB_Col_assign(M, NULL, NULL, v, GrB_ALL, n, col, NULL)`: rows
`[0, n)` of column `col` are replaced by the pattern of `v`. -/
def GMatrix.assignColumn (m : GMatrix) (n col : Nat) (v : Nat → Bool) : GMatrix :=
  ⟨m.nrows, m.ncols, fun i j => if j = col ∧ i < n then v i else m.entry i j⟩

/-- A node record.  `graph.c` treats everything beyond the id as opaque
payload managed by the block store; `payload` stands for that data. -/
structure GNode where
  id : Nat
  payload : Nat

instance : Inhabited GNode := ⟨⟨0, 0⟩⟩

/-- The `Graph` struct.  `nodes` is the block chain flattened by id
(block `k`, offset `i` holds id `k * NODEBLOCK_CAP + i`), so
`GRAPH_GET_NODE_BLOCK`/`GRAPH_NODE_POSITION_WITHIN_BLOCK` indexing
is plain application.  `relation_count` and `label_count` are the list
lengths; the `relation_cap`/`label_cap` bookkeeping of the handle
arrays has no observable effect and is dropped. -/
structure Graph where
  node_count : Nat
  node_cap : Nat
  block_count : Nat
  nodes : Nat → GNode
  adjacency_matrix : GMatrix
  relations : List GMatrix
  labels : List GMatrix

/-- `g->_relations[k]` (out-of-range reads give the empty matrix). -/
def relD (g : Graph) (k : Nat) : GMatrix := g.relations.getD k default

/-- `g->_labels[k]` (out-of-range reads give the empty matrix). -/
def labD (g : Graph) (k : Nat) : GMatrix := g.labels.getD k default

/-- `_Graph_ResizeMatrix`: if the row dimension differs from
`node_count`, resize to `(node_count, node_count)`.  The mutex only
serialises the double-checked resize and has no sequential effect. -/
def _Graph_ResizeMatrix (g : Graph) (m : GMatrix) : GMatrix :=
  if m.nrows ≠ g.node_count then m.resize g.node_count g.node_count else m

/-- `Graph_GetAdjacencyMatrix`: the returned (resized) handle. -/
def Graph_GetAdjacencyMatrix (g : Graph) : GMatrix :=
  _Graph_ResizeMatrix g g.adjacency_matrix

/-- `Graph_GetRelationMatrix` (asserts `k < relation_count` in C). -/
def Graph_GetRelationMatrix (g : Graph) (k : Nat) : GMatrix :=
  _Graph_ResizeMatrix g (relD g k)

/-- `Graph_GetLabelMatrix` (asserts `k < label_count` in C). -/
def Graph_GetLabelMatrix (g : Graph) (k : Nat) : GMatrix :=
  _Graph_ResizeMatrix g (labD g k)

/-- State effect of calling `Graph_GetAdjacencyMatrix`: the handle is
resized in place. -/
def Graph.resizeAdj (g : Graph) : Graph :=
  { g with adjacency_matrix := Graph_GetAdjacencyMatrix g }

/-- State effect of calling `Graph_GetRelationMatrix g k`. -/
def Graph.resizeRel (g : Graph) (k : Nat) : Graph :=
  { g with relations := g.relations.set k (Graph_GetRelationMatrix g k) }

/-- State effect of calling `Graph_GetLabelMatrix g k`. -/
def Graph.resizeLab (g : Graph) (k : Nat) : Graph :=
  { g with labels := g.labels.set k (Graph_GetLabelMatrix g k) }

/-- `GRAPH_NODE_COUNT_TO_BLOCK_COUNT(n) = MAX(1, n / NODEBLOCK_CAP)`. -/
def GRAPH_NODE_COUNT_TO_BLOCK_COUNT (n : Nat) : Nat :=
  max 1 (n / NODEBLOCK_CAP)

/-- `Graph_New` (asserts `n > 0` in C).  Fresh blocks are uninitialised;
the slot function starts at an arbitrary default. -/
def Graph_New (n : Nat) : Graph :=
  let bc := GRAPH_NODE_COUNT_TO_BLOCK_COUNT n
  { node_count := 0
    node_cap := bc * NODEBLOCK_CAP
    block_count := bc
    nodes := fun _ => default
    adjacency_matrix := GMatrix.new (bc * NODEBLOCK_CAP) (bc * NODEBLOCK_CAP)
    relations := []
    labels := [] }

/-- `Graph_NodeCount`. -/
def Graph_NodeCount (g : Graph) : Nat := g.node_count

/-- `_Graph_ResizeNodes`: grow the block chain when
`node_count + n ≥ node_cap`.  Only the capacity bookkeeping is
observable (new slots are uninitialised). -/
def _Graph_ResizeNodes (g : Graph) (n : Nat) : Graph :=
  let total_nodes := g.node_count + n
  if total_nodes < g.node_cap then g
  else
    let increase_factor := total_nodes / g.node_cap + 2
    let bc := g.block_count * increase_factor
    { g with block_count := bc, node_cap := bc * NODEBLOCK_CAP }

/-- `Graph_CreateNodes` (the optional iterator out-parameter is a pure
read and is dropped).  `labels = none` models a NULL label array. -/
def Graph_CreateNodes (g : Graph) (n : Nat) (lbls : Option (List Int)) : Graph :=
  let g := _Graph_ResizeNodes g n
  let node_id := g.node_count
  let g := { g with node_count := g.node_count + n }
  let g := g.resizeAdj
  match lbls with
  | none => g
  | some ls =>
    (List.range n).foldl (fun g idx =>
      let l := ls.getD idx GRAPH_NO_LABEL
      if l ≠ GRAPH_NO_LABEL then
        let g := g.resizeLab l.toNat
        { g with labels := (g.labels.set l.toNat
            ((labD g l.toNat).setElement (node_id + idx) (node_id + idx))) }
      else g) g

/-- `Graph_ConnectNodes`: the flat `(src, dest, rel)` triple array.  The
adjacency handle is fetched once before the loop; each typed edge also
fetches (and thus resizes) its relation matrix. -/
def Graph_ConnectNodes (g : Graph) (conns : List (Nat × Nat × Int)) : Graph :=
  let g := g.resizeAdj
  conns.foldl (fun g c =>
    let src_id := c.1
    let dest_id := c.2.1
    let r := c.2.2
    let g := { g with adjacency_matrix := g.adjacency_matrix.setElement dest_id src_id }
    if r ≠ GRAPH_NO_RELATION then
      let g := g.resizeRel r.toNat
      { g with relations := (g.relations.set r.toNat
          ((relD g r.toNat).setElement dest_id src_id)) }
    else g) g

/-- `Graph_GetNode`: `none` models both the assertion failure
(`id ≥ node_count`) and the defensive NULL return when the block index
is out of range.  The accessor rewrites the slot's id field before
returning, so the returned record always carries `id`. -/
def Graph_GetNode (g : Graph) (id : Nat) : Option GNode :=
  if id < g.node_count then
    if id / NODEBLOCK_CAP < g.block_count then
      some { g.nodes id with id := id }
    else none
  else none

/-- `_Graph_NodeBlockMigrateNode`: `Graph_GetNode(g, src)` yields a
pointer into slot `src`; `srcNode->id = dest` mutates that slot, and the
record (with the rewritten id) is then copied into slot `dest`.  The C
asserts `src < node_count` via `Graph_GetNode`. -/
def _Graph_NodeBlockMigrateNode (g : Graph) (src dest : Nat) : Graph :=
  let srcNode : GNode := { g.nodes src with id := dest }
  { g with nodes := fun k =>
      if k = src then srcNode else if k = dest then srcNode else g.nodes k }

/-- The three matrix operations `_Graph_MigrateRowCol` performs on one
matrix: clear column `dest`; extract row `src` (transposed column
extract) and assign it as row `dest`; extract column `src` and assign it
as column `dest`.  Each extraction reads the current state. -/
def GMatrix.migrateRowCol (m : GMatrix) (n src dest : Nat) : GMatrix :=
  let m1 := m.clearColumn n dest
  let m2 := m1.assignRow n dest (fun j => m1.entry src j)
  m2.assignColumn n dest (fun i => m2.entry i src)

/-- `_Graph_MigrateRowCol`: apply the row/column migration to the
adjacency matrix and then to every relation matrix, with
`nrows = node_count` captured at entry.  Each matrix is fetched through
its accessor (and thus resized). -/
def _Graph_MigrateRowCol (g : Graph) (src dest : Nat) : Graph :=
  let n := g.node_count
  let g := g.resizeAdj
  let g := { g with adjacency_matrix := g.adjacency_matrix.migrateRowCol n src dest }
  (List.range g.relations.length).foldl (fun g k =>
    let g := g.resizeRel k
    { g with relations := g.relations.set k ((relD g k).migrateRowCol n src dest) }) g

/-- `_Graph_ClearMatrixEntry(g, M, src, dest)`: column `src` is
extracted under the structural complement of a mask holding only `dest`
with `GrB_REPLACE` (so the extracted column is column `src` minus row
`dest`) and assigned back over rows `[0, n)`, clearing `M[dest, src]`.
`n` is `g->node_count`. -/
def _Graph_ClearMatrixEntry (n : Nat) (m : GMatrix) (src dest : Nat) : GMatrix :=
  m.assignColumn n src (fun i => if i = dest then false else m.entry i src)

/-- `_replace_deleted_node`: reconcile every label matrix between the
replacement (donor) and deleted (hole) diagonal cells, then migrate the
donor's row/column in the adjacency and relation matrices, then move the
node record.  The `zero` vector argument of the C function is only used
for the label column clear and is inlined. -/
def _replace_deleted_node (g : Graph) (replacement to_delete : Nat) : Graph :=
  let g := (List.range g.labels.length).foldl (fun g k =>
    let g := g.resizeLab k
    let m := labD g k
    let src_has_label := m.entry replacement replacement
    let dest_has_label := m.entry to_delete to_delete
    if dest_has_label && !src_has_label then
      { g with labels := g.labels.set k (m.clearColumn (Graph_NodeCount g) to_delete) }
    else if !dest_has_label && src_has_label then
      { g with labels := g.labels.set k (m.setElement to_delete to_delete) }
    else g) g
  let g := _Graph_MigrateRowCol g replacement to_delete
  _Graph_NodeBlockMigrateNode g replacement to_delete

/-- The inner skip loop of `Graph_DeleteNodes`:
`while (id_to_save == IDs[largest_delete_idx]) { id_to_save--; largest_delete_idx--; }`.
Structural recursion on `id_to_save`; on valid sorted input the loop
never reaches `id_to_save = 0` while matching (the C would underflow
`largest_delete_idx` there). -/
def _skipDeleted (IDs : List Nat) : Nat → Nat → Nat × Nat
  | 0, ldIdx => (0, ldIdx)
  | s + 1, ldIdx =>
    if s + 1 = IDs.getD ldIdx 0 then _skipDeleted IDs s (ldIdx - 1)
    else (s + 1, ldIdx)

/-- The main `while` loop of `Graph_DeleteNodes`.  `fuel` is the number
of hole indices left (`IDs.length - holeIdx`); the loop advances
`holeIdx` every iteration and breaks past `IDs.length`, so the fuel is
exact and the `0` case is never reached from `Graph_DeleteNodes`. -/
def _deleteLoop (IDs : List Nat) (post : Nat) :
    Nat → Graph → Nat → Nat → Nat → Graph
  | 0, g, _, _, _ => g
  | fuel + 1, g, save, ldIdx, holeIdx =>
    if IDs.getD holeIdx 0 < post then
      let sk := _skipDeleted IDs save ldIdx
      let g' := _replace_deleted_node g sk.1 (IDs.getD holeIdx 0)
      if holeIdx + 1 < IDs.length then
        _deleteLoop IDs post fuel g' (sk.1 - 1) sk.2 (holeIdx + 1)
      else g'
    else g

/-- `Graph_DeleteNodes`: swap-down compaction over a sorted id array,
then commit the new `node_count` and force-resize the adjacency
matrix.  Relation and label matrices are not resized here. -/
def Graph_DeleteNodes (g : Graph) (IDs : List Nat) : Graph :=
  if IDs.length = 0 then g
  else
    let post_delete_count := g.node_count - IDs.length
    let g' := _deleteLoop IDs post_delete_count IDs.length g
      (g.node_count - 1) (IDs.length - 1) 0
    let g'' := { g' with node_count := post_delete_count }
    { g'' with adjacency_matrix := _Graph_ResizeMatrix g'' g''.adjacency_matrix }

/-- `_Graph_DeleteEdges`: clear the adjacency entry, then clear the
entry from every relation matrix that holds it. -/
def _Graph_DeleteEdges (g : Graph) (src_id dest_id : Nat) : Graph :=
  let g := g.resizeAdj
  let g := { g with adjacency_matrix :=
    _Graph_ClearMatrixEntry g.node_count g.adjacency_matrix src_id dest_id }
  (List.range g.relations.length).foldl (fun g k =>
    let g := g.resizeRel k
    if (relD g k).entry dest_id src_id then
      { g with relations := (g.relations.set k
          (_Graph_ClearMatrixEntry g.node_count (relD g k) src_id dest_id)) }
    else g) g

/-- The scan in `_Graph_DeleteTypedEdges` looking for another relation
that still connects source to destination; it breaks at the first hit,
resizing each matrix it touches on the way. -/
def _scanRelations (src_id dest_id : Nat) : Graph → List Nat → Graph × Bool
  | g, [] => (g, false)
  | g, k :: rest =>
    let g := g.resizeRel k
    if (relD g k).entry dest_id src_id then (g, true)
    else _scanRelations src_id dest_id g rest

/-- `_Graph_DeleteTypedEdges`. -/
def _Graph_DeleteTypedEdges (g : Graph) (src_id dest_id relation : Nat) : Graph :=
  let g := g.resizeRel relation
  if !(relD g relation).entry dest_id src_id then g
  else
    let g := { g with relations := (g.relations.set relation
      (_Graph_ClearMatrixEntry g.node_count (relD g relation) src_id dest_id)) }
    let sc := _scanRelations src_id dest_id g (List.range g.relations.length)
    if sc.2 then sc.1
    else
      let g := sc.1.resizeAdj
      { g with adjacency_matrix :=
          _Graph_ClearMatrixEntry g.node_count g.adjacency_matrix src_id dest_id }

/-- `Graph_DeleteEdge` (asserts `src_id, dest_id < node_count` in C):
return unless the adjacency matrix holds the edge, then dispatch on the
relation argument. -/
def Graph_DeleteEdge (g : Graph) (src_id dest_id : Nat) (relation : Int) : Graph :=
  let g := g.resizeAdj
  if !(g.adjacency_matrix.entry dest_id src_id) then g
  else if relation = GRAPH_NO_RELATION then _Graph_DeleteEdges g src_id dest_id
  else _Graph_DeleteTypedEdges g src_id dest_id relation.toNat

/-- `Graph_LabelNodes` (asserts `start ≤ end < node_count` and a valid
label in C; the iterator out-parameter is dropped). -/
def Graph_LabelNodes (g : Graph) (start_id end_id lbl : Nat) : Graph :=
  let g := g.resizeLab lbl
  { g with labels := (g.labels.set lbl
      ((List.range (end_id + 1 - start_id)).foldl
        (fun m k => m.setElement (start_id + k) (start_id + k))
        (labD g lbl))) }

/-- `Graph_AddLabelMatrix`: append a fresh `(node_cap, node_cap)` empty
matrix and return its index. -/
def Graph_AddLabelMatrix (g : Graph) : Graph × Nat :=
  ({ g with labels := g.labels ++ [GMatrix.new g.node_cap g.node_cap] },
   g.labels.length)

/-- `Graph_AddRelationMatrix`: append a fresh `(node_cap, node_cap)`
empty matrix and return its index. -/
def Graph_AddRelationMatrix (g : Graph) : Graph × Nat :=
  ({ g with relations := g.relations ++ [GMatrix.new g.node_cap g.node_cap] },
   g.relations.length)

/-! ### Public operations as a step relation (for reachability claims) -/

/-- One public mutation of the graph façade, with its arguments. -/
inductive GOp where
  | create (n : Nat) (lbls : Option (List Int))
  | connect (conns : List (Nat × Nat × Int))
  | labelRange (start_id end_id lbl : Nat)
  | delEdge (src_id dest_id : Nat) (relation : Int)
  | delNodes (ids : List Nat)
  | addRel
  | addLabel

/-- The preconditions the C code enforces with `assert` (or that rule
out undefined behaviour such as indexing a handle array with a negative
non-sentinel value).  A violating call aborts the process, so reachable
states only arise from valid calls. -/
def GValid (g : Graph) : GOp → Prop
  | .create _ none => True
  | .create n (some ls) =>
      ls.length = n ∧
      ∀ x ∈ ls, x = GRAPH_NO_LABEL ∨ (0 ≤ x ∧ x.toNat < g.labels.length)
  | .connect conns =>
      ∀ c ∈ conns, c.2.2 = GRAPH_NO_RELATION ∨ (0 ≤ c.2.2 ∧ c.2.2.toNat < g.relations.length)
  | .labelRange a b l => a ≤ b ∧ b < g.node_count ∧ l < g.labels.length
  | .delEdge s d r =>
      s < g.node_count ∧ d < g.node_count ∧
      (r = GRAPH_NO_RELATION ∨ (0 ≤ r ∧ r.toNat < g.relations.length))
  | .delNodes ids => ids.Pairwise (· < ·) ∧ ∀ x ∈ ids, x < g.node_count
  | .addRel => True
  | .addLabel => True

instance (g : Graph) (op : GOp) : Decidable (GValid g op) := by
  cases op with
  | create n ls => cases ls <;> · unfold GValid; infer_instance
  | connect conns => unfold GValid; infer_instance
  | labelRange a b l => unfold GValid; infer_instance
  | delEdge s d r => unfold GValid; infer_instance
  | delNodes ids => unfold GValid; infer_instance
  | addRel => unfold GValid; infer_instance
  | addLabel => unfold GValid; infer_instance

/-- Apply one public mutation; an invalid call (which would abort the C
process) leaves the state unchanged. -/
def GStep (g : Graph) (op : GOp) : Graph :=
  if GValid g op then
    match op with
    | .create n ls => Graph_CreateNodes g n ls
    | .connect conns => Graph_ConnectNodes g conns
    | .labelRange a b l => Graph_LabelNodes g a b l
    | .delEdge s d r => Graph_DeleteEdge g s d r
    | .delNodes ids => Graph_DeleteNodes g ids
    | .addRel => (Graph_AddRelationMatrix g).1
    | .addLabel => (Graph_AddLabelMatrix g).1
  else g

/-- Run a sequence of public mutations. -/
def applyOps (g : Graph) (ops : List GOp) : Graph := ops.foldl GStep g

/-! ### Data-model invariants (spec §3)

`WF g` collects the invariants the spec requires at method boundaries:
the capacity bookkeeping, squareness and size of every owned matrix,
confinement of all nonzero entries to `[0, node_count)²` (invariant 4),
and the relation-implies-adjacency inclusion (invariant 1). -/

structure WF (g : Graph) : Prop where
  cap_eq : g.node_cap = g.block_count * NODEBLOCK_CAP
  count_le_cap : g.node_count ≤ g.node_cap
  adj_sq : g.adjacency_matrix.nrows = g.adjacency_matrix.ncols
  adj_ge : g.node_count ≤ g.adjacency_matrix.nrows
  adj_conf : ∀ i j, g.adjacency_matrix.entry i j = true →
    i < g.node_count ∧ j < g.node_count
  rel_sq : ∀ k, (relD g k).nrows = (relD g k).ncols
  rel_ge : ∀ k, k < g.relations.length → g.node_count ≤ (relD g k).nrows
  rel_conf : ∀ k i j, (relD g k).entry i j = true →
    i < g.node_count ∧ j < g.node_count
  lab_sq : ∀ k, (labD g k).nrows = (labD g k).ncols
  lab_ge : ∀ k, k < g.labels.length → g.node_count ≤ (labD g k).nrows
  lab_conf : ∀ k i j, (labD g k).entry i j = true →
    i < g.node_count ∧ j < g.node_count
  sub : ∀ k i j, (relD g k).entry i j = true → g.adjacency_matrix.entry i j = true

/-! ### Basic lemmas about the matrix primitives -/

lemma getD_set {α : Type} (l : List α) (i k : Nat) (a d : α) :
    (l.set i a).getD k d = if i = k ∧ i < l.length then a else l.getD k d := by
  simp only [List.getD_eq_getElem?_getD, List.getElem?_set]
  by_cases h : i = k
  · subst h
    by_cases h2 : i < l.length
    · simp [h2]
    · simp [h2, List.getElem?_eq_none (Nat.le_of_not_lt h2)]
  · simp [h]

lemma getD_set_ne {α : Type} (l : List α) (i k : Nat) (a d : α) (h : i ≠ k) :
    (l.set i a).getD k d = l.getD k d := by
  rw [getD_set]; simp [h]

@[simp] lemma GMatrix.new_entry (r c i j : Nat) : (GMatrix.new r c).entry i j = false := rfl

lemma GMatrix.resize_entry (m : GMatrix) (r c i j : Nat) :
    (m.resize r c).entry i j = if i < r ∧ j < c then m.entry i j else false := rfl

lemma GMatrix.setElement_entry (m : GMatrix) (r c i j : Nat) :
    (m.setElement r c).entry i j =
      if (r < m.nrows ∧ c < m.ncols) ∧ i = r ∧ j = c then true else m.entry i j := by
  unfold GMatrix.setElement
  by_cases h : r < m.nrows ∧ c < m.ncols
  · simp only [if_pos h]
    by_cases h2 : i = r ∧ j = c <;> simp [h, h2]
  · simp [h]

lemma GMatrix.setElement_entry_inb (m : GMatrix) (r c i j : Nat)
    (h1 : r < m.nrows) (h2 : c < m.ncols) :
    (m.setElement r c).entry i j = if i = r ∧ j = c then true else m.entry i j := by
  rw [GMatrix.setElement_entry]
  by_cases h : i = r ∧ j = c <;> simp [h, h1, h2]

lemma GMatrix.setElement_nrows (m : GMatrix) (r c : Nat) :
    (m.setElement r c).nrows = m.nrows := by
  unfold GMatrix.setElement; split <;> rfl

lemma GMatrix.setElement_ncols (m : GMatrix) (r c : Nat) :
    (m.setElement r c).ncols = m.ncols := by
  unfold GMatrix.setElement; split <;> rfl

@[simp] lemma GMatrix.clearColumn_entry (m : GMatrix) (n col i j : Nat) :
    (m.clearColumn n col).entry i j =
      if j = col ∧ i < n then false else m.entry i j := rfl

@[simp] lemma GMatrix.assignRow_entry (m : GMatrix) (n row : Nat) (v : Nat → Bool) (i j : Nat) :
    (m.assignRow n row v).entry i j = if i = row ∧ j < n then v j else m.entry i j := rfl

@[simp] lemma GMatrix.assignColumn_entry (m : GMatrix) (n col : Nat) (v : Nat → Bool) (i j : Nat) :
    (m.assignColumn n col v).entry i j = if j = col ∧ i < n then v i else m.entry i j := rfl

lemma _Graph_ResizeMatrix_nrows (g : Graph) (m : GMatrix) :
    (_Graph_ResizeMatrix g m).nrows = g.node_count := by
  unfold _Graph_ResizeMatrix
  by_cases h : m.nrows = g.node_count <;> simp [h, GMatrix.resize]

lemma _Graph_ResizeMatrix_ncols (g : Graph) (m : GMatrix) (hsq : m.nrows = m.ncols) :
    (_Graph_ResizeMatrix g m).ncols = g.node_count := by
  unfold _Graph_ResizeMatrix
  by_cases h : m.nrows = g.node_count <;> simp [h, GMatrix.resize]
  omega

/-- Resizing through an accessor never changes an entry inside
`[0, node_count)²`. -/
lemma _Graph_ResizeMatrix_entry_lt (g : Graph) (m : GMatrix) (i j : Nat)
    (hi : i < g.node_count) (hj : j < g.node_count) :
    (_Graph_ResizeMatrix g m).entry i j = m.entry i j := by
  unfold _Graph_ResizeMatrix
  by_cases h : m.nrows = g.node_count <;> simp [h, GMatrix.resize_entry, hi, hj]

/-- Resizing through an accessor is entry-invisible on a matrix whose
entries are confined to `[0, node_count)²`. -/
lemma _Graph_ResizeMatrix_entry_conf (g : Graph) (m : GMatrix)
    (conf : ∀ i j, m.entry i j = true → i < g.node_count ∧ j < g.node_count) (i j : Nat) :
    (_Graph_ResizeMatrix g m).entry i j = m.entry i j := by
  unfold _Graph_ResizeMatrix
  by_cases h : m.nrows = g.node_count
  · simp [h]
  · simp only [if_pos h, GMatrix.resize_entry]
    by_cases hb : i < g.node_count ∧ j < g.node_count
    · simp [hb]
    · simp only [if_neg hb]
      cases he : m.entry i j with
      | false => rfl
      | true => exact absurd (conf i j he) hb

/-! ### C7: accessors return matrices of dimension `node_count` -/

/-- C7: every matrix handle accessor (`Graph_GetAdjacencyMatrix`,
`Graph_GetRelationMatrix` with a valid index, `Graph_GetLabelMatrix`
with a valid index) returns a matrix whose row and column dimensions
both equal the graph's current `node_count`, in every state (the C
state always has square matrices, which is the only structural fact
used) and regardless of how `node_count` changed since the matrix was
last accessed. -/
theorem accessors_return_node_count_dims (g : Graph)
    (hadj : g.adjacency_matrix.nrows = g.adjacency_matrix.ncols)
    (hrel : ∀ k, k < g.relations.length → (relD g k).nrows = (relD g k).ncols)
    (hlab : ∀ k, k < g.labels.length → (labD g k).nrows = (labD g k).ncols) :
    ((Graph_GetAdjacencyMatrix g).nrows = g.node_count ∧
     (Graph_GetAdjacencyMatrix g).ncols = g.node_count) ∧
    (∀ k, k < g.relations.length →
      (Graph_GetRelationMatrix g k).nrows = g.node_count ∧
      (Graph_GetRelationMatrix g k).ncols = g.node_count) ∧
    (∀ k, k < g.labels.length →
      (Graph_GetLabelMatrix g k).nrows = g.node_count ∧
      (Graph_GetLabelMatrix g k).ncols = g.node_count) := by
  refine ⟨⟨_Graph_ResizeMatrix_nrows g _, _Graph_ResizeMatrix_ncols g _ hadj⟩, ?_, ?_⟩
  · intro k hk
    exact ⟨_Graph_ResizeMatrix_nrows g _, _Graph_ResizeMatrix_ncols g _ (hrel k hk)⟩
  · intro k hk
    exact ⟨_Graph_ResizeMatrix_nrows g _, _Graph_ResizeMatrix_ncols g _ (hlab k hk)⟩

/-- Witness for C7 on a concrete stale state: two nodes but an
adjacency matrix still sized `1 × 1` and one relation matrix sized
`5 × 5`; both accessors return `2 × 2`. -/
def gW7 : Graph :=
  { node_count := 2
    node_cap := NODEBLOCK_CAP
    block_count := 1
    nodes := fun _ => default
    adjacency_matrix := GMatrix.new 1 1
    relations := [GMatrix.new 5 5]
    labels := [] }

theorem accessors_return_node_count_dims_witness :
    ((Graph_GetAdjacencyMatrix gW7).nrows = 2 ∧
     (Graph_GetAdjacencyMatrix gW7).ncols = 2) ∧
    (Graph_GetRelationMatrix gW7 0).nrows = 2 := by
  have h := accessors_return_node_count_dims gW7 (by decide)
    (by intro k hk
        have hk1 : k = 0 := by simp [gW7] at hk; omega
        subst hk1; decide)
    (by intro k hk; simp [gW7] at hk)
  exact ⟨h.1, (h.2.1 0 (by decide)).1⟩

/-! ### C8: `Graph_New` capacity (code bug) -/

/-- C8: the claim says `Graph_New(hint_n)` allocates capacity for at
least `hint_n` nodes, matching the comment on
`GRAPH_NODE_COUNT_TO_BLOCK_COUNT` ("the number of blocks required to
accommodate n nodes"); but `MAX(1, n / NODEBLOCK_CAP)` rounds down, so
`hint_n = NODEBLOCK_CAP + 1` yields a single block of `NODEBLOCK_CAP`
slots.  The `node_count = 0` and adjacency-creation parts do hold. -/
theorem graph_new_cap_shortfall :
    (Graph_New (NODEBLOCK_CAP + 1)).node_cap = NODEBLOCK_CAP ∧
    (Graph_New (NODEBLOCK_CAP + 1)).node_cap < NODEBLOCK_CAP + 1 ∧
    (Graph_New (NODEBLOCK_CAP + 1)).node_count = 0 ∧
    (Graph_New (NODEBLOCK_CAP + 1)).adjacency_matrix.nrows = NODEBLOCK_CAP := by
  refine ⟨?_, ?_, rfl, ?_⟩ <;> decide

/-! ### C9: `Graph_GetNode` rewrites the id field -/

/-- C9: for every graph (with the structural capacity bookkeeping
`node_cap = block_count * NODEBLOCK_CAP` and `node_count ≤ node_cap`)
and every `id < node_count`, `Graph_GetNode` returns a node whose `id`
field equals `id`, regardless of what the underlying slot held: the
accessor rewrites the id field on every call. -/
theorem getNode_rewrites_id (g : Graph) (id : Nat) (hid : id < g.node_count)
    (hcap : g.node_count ≤ g.node_cap)
    (hbc : g.node_cap = g.block_count * NODEBLOCK_CAP) :
    Graph_GetNode g id = some { g.nodes id with id := id } := by
  have hlt : id < g.block_count * NODEBLOCK_CAP := by omega
  have hb : id / NODEBLOCK_CAP < g.block_count :=
    Nat.div_lt_of_lt_mul (by rw [Nat.mul_comm]; exact hlt)
  unfold Graph_GetNode
  simp [hid, hb]

/-- Witness for C9: a slot whose stored id field is garbage (`99`). -/
def gW9 : Graph :=
  { node_count := 1
    node_cap := NODEBLOCK_CAP
    block_count := 1
    nodes := fun _ => ⟨99, 7⟩
    adjacency_matrix := GMatrix.new 1 1
    relations := []
    labels := [] }

theorem getNode_rewrites_id_witness :
    Graph_GetNode gW9 0 = some ⟨0, 7⟩ :=
  getNode_rewrites_id gW9 0 (by decide) (by decide) rfl

/-! ### Entry-level equality of graph states

Accessors resize stale matrices in place, so "leaves the matrices
unchanged" is captured at the level of entries (and collection sizes),
which is what the matrices denote. -/

def EntriesEq (g g' : Graph) : Prop :=
  (∀ i j, g'.adjacency_matrix.entry i j = g.adjacency_matrix.entry i j) ∧
  g'.relations.length = g.relations.length ∧
  (∀ k i j, (relD g' k).entry i j = (relD g k).entry i j) ∧
  g'.labels.length = g.labels.length ∧
  (∀ k i j, (labD g' k).entry i j = (labD g k).entry i j)

lemma EntriesEq.refl (g : Graph) : EntriesEq g g :=
  ⟨fun _ _ => rfl, rfl, fun _ _ _ => rfl, rfl, fun _ _ _ => rfl⟩

lemma EntriesEq.trans {g g' g'' : Graph} (h1 : EntriesEq g g') (h2 : EntriesEq g' g'') :
    EntriesEq g g'' :=
  ⟨fun i j => (h2.1 i j).trans (h1.1 i j),
   h2.2.1.trans h1.2.1,
   fun k i j => (h2.2.2.1 k i j).trans (h1.2.2.1 k i j),
   h2.2.2.2.1.trans h1.2.2.2.1,
   fun k i j => (h2.2.2.2.2 k i j).trans (h1.2.2.2.2 k i j)⟩

@[simp] lemma resizeAdj_node_count (g : Graph) : (g.resizeAdj).node_count = g.node_count := rfl

@[simp] lemma resizeAdj_relations (g : Graph) : (g.resizeAdj).relations = g.relations := rfl

@[simp] lemma resizeAdj_labels (g : Graph) : (g.resizeAdj).labels = g.labels := rfl

@[simp] lemma resizeAdj_nodes (g : Graph) : (g.resizeAdj).nodes = g.nodes := rfl

@[simp] lemma resizeAdj_node_cap (g : Graph) : (g.resizeAdj).node_cap = g.node_cap := rfl

@[simp] lemma resizeRel_node_count (g : Graph) (k : Nat) :
    (g.resizeRel k).node_count = g.node_count := rfl

@[simp] lemma resizeRel_adjacency (g : Graph) (k : Nat) :
    (g.resizeRel k).adjacency_matrix = g.adjacency_matrix := rfl

@[simp] lemma resizeRel_labels (g : Graph) (k : Nat) : (g.resizeRel k).labels = g.labels := rfl

@[simp] lemma resizeRel_nodes (g : Graph) (k : Nat) : (g.resizeRel k).nodes = g.nodes := rfl

@[simp] lemma resizeRel_length (g : Graph) (k : Nat) :
    (g.resizeRel k).relations.length = g.relations.length := by
  unfold Graph.resizeRel; simp

@[simp] lemma resizeLab_node_count (g : Graph) (k : Nat) :
    (g.resizeLab k).node_count = g.node_count := rfl

@[simp] lemma resizeLab_adjacency (g : Graph) (k : Nat) :
    (g.resizeLab k).adjacency_matrix = g.adjacency_matrix := rfl

@[simp] lemma resizeLab_relations (g : Graph) (k : Nat) :
    (g.resizeLab k).relations = g.relations := rfl

@[simp] lemma resizeLab_nodes (g : Graph) (k : Nat) : (g.resizeLab k).nodes = g.nodes := rfl

@[simp] lemma resizeLab_length (g : Graph) (k : Nat) :
    (g.resizeLab k).labels.length = g.labels.length := by
  unfold Graph.resizeLab; simp

lemma relD_resizeRel (g : Graph) (k m : Nat) :
    relD (g.resizeRel k) m =
      if k = m ∧ k < g.relations.length then _Graph_ResizeMatrix g (relD g k) else relD g m := by
  unfold Graph.resizeRel relD Graph_GetRelationMatrix
  exact getD_set _ _ _ _ _

lemma labD_resizeLab (g : Graph) (k m : Nat) :
    labD (g.resizeLab k) m =
      if k = m ∧ k < g.labels.length then _Graph_ResizeMatrix g (labD g k) else labD g m := by
  unfold Graph.resizeLab labD Graph_GetLabelMatrix
  exact getD_set _ _ _ _ _

/-- Touching a relation matrix through its accessor is entry-invisible
when its entries are confined to the live region. -/
lemma relD_resizeRel_entry (g : Graph) (k m : Nat)
    (conf : ∀ i j, (relD g k).entry i j = true → i < g.node_count ∧ j < g.node_count)
    (i j : Nat) : (relD (g.resizeRel k) m).entry i j = (relD g m).entry i j := by
  rw [relD_resizeRel]
  by_cases h : k = m ∧ k < g.relations.length
  · rw [if_pos h]
    rcases h with ⟨h1, _⟩
    subst h1
    exact _Graph_ResizeMatrix_entry_conf g _ conf i j
  · rw [if_neg h]

lemma labD_resizeLab_entry (g : Graph) (k m : Nat)
    (conf : ∀ i j, (labD g k).entry i j = true → i < g.node_count ∧ j < g.node_count)
    (i j : Nat) : (labD (g.resizeLab k) m).entry i j = (labD g m).entry i j := by
  rw [labD_resizeLab]
  by_cases h : k = m ∧ k < g.labels.length
  · rw [if_pos h]
    rcases h with ⟨h1, _⟩
    subst h1
    exact _Graph_ResizeMatrix_entry_conf g _ conf i j
  · rw [if_neg h]

lemma resizeAdj_entry (g : Graph)
    (conf : ∀ i j, g.adjacency_matrix.entry i j = true →
      i < g.node_count ∧ j < g.node_count) (i j : Nat) :
    (g.resizeAdj).adjacency_matrix.entry i j = g.adjacency_matrix.entry i j :=
  _Graph_ResizeMatrix_entry_conf g _ conf i j

/-- The single-entry clear: with the cleared row inside `[0, n)`,
exactly entry `(dest, src)` is unset. -/
lemma clearMatrixEntry_entry (n : Nat) (m : GMatrix) (src dest : Nat)
    (hdest : dest < n) (i j : Nat) :
    (_Graph_ClearMatrixEntry n m src dest).entry i j =
      if i = dest ∧ j = src then false else m.entry i j := by
  unfold _Graph_ClearMatrixEntry
  rw [GMatrix.assignColumn_entry]
  by_cases hj : j = src
  · subst hj
    by_cases hi : i < n
    · simp only [hi, and_true, if_pos rfl, true_and]
      by_cases hd : i = dest <;> simp [hd]
    · have hd : ¬(i = dest) := by omega
      simp [hi, hd]
  · simp [hj]

@[simp] lemma clearMatrixEntry_nrows (n : Nat) (m : GMatrix) (src dest : Nat) :
    (_Graph_ClearMatrixEntry n m src dest).nrows = m.nrows := rfl

@[simp] lemma clearMatrixEntry_ncols (n : Nat) (m : GMatrix) (src dest : Nat) :
    (_Graph_ClearMatrixEntry n m src dest).ncols = m.ncols := rfl

/-- Specification of the relation scan in `_Graph_DeleteTypedEdges`:
only relation matrices are touched (and only by entry-invisible
resizes), and the boolean reports whether any listed relation holds
`(dest, src)`. -/
lemma scanRelations_spec (src dest : Nat) (g : Graph) (L : List Nat)
    (conf : ∀ k i j, (relD g k).entry i j = true → i < g.node_count ∧ j < g.node_count) :
    ((_scanRelations src dest g L).1.adjacency_matrix = g.adjacency_matrix) ∧
    (_scanRelations src dest g L).1.node_count = g.node_count ∧
    (_scanRelations src dest g L).1.labels = g.labels ∧
    (_scanRelations src dest g L).1.nodes = g.nodes ∧
    (_scanRelations src dest g L).1.relations.length = g.relations.length ∧
    (∀ k i j, (relD (_scanRelations src dest g L).1 k).entry i j = (relD g k).entry i j) ∧
    ((_scanRelations src dest g L).2 = true ↔
      ∃ k ∈ L, (relD g k).entry dest src = true) := by
  induction L generalizing g with
  | nil =>
    refine ⟨rfl, rfl, rfl, rfl, rfl, fun _ _ _ => rfl, ?_⟩
    simp [_scanRelations]
  | cons k rest ih =>
    have hconf1 : ∀ m i j, (relD (g.resizeRel k) m).entry i j = true →
        i < g.node_count ∧ j < g.node_count := by
      intro m i j h
      rw [relD_resizeRel_entry g k m (conf k)] at h
      exact conf m i j h
    have hunf : _scanRelations src dest g (k :: rest) =
        if (relD (g.resizeRel k) k).entry dest src then (g.resizeRel k, true)
        else _scanRelations src dest (g.resizeRel k) rest := rfl
    rw [hunf]
    by_cases hc : (relD (g.resizeRel k) k).entry dest src = true
    · rw [if_pos hc]
      refine ⟨rfl, rfl, rfl, rfl, by simp, ?_, ?_⟩
      · intro m i j; exact relD_resizeRel_entry g k m (conf k) i j
      · simp only [true_iff]
        refine ⟨k, List.mem_cons_self k rest, ?_⟩
        rw [relD_resizeRel_entry g k k (conf k)] at hc
        exact hc
    · rw [if_neg hc]
      have ih' := ih (g.resizeRel k) hconf1
      rcases ih' with ⟨a1, a2, a3, a4, a5, a6, a7⟩
      refine ⟨a1.trans (by rfl), a2.trans (by rfl), a3.trans (by rfl), a4.trans (by rfl),
        a5.trans (by simp), ?_, ?_⟩
      · intro m i j
        rw [a6 m i j]
        exact relD_resizeRel_entry g k m (conf k) i j
      · rw [a7]
        constructor
        · rintro ⟨m, hm, he⟩
          refine ⟨m, List.mem_cons_of_mem _ hm, ?_⟩
          rw [relD_resizeRel_entry g k m (conf k)] at he
          exact he
        · rintro ⟨m, hm, he⟩
          rcases List.mem_cons.1 hm with h | h
          · rw [h] at he
            rw [relD_resizeRel_entry g k k (conf k) dest src] at hc
            exact absurd he hc
          · refine ⟨m, h, ?_⟩
            rw [relD_resizeRel_entry g k m (conf k)]
            exact he

/-! ### C10: a clear adjacency entry short-circuits `Graph_DeleteEdge` -/

/-- C10: for every graph satisfying the data-model invariants and all
live ids `src_id, dest_id`, if the adjacency matrix entry
`(dest_id, src_id)` is clear then `Graph_DeleteEdge` returns without
modifying any matrix entry, for every `relation` value including valid
relation indices: the adjacency entry is checked before any relation
matrix is consulted. -/
theorem deleteEdge_noop_without_adjacency (g : Graph) (src_id dest_id : Nat)
    (relation : Int) (hWF : WF g)
    (hs : src_id < g.node_count) (hd : dest_id < g.node_count)
    (hadj : g.adjacency_matrix.entry dest_id src_id = false) :
    EntriesEq g (Graph_DeleteEdge g src_id dest_id relation) := by
  unfold Graph_DeleteEdge
  have he : (g.resizeAdj).adjacency_matrix.entry dest_id src_id = false := by
    rw [resizeAdj_entry g hWF.adj_conf]; exact hadj
  simp only [he, Bool.not_false, if_pos]
  exact ⟨fun i j => resizeAdj_entry g hWF.adj_conf i j, rfl, fun _ _ _ => rfl, rfl,
    fun _ _ _ => rfl⟩

/-- A concrete well-formed two-node graph with one typed edge
`0 → 1` of relation 0 (adjacency and relation matrix both hold
`(1, 0)`), plus one label matrix marking node 1. -/
def gW : Graph :=
  { node_count := 2
    node_cap := NODEBLOCK_CAP
    block_count := 1
    nodes := fun k => ⟨k, k + 10⟩
    adjacency_matrix := ⟨2, 2, fun i j => decide (i = 1 ∧ j = 0)⟩
    relations := [⟨2, 2, fun i j => decide (i = 1 ∧ j = 0)⟩]
    labels := [⟨2, 2, fun i j => decide (i = 1 ∧ j = 1)⟩] }

lemma gW_wf : WF gW := by
  refine ⟨by decide, by decide, rfl, by decide, ?_, ?_, ?_, ?_, ?_, ?_, ?_, ?_⟩
  · intro i j h
    simp only [gW] at h ⊢
    have := of_decide_eq_true h
    omega
  · intro k
    match k with
    | 0 => rfl
    | n + 1 => rfl
  · intro k hk
    match k with
    | 0 => decide
  · intro k i j h
    match k with
    | 0 =>
      simp only [gW, relD, List.getD] at h
      have := of_decide_eq_true h
      simp only [gW]
      omega
    | n + 1 =>
      simp [relD, gW, List.getD] at h
  · intro k
    match k with
    | 0 => rfl
    | n + 1 => rfl
  · intro k hk
    match k with
    | 0 => decide
  · intro k i j h
    match k with
    | 0 =>
      simp only [gW, labD, List.getD] at h
      have := of_decide_eq_true h
      simp only [gW]
      omega
    | n + 1 =>
      simp [labD, gW, List.getD] at h
  · intro k i j h
    match k with
    | 0 => exact h
    | n + 1 => simp [relD, gW, List.getD] at h

theorem deleteEdge_noop_without_adjacency_witness :
    EntriesEq gW (Graph_DeleteEdge gW 1 0 0) :=
  deleteEdge_noop_without_adjacency gW 1 0 0 gW_wf (by decide) (by decide) (by decide)

/-! ### Typed edge deletion -/

lemma WF_resizeAdj {g : Graph} (hWF : WF g) : WF g.resizeAdj := by
  have hent : ∀ i j, (g.resizeAdj).adjacency_matrix.entry i j = g.adjacency_matrix.entry i j :=
    resizeAdj_entry g hWF.adj_conf
  refine ⟨hWF.cap_eq, hWF.count_le_cap, ?_, ?_, ?_, hWF.rel_sq, hWF.rel_ge, hWF.rel_conf,
    hWF.lab_sq, hWF.lab_ge, hWF.lab_conf, ?_⟩
  · show (_Graph_ResizeMatrix g g.adjacency_matrix).nrows = (_Graph_ResizeMatrix g g.adjacency_matrix).ncols
    rw [_Graph_ResizeMatrix_nrows, _Graph_ResizeMatrix_ncols g _ hWF.adj_sq]
  · show g.node_count ≤ (_Graph_ResizeMatrix g g.adjacency_matrix).nrows
    rw [_Graph_ResizeMatrix_nrows]
  · intro i j h
    rw [hent] at h
    exact hWF.adj_conf i j h
  · intro k i j h
    rw [hent]
    exact hWF.sub k i j h

/-- Unfolding of `_Graph_DeleteTypedEdges` when the typed edge is
present. -/
lemma deleteTypedEdges_eq_of_connected (g : Graph) (src_id dest_id r : Nat)
    (h : (relD (g.resizeRel r) r).entry dest_id src_id = true) :
    _Graph_DeleteTypedEdges g src_id dest_id r =
      (let g1 := g.resizeRel r
       let g2 : Graph := { g1 with relations := (g1.relations.set r
         (_Graph_ClearMatrixEntry g1.node_count (relD g1 r) src_id dest_id)) }
       let sc := _scanRelations src_id dest_id g2 (List.range g2.relations.length)
       if sc.2 then sc.1
       else
         let g3 := sc.1.resizeAdj
         { g3 with adjacency_matrix :=
             _Graph_ClearMatrixEntry g3.node_count g3.adjacency_matrix src_id dest_id }) := by
  unfold _Graph_DeleteTypedEdges
  simp only [h, Bool.not_true]
  rw [if_neg (by simp)]

/-- Unfolding of `_Graph_DeleteTypedEdges` when the typed edge is
absent: only the relation handle resize happens. -/
lemma deleteTypedEdges_eq_of_not_connected (g : Graph) (src_id dest_id r : Nat)
    (h : (relD (g.resizeRel r) r).entry dest_id src_id = false) :
    _Graph_DeleteTypedEdges g src_id dest_id r = g.resizeRel r := by
  unfold _Graph_DeleteTypedEdges
  simp [h]

/-- Full behaviour of `_Graph_DeleteTypedEdges` on a well-formed state
holding the typed edge: the relation entry is cleared; the adjacency
entry survives iff another relation still holds it; nothing else
changes. -/
lemma deleteTypedEdges_run (g : Graph) (src_id dest_id r : Nat) (hWF : WF g)
    (hd : dest_id < g.node_count) (hr : r < g.relations.length)
    (hre : (relD g r).entry dest_id src_id = true) :
    (relD (_Graph_DeleteTypedEdges g src_id dest_id r) r).entry dest_id src_id = false ∧
    ((_Graph_DeleteTypedEdges g src_id dest_id r).adjacency_matrix.entry dest_id src_id = true ↔
      ∃ k, k < g.relations.length ∧ k ≠ r ∧ (relD g k).entry dest_id src_id = true) ∧
    (∀ i j, ¬(i = dest_id ∧ j = src_id) →
      (_Graph_DeleteTypedEdges g src_id dest_id r).adjacency_matrix.entry i j =
        g.adjacency_matrix.entry i j) ∧
    (_Graph_DeleteTypedEdges g src_id dest_id r).relations.length = g.relations.length ∧
    (∀ k i j, ¬(k = r ∧ i = dest_id ∧ j = src_id) →
      (relD (_Graph_DeleteTypedEdges g src_id dest_id r) k).entry i j = (relD g k).entry i j) ∧
    (_Graph_DeleteTypedEdges g src_id dest_id r).labels = g.labels ∧
    (_Graph_DeleteTypedEdges g src_id dest_id r).nodes = g.nodes ∧
    (_Graph_DeleteTypedEdges g src_id dest_id r).node_count = g.node_count := by
  have h1 : ∀ k i j, (relD (g.resizeRel r) k).entry i j = (relD g k).entry i j :=
    fun k i j => relD_resizeRel_entry g r k (hWF.rel_conf r) i j
  have hrelg1 : (relD (g.resizeRel r) r).entry dest_id src_id = true := by
    rw [h1]; exact hre
  rw [deleteTypedEdges_eq_of_connected g src_id dest_id r hrelg1]
  set g1 := g.resizeRel r with hg1def
  set g2 : Graph := { g1 with relations := (g1.relations.set r
    (_Graph_ClearMatrixEntry g1.node_count (relD g1 r) src_id dest_id)) } with hg2def
  -- entries of g2
  have hg2count : g2.node_count = g.node_count := rfl
  have hg2adj : g2.adjacency_matrix = g.adjacency_matrix := rfl
  have hg2lab : g2.labels = g.labels := rfl
  have hg2nodes : g2.nodes = g.nodes := rfl
  have hg2len : g2.relations.length = g.relations.length := by
    show (g1.relations.set r _).length = _
    rw [List.length_set]
    exact resizeRel_length g r
  have hg2rel : ∀ k i j, (relD g2 k).entry i j =
      if k = r ∧ i = dest_id ∧ j = src_id then false else (relD g k).entry i j := by
    intro k i j
    show ((g1.relations.set r _).getD k default).entry i j = _
    rw [getD_set]
    by_cases hk : k = r
    · subst hk
      have hkl : k < g1.relations.length := by rw [resizeRel_length]; exact hr
      rw [if_pos ⟨rfl, hkl⟩]
      rw [clearMatrixEntry_entry _ _ _ _ (by show dest_id < g.node_count; exact hd)]
      by_cases hij : i = dest_id ∧ j = src_id
      · simp [hij]
      · rw [if_neg hij, if_neg (by tauto)]
        exact h1 k i j
    · rw [if_neg (by tauto), if_neg (by tauto)]
      exact h1 k i j
  have hg2conf : ∀ k i j, (relD g2 k).entry i j = true →
      i < g2.node_count ∧ j < g2.node_count := by
    intro k i j h
    rw [hg2rel] at h
    by_cases hc : k = r ∧ i = dest_id ∧ j = src_id
    · rw [if_pos hc] at h; exact absurd h (by simp)
    · rw [if_neg hc] at h
      exact hWF.rel_conf k i j h
  have hscan := scanRelations_spec src_id dest_id g2 (List.range g2.relations.length) hg2conf
  rcases hscan with ⟨sa1, sa2, sa3, sa4, sa5, sa6, sa7⟩
  set sc := _scanRelations src_id dest_id g2 (List.range g2.relations.length) with hscdef
  -- The scan's boolean captures "another relation still holds (dest, src)".
  have hexists : sc.2 = true ↔
      ∃ k, k < g.relations.length ∧ k ≠ r ∧ (relD g k).entry dest_id src_id = true := by
    rw [sa7]
    constructor
    · rintro ⟨k, hkL, he⟩
      have hk : k < g2.relations.length := List.mem_range.1 hkL
      rw [hg2rel] at he
      by_cases hc : k = r ∧ dest_id = dest_id ∧ src_id = src_id
      · rw [if_pos hc] at he; exact absurd he (by simp)
      · rw [if_neg hc] at he
        have hkr : k ≠ r := by tauto
        exact ⟨k, by rw [← hg2len]; exact hk, hkr, he⟩
    · rintro ⟨k, hk, hkr, he⟩
      refine ⟨k, List.mem_range.2 (by rw [hg2len]; exact hk), ?_⟩
      rw [hg2rel, if_neg (by tauto)]
      exact he
  by_cases hfound : sc.2 = true
  · rw [if_pos hfound]
    refine ⟨?_, ?_, ?_, ?_, ?_, sa3.trans hg2lab, sa4.trans hg2nodes, sa2.trans hg2count⟩
    · rw [sa6, hg2rel, if_pos ⟨rfl, rfl, rfl⟩]
    · rw [sa1, hg2adj]
      constructor
      · intro _; exact hexists.1 hfound
      · intro _; exact hWF.sub r dest_id src_id hre
    · intro i j _
      rw [sa1, hg2adj]
    · rw [sa5, hg2len]
    · intro k i j hk
      rw [sa6, hg2rel, if_neg (by tauto)]
  · rw [if_neg hfound]
    have hfalse : sc.2 = false := by
      cases hb : sc.2 with
      | false => rfl
      | true => exact absurd hb hfound
    -- the final adjacency clear
    have hscadjconf : ∀ i j, sc.1.adjacency_matrix.entry i j = true →
        i < sc.1.node_count ∧ j < sc.1.node_count := by
      intro i j h
      rw [sa1, hg2adj] at h
      rw [sa2, hg2count]
      exact hWF.adj_conf i j h
    have hadj3 : ∀ i j, (sc.1.resizeAdj).adjacency_matrix.entry i j =
        g.adjacency_matrix.entry i j := by
      intro i j
      rw [resizeAdj_entry sc.1 hscadjconf, sa1, hg2adj]
    have hcount3 : (sc.1.resizeAdj).node_count = g.node_count := by
      rw [resizeAdj_node_count, sa2, hg2count]
    refine ⟨?_, ?_, ?_, ?_, ?_, ?_, ?_, ?_⟩
    · show (relD sc.1 r).entry dest_id src_id = false
      rw [sa6, hg2rel, if_pos ⟨rfl, rfl, rfl⟩]
    · show (_Graph_ClearMatrixEntry _ _ src_id dest_id).entry dest_id src_id = true ↔ _
      rw [clearMatrixEntry_entry _ _ _ _ (by rw [hcount3]; exact hd)]
      rw [if_pos ⟨rfl, rfl⟩]
      constructor
      · intro h; exact absurd h (by simp)
      · rintro ⟨k, hk, hkr, he⟩
        exact absurd (hexists.2 ⟨k, hk, hkr, he⟩) hfound
    · intro i j hij
      show (_Graph_ClearMatrixEntry _ _ src_id dest_id).entry i j = _
      rw [clearMatrixEntry_entry _ _ _ _ (by rw [hcount3]; exact hd)]
      rw [if_neg hij]
      exact hadj3 i j
    · show sc.1.relations.length = _
      rw [sa5, hg2len]
    · intro k i j hk
      show (relD sc.1 k).entry i j = _
      rw [sa6, hg2rel, if_neg (by tauto)]
    · show sc.1.labels = _
      rw [sa3, hg2lab]
    · show sc.1.nodes = _
      rw [sa4, hg2nodes]
    · show sc.1.node_count = _
      rw [sa2, hg2count]

lemma deleteEdge_eq_noop (g : Graph) (src_id dest_id : Nat) (relation : Int)
    (hadj : (g.resizeAdj).adjacency_matrix.entry dest_id src_id = false) :
    Graph_DeleteEdge g src_id dest_id relation = g.resizeAdj := by
  unfold Graph_DeleteEdge
  simp [hadj]

lemma deleteEdge_eq_typed (g : Graph) (src_id dest_id r : Nat)
    (hadj : (g.resizeAdj).adjacency_matrix.entry dest_id src_id = true) :
    Graph_DeleteEdge g src_id dest_id (Int.ofNat r) =
      _Graph_DeleteTypedEdges g.resizeAdj src_id dest_id r := by
  unfold Graph_DeleteEdge
  simp only [hadj, Bool.not_true]
  rw [if_neg (by simp)]
  rw [if_neg (by simp [GRAPH_NO_RELATION])]
  rfl

lemma deleteEdge_eq_untyped (g : Graph) (src_id dest_id : Nat)
    (hadj : (g.resizeAdj).adjacency_matrix.entry dest_id src_id = true) :
    Graph_DeleteEdge g src_id dest_id GRAPH_NO_RELATION =
      _Graph_DeleteEdges g.resizeAdj src_id dest_id := by
  unfold Graph_DeleteEdge
  simp only [hadj, Bool.not_true]
  rw [if_neg (by simp)]
  simp

lemma deleteEdge_typed_exec (g : Graph) (src_id dest_id r : Nat) (hWF : WF g)
    (hs : src_id < g.node_count) (hd : dest_id < g.node_count)
    (hr : r < g.relations.length) :
    ((relD g r).entry dest_id src_id = false →
      EntriesEq g (Graph_DeleteEdge g src_id dest_id (Int.ofNat r))) ∧
    ((relD g r).entry dest_id src_id = true →
      (relD (Graph_DeleteEdge g src_id dest_id (Int.ofNat r)) r).entry dest_id src_id = false ∧
      ((Graph_DeleteEdge g src_id dest_id (Int.ofNat r)).adjacency_matrix.entry dest_id src_id = true ↔
        ∃ k, k < g.relations.length ∧ k ≠ r ∧ (relD g k).entry dest_id src_id = true) ∧
      (∀ i j, ¬(i = dest_id ∧ j = src_id) →
        (Graph_DeleteEdge g src_id dest_id (Int.ofNat r)).adjacency_matrix.entry i j =
          g.adjacency_matrix.entry i j) ∧
      (Graph_DeleteEdge g src_id dest_id (Int.ofNat r)).relations.length = g.relations.length ∧
      (∀ k i j, ¬(k = r ∧ i = dest_id ∧ j = src_id) →
        (relD (Graph_DeleteEdge g src_id dest_id (Int.ofNat r)) k).entry i j =
          (relD g k).entry i j) ∧
      (Graph_DeleteEdge g src_id dest_id (Int.ofNat r)).labels.length = g.labels.length ∧
      (∀ k i j, (labD (Graph_DeleteEdge g src_id dest_id (Int.ofNat r)) k).entry i j =
        (labD g k).entry i j)) := by
  have hadjent : ∀ i j, (g.resizeAdj).adjacency_matrix.entry i j = g.adjacency_matrix.entry i j :=
    resizeAdj_entry g hWF.adj_conf
  have hg0rel : (g.resizeAdj).relations = g.relations := rfl
  have hg0relD : ∀ k, relD g.resizeAdj k = relD g k := fun _ => rfl
  constructor
  · -- the typed entry is absent: nothing observable happens
    intro hre
    by_cases hadj : g.adjacency_matrix.entry dest_id src_id = true
    · have hadj0 : (g.resizeAdj).adjacency_matrix.entry dest_id src_id = true := by
        rw [hadjent]; exact hadj
      rw [deleteEdge_eq_typed g src_id dest_id r hadj0]
      have hnc : (relD (g.resizeAdj.resizeRel r) r).entry dest_id src_id = false := by
        rw [relD_resizeRel_entry g.resizeAdj r r ((WF_resizeAdj hWF).rel_conf r)]
        exact hre
      rw [deleteTypedEdges_eq_of_not_connected _ _ _ _ hnc]
      refine ⟨?_, ?_, ?_, rfl, fun _ _ _ => rfl⟩
      · intro i j
        rw [resizeRel_adjacency]
        exact hadjent i j
      · rw [resizeRel_length]; rfl
      · intro k i j
        rw [relD_resizeRel_entry g.resizeAdj r k ((WF_resizeAdj hWF).rel_conf r)]
        rfl
    · have hadj0 : (g.resizeAdj).adjacency_matrix.entry dest_id src_id = false := by
        rw [hadjent]
        cases hb : g.adjacency_matrix.entry dest_id src_id with
        | false => rfl
        | true => exact absurd hb hadj
      rw [deleteEdge_eq_noop g src_id dest_id _ hadj0]
      exact ⟨hadjent, rfl, fun _ _ _ => rfl, rfl, fun _ _ _ => rfl⟩
  · -- the typed entry is present
    intro hre
    have hadj : g.adjacency_matrix.entry dest_id src_id = true := hWF.sub r dest_id src_id hre
    have hadj0 : (g.resizeAdj).adjacency_matrix.entry dest_id src_id = true := by
      rw [hadjent]; exact hadj
    rw [deleteEdge_eq_typed g src_id dest_id r hadj0]
    have hrun := deleteTypedEdges_run g.resizeAdj src_id dest_id r (WF_resizeAdj hWF) hd hr hre
    rcases hrun with ⟨b1, b2, b3, b4, b5, b6, b7, b8⟩
    refine ⟨b1, ?_, ?_, b4, b5, by rw [b6]; rfl, ?_⟩
    · rw [b2]; rfl
    · intro i j hij
      rw [b3 i j hij]
      exact hadjent i j
    · intro k i j
      unfold labD
      rw [b6]
      rfl

/-- C5: for every graph satisfying the data-model invariants, live ids
`src_id, dest_id` and valid relation index `r`: if
`relations[r][dest_id, src_id]` is not set, `Graph_DeleteEdge` leaves
all matrix entries unchanged; otherwise it clears exactly
`relations[r][dest_id, src_id]`, clears `adjacency[dest_id, src_id]`
iff no other relation matrix still holds `(dest_id, src_id)`, and no
other entry of any matrix changes. -/
theorem deleteEdge_typed_spec (g : Graph) (src_id dest_id r : Nat) (hWF : WF g)
    (hs : src_id < g.node_count) (hd : dest_id < g.node_count)
    (hr : r < g.relations.length) :
    ((relD g r).entry dest_id src_id = false →
      EntriesEq g (Graph_DeleteEdge g src_id dest_id (Int.ofNat r))) ∧
    ((relD g r).entry dest_id src_id = true →
      (relD (Graph_DeleteEdge g src_id dest_id (Int.ofNat r)) r).entry dest_id src_id = false ∧
      ((Graph_DeleteEdge g src_id dest_id (Int.ofNat r)).adjacency_matrix.entry dest_id src_id = true ↔
        ∃ k, k < g.relations.length ∧ k ≠ r ∧ (relD g k).entry dest_id src_id = true) ∧
      (∀ i j, ¬(i = dest_id ∧ j = src_id) →
        (Graph_DeleteEdge g src_id dest_id (Int.ofNat r)).adjacency_matrix.entry i j =
          g.adjacency_matrix.entry i j) ∧
      (Graph_DeleteEdge g src_id dest_id (Int.ofNat r)).relations.length = g.relations.length ∧
      (∀ k i j, ¬(k = r ∧ i = dest_id ∧ j = src_id) →
        (relD (Graph_DeleteEdge g src_id dest_id (Int.ofNat r)) k).entry i j =
          (relD g k).entry i j) ∧
      (Graph_DeleteEdge g src_id dest_id (Int.ofNat r)).labels.length = g.labels.length ∧
      (∀ k i j, (labD (Graph_DeleteEdge g src_id dest_id (Int.ofNat r)) k).entry i j =
        (labD g k).entry i j)) :=
  deleteEdge_typed_exec g src_id dest_id r hWF hs hd hr

/-- Witness for C5: the concrete graph `gW` (typed edge `0 → 1` of
relation 0), where both branches of the theorem are exercised on the
present entry. -/
theorem deleteEdge_typed_spec_witness :
    (relD gW 0).entry 1 0 = true ∧
    (relD (Graph_DeleteEdge gW 0 1 (Int.ofNat 0)) 0).entry 1 0 = false ∧
    (Graph_DeleteEdge gW 0 1 (Int.ofNat 0)).adjacency_matrix.entry 1 0 = false := by
  have h := deleteEdge_typed_spec gW 0 1 0 gW_wf (by decide) (by decide) (by decide)
  have hre : (relD gW 0).entry 1 0 = true := by decide
  rcases h.2 hre with ⟨c1, c2, _⟩
  refine ⟨hre, c1, ?_⟩
  cases hb : (Graph_DeleteEdge gW 0 1 (Int.ofNat 0)).adjacency_matrix.entry 1 0 with
  | false => rfl
  | true =>
    rcases c2.1 hb with ⟨k, hk, hkr, he⟩
    have hk0 : k = 0 := by
      simp only [gW] at hk
      simp at hk
      omega
    exact absurd hk0 hkr

/-! ### Untyped edge deletion -/

/-- The relation loop of `_Graph_DeleteEdges`: every listed relation
matrix loses entry `(dest_id, src_id)` (those that did not hold it are
merely resized); nothing else changes. -/
lemma deleteEdgesLoop_spec (src_id dest_id : Nat) (g : Graph) (L : List Nat)
    (hd : dest_id < g.node_count)
    (conf : ∀ k i j, (relD g k).entry i j = true → i < g.node_count ∧ j < g.node_count) :
    (L.foldl (fun g k =>
      let g := g.resizeRel k
      if (relD g k).entry dest_id src_id then
        { g with relations := (g.relations.set k
            (_Graph_ClearMatrixEntry g.node_count (relD g k) src_id dest_id)) }
      else g) g).adjacency_matrix = g.adjacency_matrix ∧
    (L.foldl (fun g k =>
      let g := g.resizeRel k
      if (relD g k).entry dest_id src_id then
        { g with relations := (g.relations.set k
            (_Graph_ClearMatrixEntry g.node_count (relD g k) src_id dest_id)) }
      else g) g).node_count = g.node_count ∧
    (L.foldl (fun g k =>
      let g := g.resizeRel k
      if (relD g k).entry dest_id src_id then
        { g with relations := (g.relations.set k
            (_Graph_ClearMatrixEntry g.node_count (relD g k) src_id dest_id)) }
      else g) g).labels = g.labels ∧
    (L.foldl (fun g k =>
      let g := g.resizeRel k
      if (relD g k).entry dest_id src_id then
        { g with relations := (g.relations.set k
            (_Graph_ClearMatrixEntry g.node_count (relD g k) src_id dest_id)) }
      else g) g).nodes = g.nodes ∧
    (L.foldl (fun g k =>
      let g := g.resizeRel k
      if (relD g k).entry dest_id src_id then
        { g with relations := (g.relations.set k
            (_Graph_ClearMatrixEntry g.node_count (relD g k) src_id dest_id)) }
      else g) g).relations.length = g.relations.length ∧
    (∀ m i j, (relD (L.foldl (fun g k =>
      let g := g.resizeRel k
      if (relD g k).entry dest_id src_id then
        { g with relations := (g.relations.set k
            (_Graph_ClearMatrixEntry g.node_count (relD g k) src_id dest_id)) }
      else g) g) m).entry i j =
        if m ∈ L ∧ i = dest_id ∧ j = src_id then false else (relD g m).entry i j) := by
  induction L generalizing g with
  | nil =>
    refine ⟨rfl, rfl, rfl, rfl, rfl, ?_⟩
    intro m i j
    rw [if_neg (by simp)]
    rfl
  | cons k rest ih =>
    have h1 : ∀ m i j, (relD (g.resizeRel k) m).entry i j = (relD g m).entry i j :=
      fun m i j => relD_resizeRel_entry g k m (conf k) i j
    simp only [List.foldl_cons]
    by_cases hc : (relD (g.resizeRel k) k).entry dest_id src_id = true
    · rw [if_pos hc]
      have hkin : k < g.relations.length := by
        by_contra hout
        have : relD g k = default := by
          unfold relD
          exact List.getD_eq_default _ _ (by omega)
        rw [h1, this] at hc
        exact absurd hc (by simp [default])
      set g2 : Graph := { g.resizeRel k with relations := ((g.resizeRel k).relations.set k
          (_Graph_ClearMatrixEntry (g.resizeRel k).node_count (relD (g.resizeRel k) k) src_id dest_id)) } with hg2
      have hg2count : g2.node_count = g.node_count := rfl
      have hg2adj : g2.adjacency_matrix = g.adjacency_matrix := rfl
      have hg2lab : g2.labels = g.labels := rfl
      have hg2nodes : g2.nodes = g.nodes := rfl
      have hg2len : g2.relations.length = g.relations.length := by
        show ((g.resizeRel k).relations.set k _).length = _
        rw [List.length_set, resizeRel_length]
      have hg2rel : ∀ m i j, (relD g2 m).entry i j =
          if m = k ∧ i = dest_id ∧ j = src_id then false else (relD g m).entry i j := by
        intro m i j
        show (((g.resizeRel k).relations.set k _).getD m default).entry i j = _
        rw [getD_set]
        by_cases hm : k = m
        · subst hm
          rw [if_pos ⟨rfl, by rw [resizeRel_length]; exact hkin⟩]
          rw [clearMatrixEntry_entry _ _ _ _ (by show dest_id < g.node_count; exact hd)]
          by_cases hij : i = dest_id ∧ j = src_id
          · simp [hij]
          · rw [if_neg hij, if_neg (by tauto)]
            exact h1 k i j
        · rw [if_neg (by tauto), if_neg (by tauto)]
          exact h1 m i j
      have hg2conf : ∀ m i j, (relD g2 m).entry i j = true →
          i < g2.node_count ∧ j < g2.node_count := by
        intro m i j h
        rw [hg2rel] at h
        by_cases hcnd : m = k ∧ i = dest_id ∧ j = src_id
        · rw [if_pos hcnd] at h; exact absurd h (by simp)
        · rw [if_neg hcnd] at h
          exact conf m i j h
      have ih' := ih g2 (by exact hd) hg2conf
      rcases ih' with ⟨c1, c2, c3, c4, c5, c6⟩
      refine ⟨c1.trans hg2adj, c2.trans hg2count, c3.trans hg2lab, c4.trans hg2nodes,
        c5.trans hg2len, ?_⟩
      · intro m i j
        rw [c6 m i j]
        by_cases hin : m ∈ rest ∧ i = dest_id ∧ j = src_id
        · rw [if_pos hin, if_pos ⟨List.mem_cons_of_mem _ hin.1, hin.2⟩]
        · rw [if_neg hin, hg2rel]
          by_cases hk2 : m = k ∧ i = dest_id ∧ j = src_id
          · rw [if_pos hk2, if_pos ⟨by rw [hk2.1]; exact List.mem_cons_self _ _, hk2.2⟩]
          · rw [if_neg hk2, if_neg (by
              rintro ⟨hmem, hij⟩
              rcases List.mem_cons.1 hmem with hmk | hmr
              · exact hk2 ⟨hmk, hij⟩
              · exact hin ⟨hmr, hij⟩)]
    · rw [if_neg hc]
      have hfalse : (relD (g.resizeRel k) k).entry dest_id src_id = false := by
        cases hb : (relD (g.resizeRel k) k).entry dest_id src_id with
        | false => rfl
        | true => exact absurd hb hc
      have hconf1 : ∀ m i j, (relD (g.resizeRel k) m).entry i j = true →
          i < (g.resizeRel k).node_count ∧ j < (g.resizeRel k).node_count := by
        intro m i j h
        rw [h1] at h
        exact conf m i j h
      have ih' := ih (g.resizeRel k) (by exact hd) hconf1
      rcases ih' with ⟨c1, c2, c3, c4, c5, c6⟩
      refine ⟨c1.trans (by rfl), c2.trans (by rfl), c3.trans (by rfl), c4.trans (by rfl),
        c5.trans (by rw [resizeRel_length]), ?_⟩
      · intro m i j
        rw [c6 m i j]
        by_cases hin : m ∈ rest ∧ i = dest_id ∧ j = src_id
        · rw [if_pos hin, if_pos ⟨List.mem_cons_of_mem _ hin.1, hin.2⟩]
        · rw [if_neg hin, h1]
          by_cases hk2 : m = k ∧ i = dest_id ∧ j = src_id
          · rcases hk2 with ⟨hmk, hi, hj⟩
            subst hmk; subst hi; subst hj
            rw [if_pos ⟨List.mem_cons_self _ _, rfl, rfl⟩]
            rw [h1] at hfalse
            exact hfalse
          · rw [if_neg (by
              rintro ⟨hmem, hij⟩
              rcases List.mem_cons.1 hmem with hmk | hmr
              · exact hk2 ⟨hmk, hij⟩
              · exact hin ⟨hmr, hij⟩)]

/-- Full behaviour of `_Graph_DeleteEdges` on a well-formed state:
entry `(dest_id, src_id)` disappears from the adjacency matrix and from
every relation matrix; nothing else changes. -/
lemma deleteEdges_run (g : Graph) (src_id dest_id : Nat) (hWF : WF g)
    (hd : dest_id < g.node_count) :
    (∀ i j, (_Graph_DeleteEdges g src_id dest_id).adjacency_matrix.entry i j =
      if i = dest_id ∧ j = src_id then false else g.adjacency_matrix.entry i j) ∧
    (_Graph_DeleteEdges g src_id dest_id).relations.length = g.relations.length ∧
    (∀ k i j, (relD (_Graph_DeleteEdges g src_id dest_id) k).entry i j =
      if k < g.relations.length ∧ i = dest_id ∧ j = src_id then false
      else (relD g k).entry i j) ∧
    (_Graph_DeleteEdges g src_id dest_id).labels = g.labels ∧
    (_Graph_DeleteEdges g src_id dest_id).nodes = g.nodes ∧
    (_Graph_DeleteEdges g src_id dest_id).node_count = g.node_count := by
  set gA : Graph := { g.resizeAdj with adjacency_matrix :=
    (_Graph_ClearMatrixEntry (g.resizeAdj).node_count (g.resizeAdj).adjacency_matrix
      src_id dest_id) } with hgA
  have hunf : _Graph_DeleteEdges g src_id dest_id =
      (List.range gA.relations.length).foldl (fun g k =>
        let g := g.resizeRel k
        if (relD g k).entry dest_id src_id then
          { g with relations := (g.relations.set k
              (_Graph_ClearMatrixEntry g.node_count (relD g k) src_id dest_id)) }
        else g) gA := rfl
  rw [hunf]
  have hgAadj : ∀ i j, gA.adjacency_matrix.entry i j =
      if i = dest_id ∧ j = src_id then false else g.adjacency_matrix.entry i j := by
    intro i j
    show (_Graph_ClearMatrixEntry _ _ src_id dest_id).entry i j = _
    rw [clearMatrixEntry_entry _ _ _ _ (by exact hd)]
    by_cases hij : i = dest_id ∧ j = src_id
    · rw [if_pos hij, if_pos hij]
    · rw [if_neg hij, if_neg hij]
      exact resizeAdj_entry g hWF.adj_conf i j
  have hgAcount : gA.node_count = g.node_count := rfl
  have hgArel : gA.relations = g.relations := rfl
  have hloop := deleteEdgesLoop_spec src_id dest_id gA (List.range gA.relations.length)
    (by exact hd) (by intro k i j h; exact hWF.rel_conf k i j h)
  rcases hloop with ⟨c1, c2, c3, c4, c5, c6⟩
  refine ⟨?_, ?_, ?_, ?_, ?_, ?_⟩
  · intro i j
    rw [c1]
    exact hgAadj i j
  · rw [c5, hgArel]
  · intro k i j
    rw [c6 k i j]
    by_cases hk : k < g.relations.length ∧ i = dest_id ∧ j = src_id
    · have hkR : k < gA.relations.length := by rw [hgArel]; exact hk.1
      rw [if_pos hk, if_pos ⟨List.mem_range.2 hkR, hk.2⟩]
    · rw [if_neg hk, if_neg (by
        rintro ⟨hmem, hij⟩
        have hkR : k < gA.relations.length := List.mem_range.1 hmem
        rw [hgArel] at hkR
        exact hk ⟨hkR, hij⟩)]
      rfl
  · exact c3.trans rfl
  · exact c4.trans rfl
  · exact c2.trans rfl

/-! ### Connecting one edge (for the round-trip law C6) -/

/-- Effect of `Graph_ConnectNodes` on a single triple `(s, d, rel)`
over a well-formed state: the adjacency entry `(d, s)` is set, the
relation entry `(d, s)` is set when the edge is typed with a valid
index, and nothing else changes. -/
lemma connect_single_spec (g : Graph) (s d : Nat) (rel : Int) (hWF : WF g)
    (hs : s < g.node_count) (hd : d < g.node_count) :
    (∀ i j, (Graph_ConnectNodes g [(s, d, rel)]).adjacency_matrix.entry i j =
      if i = d ∧ j = s then true else g.adjacency_matrix.entry i j) ∧
    (Graph_ConnectNodes g [(s, d, rel)]).relations.length = g.relations.length ∧
    (∀ k i j, (relD (Graph_ConnectNodes g [(s, d, rel)]) k).entry i j =
      if (rel ≠ GRAPH_NO_RELATION ∧ k = rel.toNat ∧ k < g.relations.length) ∧
          i = d ∧ j = s then true
      else (relD g k).entry i j) ∧
    (Graph_ConnectNodes g [(s, d, rel)]).labels = g.labels ∧
    (Graph_ConnectNodes g [(s, d, rel)]).nodes = g.nodes ∧
    (Graph_ConnectNodes g [(s, d, rel)]).node_count = g.node_count ∧
    ((Graph_ConnectNodes g [(s, d, rel)]).adjacency_matrix.nrows = g.node_count ∧
     (Graph_ConnectNodes g [(s, d, rel)]).adjacency_matrix.ncols = g.node_count) ∧
    (∀ k, relD (Graph_ConnectNodes g [(s, d, rel)]) k = relD g k ∨
      ((relD (Graph_ConnectNodes g [(s, d, rel)]) k).nrows = g.node_count ∧
       (relD (Graph_ConnectNodes g [(s, d, rel)]) k).ncols = g.node_count)) ∧
    (Graph_ConnectNodes g [(s, d, rel)]).node_cap = g.node_cap ∧
    (Graph_ConnectNodes g [(s, d, rel)]).block_count = g.block_count := by
  unfold Graph_ConnectNodes
  simp only [List.foldl_cons, List.foldl_nil]
  have hadjdims : (g.resizeAdj).adjacency_matrix.nrows = g.node_count ∧
      (g.resizeAdj).adjacency_matrix.ncols = g.node_count := by
    constructor
    · exact _Graph_ResizeMatrix_nrows g _
    · exact _Graph_ResizeMatrix_ncols g _ hWF.adj_sq
  set g1 : Graph := { g.resizeAdj with adjacency_matrix :=
    (g.resizeAdj).adjacency_matrix.setElement d s } with hg1
  have hg1adj : ∀ i j, g1.adjacency_matrix.entry i j =
      if i = d ∧ j = s then true else g.adjacency_matrix.entry i j := by
    intro i j
    show ((g.resizeAdj).adjacency_matrix.setElement d s).entry i j = _
    rw [GMatrix.setElement_entry_inb _ _ _ _ _ (by rw [hadjdims.1]; exact hd)
      (by rw [hadjdims.2]; exact hs)]
    by_cases hij : i = d ∧ j = s
    · rw [if_pos hij, if_pos hij]
    · rw [if_neg hij, if_neg hij]
      exact resizeAdj_entry g hWF.adj_conf i j
  have hg1rel : g1.relations = g.relations := rfl
  have hg1relD : ∀ k, relD g1 k = relD g k := fun _ => rfl
  have hg1count : g1.node_count = g.node_count := rfl
  by_cases hr : rel ≠ GRAPH_NO_RELATION
  · rw [if_pos hr]
    set rt := rel.toNat with hrt
    refine ⟨?_, ?_, ?_, rfl, rfl, rfl, ⟨?_, ?_⟩, ?_, rfl, rfl⟩
    · intro i j
      show g1.adjacency_matrix.entry i j = _
      exact hg1adj i j
    · show ((g1.resizeRel rt).relations.set rt _).length = _
      rw [List.length_set, resizeRel_length, hg1rel]
    · intro k i j
      show (((g1.resizeRel rt).relations.set rt
        ((relD (g1.resizeRel rt) rt).setElement d s)).getD k default).entry i j = _
      rw [getD_set]
      by_cases hk : rt = k
      · subst hk
        by_cases hkin : rt < g.relations.length
        · rw [if_pos ⟨rfl, by rw [resizeRel_length, hg1rel]; exact hkin⟩]
          have hrd : relD (g1.resizeRel rt) rt = _Graph_ResizeMatrix g1 (relD g1 rt) := by
            rw [relD_resizeRel, if_pos ⟨rfl, by rw [hg1rel]; exact hkin⟩]
          rw [hrd]
          have hdims1 : (_Graph_ResizeMatrix g1 (relD g1 rt)).nrows = g.node_count :=
            _Graph_ResizeMatrix_nrows g1 _
          have hdims2 : (_Graph_ResizeMatrix g1 (relD g1 rt)).ncols = g.node_count := by
            rw [_Graph_ResizeMatrix_ncols g1 _ (by rw [hg1relD]; exact hWF.rel_sq rt)]
            exact hg1count
          rw [GMatrix.setElement_entry_inb _ _ _ _ _ (by rw [hdims1]; exact hd)
            (by rw [hdims2]; exact hs)]
          by_cases hij : i = d ∧ j = s
          · rw [if_pos hij, if_pos ⟨⟨hr, rfl, hkin⟩, hij⟩]
          · rw [if_neg hij, if_neg (by tauto)]
            rw [_Graph_ResizeMatrix_entry_conf g1 _ (by
              rw [hg1relD]
              intro i j h
              exact hWF.rel_conf rt i j h)]
            rw [hg1relD]
        · rw [if_neg (by rw [resizeRel_length, hg1rel]; tauto)]
          rw [if_neg (by tauto)]
          show (relD (g1.resizeRel rt) rt).entry i j = (relD g rt).entry i j
          have h2 : relD (g1.resizeRel rt) rt = relD g1 rt := by
            rw [relD_resizeRel, if_neg (by rw [hg1rel]; tauto)]
          rw [h2, hg1relD]
      · rw [if_neg (by tauto), if_neg (by tauto)]
        show (relD (g1.resizeRel rt) k).entry i j = (relD g k).entry i j
        have h2 : relD (g1.resizeRel rt) k = relD g1 k := by
          rw [relD_resizeRel, if_neg (by tauto)]
        rw [h2, hg1relD]
    · show ((g.resizeAdj).adjacency_matrix.setElement d s).nrows = _
      rw [GMatrix.setElement_nrows]
      exact hadjdims.1
    · show ((g.resizeAdj).adjacency_matrix.setElement d s).ncols = _
      rw [GMatrix.setElement_ncols]
      exact hadjdims.2
    · intro k
      by_cases hkin : rt = k ∧ rt < g.relations.length
      · right
        rcases hkin with ⟨hk, hkin⟩
        subst hk
        constructor
        · show (((g1.resizeRel rt).relations.set rt
            ((relD (g1.resizeRel rt) rt).setElement d s)).getD rt default).nrows = _
          rw [getD_set, if_pos ⟨rfl, by rw [resizeRel_length, hg1rel]; exact hkin⟩]
          rw [GMatrix.setElement_nrows]
          rw [relD_resizeRel, if_pos ⟨rfl, by rw [hg1rel]; exact hkin⟩]
          exact _Graph_ResizeMatrix_nrows g1 _
        · show (((g1.resizeRel rt).relations.set rt
            ((relD (g1.resizeRel rt) rt).setElement d s)).getD rt default).ncols = _
          rw [getD_set, if_pos ⟨rfl, by rw [resizeRel_length, hg1rel]; exact hkin⟩]
          rw [GMatrix.setElement_ncols]
          rw [relD_resizeRel, if_pos ⟨rfl, by rw [hg1rel]; exact hkin⟩]
          rw [_Graph_ResizeMatrix_ncols g1 _ (by rw [hg1relD]; exact hWF.rel_sq rt)]
          exact hg1count
      · left
        show (((g1.resizeRel rt).relations.set rt
          ((relD (g1.resizeRel rt) rt).setElement d s)).getD k default) = relD g k
        rw [getD_set]
        by_cases hk : rt = k
        · subst hk
          rw [if_neg (by rw [resizeRel_length, hg1rel]; tauto)]
          show relD (g1.resizeRel rt) rt = relD g rt
          rw [relD_resizeRel, if_neg (by rw [hg1rel]; tauto)]
          exact hg1relD rt
        · rw [if_neg (by tauto)]
          show relD (g1.resizeRel rt) k = relD g k
          rw [relD_resizeRel, if_neg (by tauto)]
          exact hg1relD k
  · rw [if_neg hr]
    push_neg at hr
    refine ⟨hg1adj, by rw [hg1rel], ?_, rfl, rfl, rfl, ⟨?_, ?_⟩, ?_, rfl, rfl⟩
    · intro k i j
      rw [if_neg (by tauto)]
      rw [hg1relD]
    · show ((g.resizeAdj).adjacency_matrix.setElement d s).nrows = _
      rw [GMatrix.setElement_nrows]
      exact hadjdims.1
    · show ((g.resizeAdj).adjacency_matrix.setElement d s).ncols = _
      rw [GMatrix.setElement_ncols]
      exact hadjdims.2
    · intro k
      left
      exact hg1relD k

/-- Connecting one edge between live nodes preserves the data-model
invariants. -/
lemma WF_connect_single (g : Graph) (s d : Nat) (rel : Int) (hWF : WF g)
    (hs : s < g.node_count) (hd : d < g.node_count) :
    WF (Graph_ConnectNodes g [(s, d, rel)]) := by
  obtain ⟨a1, a2, a3, a4, a5, a6, ⟨a7r, a7c⟩, a8, a9, a10⟩ :=
    connect_single_spec g s d rel hWF hs hd
  refine ⟨?_, ?_, ?_, ?_, ?_, ?_, ?_, ?_, ?_, ?_, ?_, ?_⟩
  · rw [a9, a10]; exact hWF.cap_eq
  · rw [a6, a9]; exact hWF.count_le_cap
  · rw [a7r, a7c]
  · rw [a6, a7r]
  · intro i j h
    rw [a1 i j] at h
    rw [a6]
    by_cases hij : i = d ∧ j = s
    · omega
    · rw [if_neg hij] at h
      exact hWF.adj_conf i j h
  · intro k
    rcases a8 k with h | h
    · rw [h]; exact hWF.rel_sq k
    · rw [h.1, h.2]
  · intro k hk
    rw [a2] at hk
    rw [a6]
    rcases a8 k with h | h
    · rw [h]; exact hWF.rel_ge k hk
    · rw [h.1]
  · intro k i j h
    rw [a3 k i j] at h
    rw [a6]
    by_cases hc : (rel ≠ GRAPH_NO_RELATION ∧ k = rel.toNat ∧ k < g.relations.length) ∧
        i = d ∧ j = s
    · omega
    · rw [if_neg hc] at h
      exact hWF.rel_conf k i j h
  · intro k
    have : labD (Graph_ConnectNodes g [(s, d, rel)]) k = labD g k := by
      unfold labD; rw [a4]
    rw [this]; exact hWF.lab_sq k
  · intro k hk
    have : labD (Graph_ConnectNodes g [(s, d, rel)]) k = labD g k := by
      unfold labD; rw [a4]
    rw [this, a6]
    rw [a4] at hk
    exact hWF.lab_ge k hk
  · intro k i j h
    have : labD (Graph_ConnectNodes g [(s, d, rel)]) k = labD g k := by
      unfold labD; rw [a4]
    rw [this] at h
    rw [a6]
    exact hWF.lab_conf k i j h
  · intro k i j h
    rw [a3 k i j] at h
    rw [a1 i j]
    by_cases hc : (rel ≠ GRAPH_NO_RELATION ∧ k = rel.toNat ∧ k < g.relations.length) ∧
        i = d ∧ j = s
    · rw [if_pos hc.2]
    · rw [if_neg hc] at h
      by_cases hij : i = d ∧ j = s
      · rw [if_pos hij]
      · rw [if_neg hij]
        exact hWF.sub k i j h

/-- C6 (amended): for every graph satisfying the data-model invariants,
live ids `s, d` and `rel` either `NO_RELATION` or a valid relation
index, and provided no edge `s → d` exists beforehand
(`adjacency[d, s] = 0`), `connect_nodes([(s, d, rel)])` followed by
`delete_edge(s, d, rel)` restores the adjacency matrix and every
relation matrix (and every label matrix) to exactly their prior
entries. -/
theorem connect_then_delete_restores (g : Graph) (s d : Nat) (rel : Int) (hWF : WF g)
    (hs : s < g.node_count) (hd : d < g.node_count)
    (hrel : rel = GRAPH_NO_RELATION ∨ (0 ≤ rel ∧ rel.toNat < g.relations.length))
    (hadj : g.adjacency_matrix.entry d s = false) :
    EntriesEq g (Graph_DeleteEdge (Graph_ConnectNodes g [(s, d, rel)]) s d rel) := by
  have hrelsfalse : ∀ k, (relD g k).entry d s = false := by
    intro k
    cases hb : (relD g k).entry d s with
    | false => rfl
    | true => exact absurd (hWF.sub k d s hb) (by rw [hadj]; simp)
  obtain ⟨a1, a2, a3, a4, a5, a6, ⟨a7r, a7c⟩, a8, a9, a10⟩ :=
    connect_single_spec g s d rel hWF hs hd
  have hWFc : WF (Graph_ConnectNodes g [(s, d, rel)]) := WF_connect_single g s d rel hWF hs hd
  set gc := Graph_ConnectNodes g [(s, d, rel)] with hgc
  have hgcadj : gc.adjacency_matrix.entry d s = true := by rw [a1]; simp
  rcases hrel with hrel | ⟨hrel0, hrelv⟩
  · -- untyped round trip
    subst hrel
    have hadj0 : (gc.resizeAdj).adjacency_matrix.entry d s = true := by
      rw [resizeAdj_entry gc hWFc.adj_conf]; exact hgcadj
    rw [deleteEdge_eq_untyped gc s d hadj0]
    have hrun := deleteEdges_run gc.resizeAdj s d (WF_resizeAdj hWFc)
      (by rw [resizeAdj_node_count, a6]; exact hd)
    rcases hrun with ⟨c1, c2, c3, c4, c5, c6⟩
    have hgc0adj : ∀ i j, (gc.resizeAdj).adjacency_matrix.entry i j =
        gc.adjacency_matrix.entry i j := resizeAdj_entry gc hWFc.adj_conf
    refine ⟨?_, ?_, ?_, ?_, ?_⟩
    · intro i j
      rw [c1 i j, hgc0adj, a1 i j]
      by_cases hij : i = d ∧ j = s
      · rw [if_pos hij, hij.1, hij.2]
        exact hadj.symm
      · rw [if_neg hij, if_neg hij]
    · rw [c2, resizeAdj_relations, a2]
    · intro k i j
      rw [c3 k i j]
      have hrback : ∀ m, relD gc.resizeAdj m = relD gc m := fun _ => rfl
      by_cases hk : k < (gc.resizeAdj).relations.length ∧ i = d ∧ j = s
      · rw [if_pos hk, hk.2.1, hk.2.2]
        exact (hrelsfalse k).symm
      · rw [if_neg hk, hrback, a3 k i j]
        rw [if_neg (by
          rintro ⟨⟨hcon, _, _⟩, hij⟩
          exact hcon rfl)]
    · rw [c4, resizeAdj_labels, a4]
    · intro k i j
      have : labD (gc.resizeAdj) k = labD gc k := rfl
      unfold labD
      rw [c4, resizeAdj_labels, a4]
  · -- typed round trip
    have hofn : Int.ofNat rel.toNat = rel := by
      rw [Int.ofNat_eq_natCast, Int.toNat_of_nonneg hrel0]
    set rt := rel.toNat with hrt
    have hrelset : (relD gc rt).entry d s = true := by
      rw [a3]
      rw [if_pos ⟨⟨by rw [GRAPH_NO_RELATION]; omega, rfl, hrelv⟩, rfl, rfl⟩]
    have hexec := deleteEdge_typed_exec gc s d rt hWFc
      (by rw [a6]; exact hs) (by rw [a6]; exact hd) (by rw [a2]; exact hrelv)
    rcases (hexec.2 hrelset) with ⟨e1, e2, e3, e4, e5, e6, e7⟩
    rw [← hofn]
    refine ⟨?_, ?_, ?_, ?_, ?_⟩
    · intro i j
      by_cases hij : i = d ∧ j = s
      · rw [hij.1, hij.2]
        have hnone : ¬ ∃ k, k < gc.relations.length ∧ k ≠ rt ∧
            (relD gc k).entry d s = true := by
          rintro ⟨k, hk, hkr, he⟩
          rw [a3 k d s] at he
          rw [if_neg (by
            rintro ⟨⟨_, hkeq, _⟩, _⟩
            exact hkr hkeq)] at he
          rw [hrelsfalse k] at he
          exact absurd he (by simp)
        cases hb : (Graph_DeleteEdge gc s d (Int.ofNat rt)).adjacency_matrix.entry d s with
        | false => rw [hadj]
        | true => exact absurd (e2.1 hb) hnone
      · rw [e3 i j hij, a1 i j, if_neg hij]
    · rw [e4, a2]
    · intro k i j
      by_cases hk : k = rt ∧ i = d ∧ j = s
      · rw [hk.1, hk.2.1, hk.2.2]
        rw [e1, hrelsfalse rt]
      · rw [e5 k i j hk, a3 k i j]
        rw [if_neg (by
          rintro ⟨⟨_, hkeq, _⟩, hij⟩
          exact hk ⟨hkeq, hij⟩)]
    · rw [e6, a4]
    · intro k i j
      rw [e7 k i j]
      unfold labD
      rw [a4]

/-- Witness for C6 on `gW`: connect a fresh typed edge `1 → 0` with
relation 0 and delete it again. -/
theorem connect_then_delete_restores_witness :
    EntriesEq gW (Graph_DeleteEdge (Graph_ConnectNodes gW [(1, 0, (0 : Int))]) 1 0 0) :=
  connect_then_delete_restores gW 1 0 0 gW_wf (by decide) (by decide)
    (Or.inr (by constructor <;> decide)) (by decide)

/-- Counterexample to C6 as stated: on `gW` the edge `0 → 1` already
exists (in the adjacency matrix and in relation 0), so
`connect_nodes([(0, 1, NO_RELATION)])` followed by
`delete_edge(0, 1, NO_RELATION)` removes the pre-existing edge instead
of restoring it. -/
theorem connect_then_delete_restores_cex :
    WF gW ∧
    (Graph_DeleteEdge (Graph_ConnectNodes gW [(0, 1, GRAPH_NO_RELATION)]) 0 1
        GRAPH_NO_RELATION).adjacency_matrix.entry 1 0 ≠
      gW.adjacency_matrix.entry 1 0 :=
  ⟨gW_wf, by decide⟩

/-! ### C3: what survives of invariants 2 and 4 across public mutations -/

lemma foldl_preserves {β α : Type} (P : β → Prop) (f : β → α → β)
    (hstep : ∀ b a, P b → P (f b a)) :
    ∀ (L : List α) (b : β), P b → P (L.foldl f b) := by
  intro L
  induction L with
  | nil => intro b hb; exact hb
  | cons a rest ih =>
    intro b hb
    exact ih (f b a) (hstep b a hb)

/-- All relation handles are square. -/
def sqRels (g : Graph) : Prop := ∀ k, (relD g k).nrows = (relD g k).ncols

/-- All label handles are square. -/
def sqLabs (g : Graph) : Prop := ∀ k, (labD g k).nrows = (labD g k).ncols

lemma _Graph_ResizeMatrix_sq (g : Graph) (m : GMatrix) (hsq : m.nrows = m.ncols) :
    (_Graph_ResizeMatrix g m).nrows = (_Graph_ResizeMatrix g m).ncols := by
  rw [_Graph_ResizeMatrix_nrows, _Graph_ResizeMatrix_ncols g m hsq]

/-- Resizing a matrix whose entries were confined to `[0, b)²` with
`b ≤ node_count` yields entries confined to the live region. -/
lemma resizeMatrix_conf_mono (g : Graph) (m : GMatrix) (b : Nat) (hb : b ≤ g.node_count)
    (conf : ∀ i j, m.entry i j = true → i < b ∧ j < b) :
    ∀ i j, (_Graph_ResizeMatrix g m).entry i j = true →
      i < g.node_count ∧ j < g.node_count := by
  intro i j hE
  unfold _Graph_ResizeMatrix at hE
  by_cases h : m.nrows = g.node_count
  · rw [if_neg (by omega)] at hE
    have := conf i j hE
    omega
  · rw [if_pos h, GMatrix.resize_entry] at hE
    by_cases hbnd : i < g.node_count ∧ j < g.node_count
    · exact hbnd
    · rw [if_neg hbnd] at hE
      exact absurd hE (by simp)

@[simp] lemma clearColumn_nrows (m : GMatrix) (n c : Nat) : (m.clearColumn n c).nrows = m.nrows := rfl

@[simp] lemma clearColumn_ncols (m : GMatrix) (n c : Nat) : (m.clearColumn n c).ncols = m.ncols := rfl

@[simp] lemma assignRow_nrows (m : GMatrix) (n r : Nat) (v : Nat → Bool) :
    (m.assignRow n r v).nrows = m.nrows := rfl

@[simp] lemma assignRow_ncols (m : GMatrix) (n r : Nat) (v : Nat → Bool) :
    (m.assignRow n r v).ncols = m.ncols := rfl

@[simp] lemma assignColumn_nrows (m : GMatrix) (n c : Nat) (v : Nat → Bool) :
    (m.assignColumn n c v).nrows = m.nrows := rfl

@[simp] lemma assignColumn_ncols (m : GMatrix) (n c : Nat) (v : Nat → Bool) :
    (m.assignColumn n c v).ncols = m.ncols := rfl

@[simp] lemma migrateRowCol_nrows (m : GMatrix) (n s h : Nat) :
    (m.migrateRowCol n s h).nrows = m.nrows := rfl

@[simp] lemma migrateRowCol_ncols (m : GMatrix) (n s h : Nat) :
    (m.migrateRowCol n s h).ncols = m.ncols := rfl

lemma sqRels_resizeRel (g : Graph) (k : Nat) (hsq : sqRels g) : sqRels (g.resizeRel k) := by
  intro m
  rw [relD_resizeRel]
  by_cases h : k = m ∧ k < g.relations.length
  · rw [if_pos h]
    exact _Graph_ResizeMatrix_sq g _ (hsq k)
  · rw [if_neg h]
    exact hsq m

lemma sqLabs_resizeLab (g : Graph) (k : Nat) (hsq : sqLabs g) : sqLabs (g.resizeLab k) := by
  intro m
  rw [labD_resizeLab]
  by_cases h : k = m ∧ k < g.labels.length
  · rw [if_pos h]
    exact _Graph_ResizeMatrix_sq g _ (hsq k)
  · rw [if_neg h]
    exact hsq m

lemma sqRels_set (g : Graph) (k : Nat) (m' : GMatrix) (hsq : sqRels g)
    (hm : m'.nrows = m'.ncols) : ∀ j, ((g.relations.set k m').getD j default).nrows =
      ((g.relations.set k m').getD j default).ncols := by
  intro j
  rw [getD_set]
  by_cases h : k = j ∧ k < g.relations.length
  · rw [if_pos h]; exact hm
  · rw [if_neg h]; exact hsq j

lemma sqLabs_set (g : Graph) (k : Nat) (m' : GMatrix) (hsq : sqLabs g)
    (hm : m'.nrows = m'.ncols) : ∀ j, ((g.labels.set k m').getD j default).nrows =
      ((g.labels.set k m').getD j default).ncols := by
  intro j
  rw [getD_set]
  by_cases h : k = j ∧ k < g.labels.length
  · rw [if_pos h]; exact hm
  · rw [if_neg h]; exact hsq j

/-- The invariant that actually survives every public mutation: all
owned matrices stay square, and the adjacency matrix keeps its
dimension at `node_count` or above with entries confined to the live
region. -/
def C3Inv (g : Graph) : Prop :=
  g.adjacency_matrix.nrows = g.adjacency_matrix.ncols ∧
  g.node_count ≤ g.adjacency_matrix.nrows ∧
  (∀ i j, g.adjacency_matrix.entry i j = true → i < g.node_count ∧ j < g.node_count) ∧
  sqRels g ∧ sqLabs g

/-- The property C3 claims for every matrix (used to exhibit the
counterexample): square, dimension at least `node_count`, and no
nonzero entry at row or column `≥ node_count`. -/
def C3Claim (g : Graph) : Prop :=
  (g.adjacency_matrix.nrows = g.adjacency_matrix.ncols ∧
   g.node_count ≤ g.adjacency_matrix.nrows ∧
   ∀ i j, g.adjacency_matrix.entry i j = true → i < g.node_count ∧ j < g.node_count) ∧
  (∀ M ∈ g.relations, M.nrows = M.ncols ∧ g.node_count ≤ M.nrows ∧
    ∀ i j, M.entry i j = true → i < g.node_count ∧ j < g.node_count) ∧
  (∀ M ∈ g.labels, M.nrows = M.ncols ∧ g.node_count ≤ M.nrows ∧
    ∀ i j, M.entry i j = true → i < g.node_count ∧ j < g.node_count)

lemma C3Inv_create (g : Graph) (n : Nat) (ls : Option (List Int)) (h : C3Inv g) :
    C3Inv (Graph_CreateNodes g n ls) := by
  obtain ⟨h1, h2, h3, h4, h5⟩ := h
  unfold Graph_CreateNodes
  have hrn : C3Inv (_Graph_ResizeNodes g n) ∧
      (_Graph_ResizeNodes g n).node_count = g.node_count := by
    unfold _Graph_ResizeNodes
    by_cases hc : g.node_count + n < g.node_cap
    · rw [if_pos hc]; exact ⟨⟨h1, h2, h3, h4, h5⟩, rfl⟩
    · rw [if_neg hc]; exact ⟨⟨h1, h2, h3, h4, h5⟩, rfl⟩
  set g1 := _Graph_ResizeNodes g n with hg1
  obtain ⟨⟨b1, b2, b3, b4, b5⟩, hcnt⟩ := hrn
  set g2 : Graph := { g1 with node_count := g1.node_count + n } with hg2
  have hg2inv : C3Inv g2.resizeAdj := by
    refine ⟨?_, ?_, ?_, b4, b5⟩
    · show (_Graph_ResizeMatrix g2 g2.adjacency_matrix).nrows = _
      exact _Graph_ResizeMatrix_sq g2 _ b1
    · show g2.node_count ≤ (_Graph_ResizeMatrix g2 g2.adjacency_matrix).nrows
      rw [_Graph_ResizeMatrix_nrows]
    · show ∀ i j, (_Graph_ResizeMatrix g2 g2.adjacency_matrix).entry i j = true → _
      exact resizeMatrix_conf_mono g2 _ g1.node_count (by show g1.node_count ≤ g1.node_count + n; omega) b3
  cases ls with
  | none => exact hg2inv
  | some l =>
    refine foldl_preserves C3Inv _ ?_ _ _ hg2inv
    intro gb idx hb
    obtain ⟨c1, c2, c3, c4, c5⟩ := hb
    by_cases hl : l.getD idx GRAPH_NO_LABEL ≠ GRAPH_NO_LABEL
    · rw [if_pos hl]
      refine ⟨c1, c2, c3, c4, ?_⟩
      have hres := sqLabs_resizeLab gb (l.getD idx GRAPH_NO_LABEL).toNat c5
      intro m
      show ((((gb.resizeLab _).labels).set _ _).getD m default).nrows = _
      refine sqLabs_set (gb.resizeLab _) _ _ hres ?_ m
      rw [GMatrix.setElement_nrows, GMatrix.setElement_ncols]
      exact hres _
    · rw [if_neg hl]
      exact ⟨c1, c2, c3, c4, c5⟩

lemma C3Inv_connect (g : Graph) (conns : List (Nat × Nat × Int)) (h : C3Inv g) :
    C3Inv (Graph_ConnectNodes g conns) := by
  obtain ⟨h1, h2, h3, h4, h5⟩ := h
  unfold Graph_ConnectNodes
  have hP : ∀ gb : Graph, (gb.node_count = g.node_count ∧
      gb.adjacency_matrix.nrows = g.node_count ∧
      gb.adjacency_matrix.ncols = g.node_count ∧
      (∀ i j, gb.adjacency_matrix.entry i j = true →
        i < g.node_count ∧ j < g.node_count) ∧
      sqRels gb ∧ sqLabs gb) → C3Inv gb := by
    rintro gb ⟨p1, p2, p3, p4, p5, p6⟩
    exact ⟨by rw [p2, p3], by rw [p1, p2], by rw [p1]; exact p4, p5, p6⟩
  refine hP _ (foldl_preserves (fun gb : Graph => gb.node_count = g.node_count ∧
      gb.adjacency_matrix.nrows = g.node_count ∧
      gb.adjacency_matrix.ncols = g.node_count ∧
      (∀ i j, gb.adjacency_matrix.entry i j = true →
        i < g.node_count ∧ j < g.node_count) ∧
      sqRels gb ∧ sqLabs gb) _ ?_ conns g.resizeAdj
    ⟨rfl, _Graph_ResizeMatrix_nrows g _, _Graph_ResizeMatrix_ncols g _ h1,
     resizeMatrix_conf_mono g _ g.node_count (le_refl _) h3, h4, h5⟩)
  rintro gb c ⟨p1, p2, p3, p4, p5, p6⟩
  have hconf2 : ∀ i j, (gb.adjacency_matrix.setElement c.2.1 c.1).entry i j = true →
      i < g.node_count ∧ j < g.node_count := by
    intro i j hE
    rw [GMatrix.setElement_entry] at hE
    by_cases hc : (c.2.1 < gb.adjacency_matrix.nrows ∧ c.1 < gb.adjacency_matrix.ncols) ∧
        i = c.2.1 ∧ j = c.1
    · rw [p2] at hc; rw [p3] at hc
      omega
    · rw [if_neg hc] at hE
      exact p4 i j hE
  by_cases hr : c.2.2 ≠ GRAPH_NO_RELATION
  · rw [if_pos hr]
    simp only []
    have hres : sqRels (({ gb with adjacency_matrix :=
        (gb.adjacency_matrix.setElement c.2.1 c.1) } : Graph).resizeRel c.2.2.toNat) :=
      sqRels_resizeRel _ _ (fun k => p5 k)
    refine ⟨?_, ?_, ?_, ?_, ?_, fun k => p6 k⟩
    · show (({ gb with adjacency_matrix :=
        (gb.adjacency_matrix.setElement c.2.1 c.1) } : Graph).resizeRel c.2.2.toNat).node_count =
        g.node_count
      rw [resizeRel_node_count]
      exact p1
    · show (({ gb with adjacency_matrix :=
        (gb.adjacency_matrix.setElement c.2.1 c.1) } : Graph).resizeRel
          c.2.2.toNat).adjacency_matrix.nrows = g.node_count
      rw [resizeRel_adjacency]
      show (gb.adjacency_matrix.setElement c.2.1 c.1).nrows = g.node_count
      rw [GMatrix.setElement_nrows]
      exact p2
    · show (({ gb with adjacency_matrix :=
        (gb.adjacency_matrix.setElement c.2.1 c.1) } : Graph).resizeRel
          c.2.2.toNat).adjacency_matrix.ncols = g.node_count
      rw [resizeRel_adjacency]
      show (gb.adjacency_matrix.setElement c.2.1 c.1).ncols = g.node_count
      rw [GMatrix.setElement_ncols]
      exact p3
    · intro i j hE
      rw [resizeRel_adjacency] at hE
      exact hconf2 i j hE
    · intro m
      show (((({ gb with adjacency_matrix :=
          (gb.adjacency_matrix.setElement c.2.1 c.1) } : Graph).resizeRel
            c.2.2.toNat).relations.set c.2.2.toNat
          ((relD (({ gb with adjacency_matrix :=
            (gb.adjacency_matrix.setElement c.2.1 c.1) } : Graph).resizeRel c.2.2.toNat)
              c.2.2.toNat).setElement c.2.1 c.1)).getD m default).nrows =
        (((({ gb with adjacency_matrix :=
          (gb.adjacency_matrix.setElement c.2.1 c.1) } : Graph).resizeRel
            c.2.2.toNat).relations.set c.2.2.toNat
          ((relD (({ gb with adjacency_matrix :=
            (gb.adjacency_matrix.setElement c.2.1 c.1) } : Graph).resizeRel c.2.2.toNat)
              c.2.2.toNat).setElement c.2.1 c.1)).getD m default).ncols
      refine sqRels_set _ _ _ hres ?_ m
      rw [GMatrix.setElement_nrows, GMatrix.setElement_ncols]
      exact hres c.2.2.toNat
  · rw [if_neg hr]
    refine ⟨?_, ?_, ?_, ?_, fun k => p5 k, fun k => p6 k⟩
    · exact p1
    · show (gb.adjacency_matrix.setElement c.2.1 c.1).nrows = g.node_count
      rw [GMatrix.setElement_nrows]
      exact p2
    · show (gb.adjacency_matrix.setElement c.2.1 c.1).ncols = g.node_count
      rw [GMatrix.setElement_ncols]
      exact p3
    · intro i j hE
      exact hconf2 i j hE


lemma C3Inv_labelRange (g : Graph) (a b l : Nat) (h : C3Inv g) :
    C3Inv (Graph_LabelNodes g a b l) := by
  obtain ⟨h1, h2, h3, h4, h5⟩ := h
  unfold Graph_LabelNodes
  refine ⟨h1, h2, h3, h4, ?_⟩
  have hres := sqLabs_resizeLab g l h5
  have hfold : ∀ m0 : GMatrix, m0.nrows = m0.ncols →
      ((List.range (b + 1 - a)).foldl (fun m k => m.setElement (a + k) (a + k)) m0).nrows =
      ((List.range (b + 1 - a)).foldl (fun m k => m.setElement (a + k) (a + k)) m0).ncols := by
    intro m0 hm0
    exact foldl_preserves (fun m : GMatrix => m.nrows = m.ncols)
      (fun m k => m.setElement (a + k) (a + k))
      (by intro mb k hmb
          rw [GMatrix.setElement_nrows, GMatrix.setElement_ncols]
          exact hmb) (List.range (b + 1 - a)) m0 hm0
  intro m
  show ((((g.resizeLab l).labels).set l _).getD m default).nrows = _
  exact sqLabs_set (g.resizeLab l) _ _ hres (hfold _ (hres l)) m

lemma scanRelations_structure (src_id dest_id : Nat) :
    ∀ (L : List Nat) (g : Graph),
    (_scanRelations src_id dest_id g L).1.adjacency_matrix = g.adjacency_matrix ∧
    (_scanRelations src_id dest_id g L).1.node_count = g.node_count ∧
    (_scanRelations src_id dest_id g L).1.labels = g.labels ∧
    (_scanRelations src_id dest_id g L).1.nodes = g.nodes ∧
    (_scanRelations src_id dest_id g L).1.node_cap = g.node_cap ∧
    (_scanRelations src_id dest_id g L).1.block_count = g.block_count ∧
    (_scanRelations src_id dest_id g L).1.relations.length = g.relations.length ∧
    (sqRels g → sqRels (_scanRelations src_id dest_id g L).1) := by
  intro L
  induction L with
  | nil => intro g; exact ⟨rfl, rfl, rfl, rfl, rfl, rfl, rfl, fun h => h⟩
  | cons k rest ih =>
    intro g
    have hunf : _scanRelations src_id dest_id g (k :: rest) =
        if (relD (g.resizeRel k) k).entry dest_id src_id then (g.resizeRel k, true)
        else _scanRelations src_id dest_id (g.resizeRel k) rest := rfl
    rw [hunf]
    by_cases hc : (relD (g.resizeRel k) k).entry dest_id src_id = true
    · rw [if_pos hc]
      exact ⟨rfl, rfl, rfl, rfl, rfl, rfl, by simp, fun h => sqRels_resizeRel g k h⟩
    · rw [if_neg hc]
      obtain ⟨a1, a2, a3, a4, a5, a6, a7, a8⟩ := ih (g.resizeRel k)
      refine ⟨a1.trans rfl, a2.trans rfl, a3.trans rfl, a4.trans rfl, a5.trans rfl,
        a6.trans rfl, a7.trans (by simp), ?_⟩
      intro h
      exact a8 (sqRels_resizeRel g k h)

lemma deleteEdge_eq_typed' (g : Graph) (s d : Nat) (rel : Int)
    (hadj : (g.resizeAdj).adjacency_matrix.entry d s = true)
    (hrel : rel ≠ GRAPH_NO_RELATION) :
    Graph_DeleteEdge g s d rel = _Graph_DeleteTypedEdges g.resizeAdj s d rel.toNat := by
  unfold Graph_DeleteEdge
  simp only [hadj, Bool.not_true]
  rw [if_neg (by simp)]
  rw [if_neg hrel]

lemma C3Inv_resizeAdj (g : Graph) (h : C3Inv g) : C3Inv g.resizeAdj := by
  obtain ⟨h1, h2, h3, h4, h5⟩ := h
  refine ⟨?_, ?_, ?_, h4, h5⟩
  · exact _Graph_ResizeMatrix_sq g _ h1
  · show g.node_count ≤ (_Graph_ResizeMatrix g g.adjacency_matrix).nrows
    rw [_Graph_ResizeMatrix_nrows]
  · exact resizeMatrix_conf_mono g _ g.node_count (le_refl _) h3

lemma C3Inv_deleteEdges (g : Graph) (s d : Nat) (hC : C3Inv g) (hd : d < g.node_count) :
    C3Inv (_Graph_DeleteEdges g s d) := by
  obtain ⟨h1, h2, h3, h4, h5⟩ := hC
  set gA : Graph := { g.resizeAdj with adjacency_matrix :=
    (_Graph_ClearMatrixEntry (g.resizeAdj).node_count (g.resizeAdj).adjacency_matrix
      s d) } with hgA
  have hunf : _Graph_DeleteEdges g s d =
      (List.range gA.relations.length).foldl (fun g k =>
        let g := g.resizeRel k
        if (relD g k).entry d s then
          { g with relations := (g.relations.set k
              (_Graph_ClearMatrixEntry g.node_count (relD g k) s d)) }
        else g) gA := rfl
  rw [hunf]
  have hAC : C3Inv gA := by
    refine ⟨?_, ?_, ?_, h4, h5⟩
    · show (_Graph_ClearMatrixEntry _ (_Graph_ResizeMatrix g g.adjacency_matrix) s d).nrows = _
      rw [clearMatrixEntry_nrows, clearMatrixEntry_ncols]
      exact _Graph_ResizeMatrix_sq g _ h1
    · show g.node_count ≤ (_Graph_ClearMatrixEntry _ _ s d).nrows
      rw [clearMatrixEntry_nrows]
      show g.node_count ≤ (_Graph_ResizeMatrix g g.adjacency_matrix).nrows
      rw [_Graph_ResizeMatrix_nrows]
    · intro i j hE
      show i < g.node_count ∧ j < g.node_count
      rw [clearMatrixEntry_entry _ _ _ _ (by exact hd)] at hE
      by_cases hij : i = d ∧ j = s
      · rw [if_pos hij] at hE; exact absurd hE (by simp)
      · rw [if_neg hij] at hE
        exact resizeMatrix_conf_mono g _ g.node_count (le_refl _) h3 i j hE
  refine foldl_preserves C3Inv _ ?_ _ _ hAC
  rintro gb k ⟨p1, p2, p3, p4, p5⟩
  by_cases hck : (relD (gb.resizeRel k) k).entry d s = true
  · rw [if_pos hck]
    refine ⟨p1, p2, p3, ?_, p5⟩
    have hres := sqRels_resizeRel gb k p4
    intro m
    show ((((gb.resizeRel k).relations).set k _).getD m default).nrows = _
    refine sqRels_set (gb.resizeRel k) _ _ hres ?_ m
    rw [clearMatrixEntry_nrows, clearMatrixEntry_ncols]
    exact hres k
  · rw [if_neg hck]
    exact ⟨p1, p2, p3, sqRels_resizeRel gb k p4, p5⟩

lemma C3Inv_deleteTyped (g : Graph) (s d rt : Nat) (hC : C3Inv g)
    (hd : d < g.node_count) :
    C3Inv (_Graph_DeleteTypedEdges g s d rt) := by
  obtain ⟨h1, h2, h3, h4, h5⟩ := hC
  by_cases hck : (relD (g.resizeRel rt) rt).entry d s = true
  · rw [deleteTypedEdges_eq_of_connected g s d rt hck]
    set g1 := g.resizeRel rt with hg1def
    set g2 : Graph := { g1 with relations := (g1.relations.set rt
      (_Graph_ClearMatrixEntry g1.node_count (relD g1 rt) s d)) } with hg2def
    have hg2C : C3Inv g2 := by
      refine ⟨h1, h2, h3, ?_, h5⟩
      have hres := sqRels_resizeRel g rt h4
      intro m
      show ((g1.relations.set rt _).getD m default).nrows = _
      refine sqRels_set g1 _ _ hres ?_ m
      rw [clearMatrixEntry_nrows, clearMatrixEntry_ncols]
      exact hres rt
    obtain ⟨q1, q2, q3, q4, q5⟩ := hg2C
    obtain ⟨s1, s2, s3, s4, s5, s6, s7, s8⟩ :=
      scanRelations_structure s d (List.range g2.relations.length) g2
    set sc := _scanRelations s d g2 (List.range g2.relations.length) with hscdef
    by_cases hfound : sc.2 = true
    · rw [if_pos hfound]
      refine ⟨by rw [s1]; exact q1, by rw [s2, s1]; exact q2, ?_, s8 q4, ?_⟩
      · intro i j hE
        rw [s1] at hE
        rw [s2]
        exact q3 i j hE
      · intro m
        unfold labD
        rw [s3]
        exact q5 m
    · rw [if_neg hfound]
      have hcnt : (sc.1.resizeAdj).node_count = g.node_count := by
        rw [resizeAdj_node_count, s2]
        rfl
      refine ⟨?_, ?_, ?_, ?_, ?_⟩
      · show (_Graph_ClearMatrixEntry _
          (_Graph_ResizeMatrix sc.1 sc.1.adjacency_matrix) s d).nrows = _
        rw [clearMatrixEntry_nrows, clearMatrixEntry_ncols]
        exact _Graph_ResizeMatrix_sq sc.1 _ (by rw [s1]; exact q1)
      · show (sc.1.resizeAdj).node_count ≤ (_Graph_ClearMatrixEntry _ _ s d).nrows
        rw [clearMatrixEntry_nrows]
        show _ ≤ (_Graph_ResizeMatrix sc.1 sc.1.adjacency_matrix).nrows
        rw [_Graph_ResizeMatrix_nrows, resizeAdj_node_count]
      · intro i j hE
        show i < (sc.1.resizeAdj).node_count ∧ j < (sc.1.resizeAdj).node_count
        rw [hcnt]
        rw [clearMatrixEntry_entry _ _ _ _ (by rw [resizeAdj_node_count, s2]; exact hd)] at hE
        by_cases hij : i = d ∧ j = s
        · rw [if_pos hij] at hE; exact absurd hE (by simp)
        · rw [if_neg hij] at hE
          have := resizeMatrix_conf_mono sc.1 sc.1.adjacency_matrix sc.1.node_count
            (le_refl _) (by
              intro i j hx
              rw [s1] at hx
              rw [s2]
              exact q3 i j hx) i j hE
          rw [s2] at this
          exact this
      · intro m
        have hx : relD ({ sc.1.resizeAdj with adjacency_matrix := (_Graph_ClearMatrixEntry
            (sc.1.resizeAdj).node_count (sc.1.resizeAdj).adjacency_matrix s d) } : Graph) m =
            relD sc.1 m := rfl
        rw [hx]
        exact s8 q4 m
      · intro m
        have hx : labD ({ sc.1.resizeAdj with adjacency_matrix := (_Graph_ClearMatrixEntry
            (sc.1.resizeAdj).node_count (sc.1.resizeAdj).adjacency_matrix s d) } : Graph) m =
            labD sc.1 m := rfl
        rw [hx]
        unfold labD
        rw [s3]
        exact q5 m
  · have hckf : (relD (g.resizeRel rt) rt).entry d s = false := by
      cases hb : (relD (g.resizeRel rt) rt).entry d s with
      | false => rfl
      | true => exact absurd hb hck
    rw [deleteTypedEdges_eq_of_not_connected g s d rt hckf]
    exact ⟨h1, h2, h3, sqRels_resizeRel g rt h4, h5⟩

lemma C3Inv_delEdge (g : Graph) (s d : Nat) (rel : Int) (h : C3Inv g) :
    C3Inv (Graph_DeleteEdge g s d rel) := by
  by_cases hconn : (g.resizeAdj).adjacency_matrix.entry d s = true
  · by_cases hrel : rel = GRAPH_NO_RELATION
    · subst hrel
      rw [deleteEdge_eq_untyped g s d hconn]
      exact C3Inv_deleteEdges g.resizeAdj s d (C3Inv_resizeAdj g h)
        ((C3Inv_resizeAdj g h).2.2.1 d s hconn).1
    · rw [deleteEdge_eq_typed' g s d rel hconn hrel]
      exact C3Inv_deleteTyped g.resizeAdj s d rel.toNat (C3Inv_resizeAdj g h)
        ((C3Inv_resizeAdj g h).2.2.1 d s hconn).1
  · have hconnf : (g.resizeAdj).adjacency_matrix.entry d s = false := by
      cases hb : (g.resizeAdj).adjacency_matrix.entry d s with
      | false => rfl
      | true => exact absurd hb hconn
    rw [deleteEdge_eq_noop g s d rel hconnf]
    exact C3Inv_resizeAdj g h

lemma getD_append_one {α : Type} (l : List α) (x d : α) :
    ∀ k, (l ++ [x]).getD k d =
      if k < l.length then l.getD k d else if k = l.length then x else d := by
  intro k
  by_cases h1 : k < l.length
  · rw [if_pos h1, List.getD_eq_getElem?_getD, List.getD_eq_getElem?_getD,
      List.getElem?_append_left h1]
  · rw [if_neg h1]
    by_cases h2 : k = l.length
    · rw [if_pos h2]
      subst h2
      rw [List.getD_eq_getElem?_getD, List.getElem?_append_right (le_refl _)]
      simp
    · rw [if_neg h2]
      rw [List.getD_eq_getElem?_getD]
      rw [List.getElem?_eq_none (by simp; omega)]
      rfl

/-- Entries of a freshly resized matrix are confined to its bounds. -/
lemma resize_conf (m : GMatrix) (a b : Nat) :
    ∀ i j, (m.resize a b).entry i j = true → i < a ∧ j < b := by
  intro i j hE
  rw [GMatrix.resize_entry] at hE
  by_cases h : i < a ∧ j < b
  · exact h
  · rw [if_neg h] at hE
    exact absurd hE (by simp)

/-- The structural facts about the graph that the swap-down loop
preserves: the count is untouched and every matrix stays square, with
the adjacency dimension at least the (old) count. -/
def C3Loop (N : Nat) (g : Graph) : Prop :=
  g.node_count = N ∧
  g.adjacency_matrix.nrows = g.adjacency_matrix.ncols ∧
  N ≤ g.adjacency_matrix.nrows ∧ sqRels g ∧ sqLabs g

lemma labelRecStep_C3Loop (N replacement to_delete : Nat) :
    ∀ (gb : Graph) (k : Nat), C3Loop N gb →
    C3Loop N (
      let g := gb.resizeLab k
      let m := labD g k
      let src_has_label := m.entry replacement replacement
      let dest_has_label := m.entry to_delete to_delete
      if dest_has_label && !src_has_label then
        { g with labels := g.labels.set k (m.clearColumn (Graph_NodeCount g) to_delete) }
      else if !dest_has_label && src_has_label then
        { g with labels := g.labels.set k (m.setElement to_delete to_delete) }
      else g) := by
  intro gb k hC
  obtain ⟨h0, h1, h2, h4, h5⟩ := hC
  simp only []
  have hres : sqLabs (gb.resizeLab k) := sqLabs_resizeLab gb k h5
  by_cases hc1 : ((labD (gb.resizeLab k) k).entry to_delete to_delete &&
      !(labD (gb.resizeLab k) k).entry replacement replacement) = true
  · rw [if_pos hc1]
    refine ⟨h0, h1, h2, fun m => h4 m, ?_⟩
    intro m
    show (((gb.resizeLab k).labels.set k _).getD m default).nrows = _
    refine sqLabs_set _ _ _ hres ?_ m
    rw [clearColumn_nrows, clearColumn_ncols]
    exact hres k
  · rw [if_neg hc1]
    by_cases hc2 : (!(labD (gb.resizeLab k) k).entry to_delete to_delete &&
        (labD (gb.resizeLab k) k).entry replacement replacement) = true
    · rw [if_pos hc2]
      refine ⟨h0, h1, h2, fun m => h4 m, ?_⟩
      intro m
      show (((gb.resizeLab k).labels.set k _).getD m default).nrows = _
      refine sqLabs_set _ _ _ hres ?_ m
      rw [GMatrix.setElement_nrows, GMatrix.setElement_ncols]
      exact hres k
    · rw [if_neg hc2]
      exact ⟨h0, h1, h2, fun m => h4 m, hres⟩

lemma migrate_C3Loop (N : Nat) (g : Graph) (s h : Nat) (hC : C3Loop N g) :
    C3Loop N (_Graph_MigrateRowCol g s h) := by
  obtain ⟨h0, h1, h2, h4, h5⟩ := hC
  unfold _Graph_MigrateRowCol
  have hbase : C3Loop N ({ g.resizeAdj with adjacency_matrix :=
      ((g.resizeAdj).adjacency_matrix.migrateRowCol g.node_count s h) } : Graph) := by
    refine ⟨h0, ?_, ?_, fun m => h4 m, fun m => h5 m⟩
    · show ((g.resizeAdj).adjacency_matrix.migrateRowCol g.node_count s h).nrows = _
      rw [migrateRowCol_nrows, migrateRowCol_ncols]
      exact _Graph_ResizeMatrix_sq g _ h1
    · show N ≤ ((g.resizeAdj).adjacency_matrix.migrateRowCol g.node_count s h).nrows
      rw [migrateRowCol_nrows]
      show N ≤ (_Graph_ResizeMatrix g g.adjacency_matrix).nrows
      rw [_Graph_ResizeMatrix_nrows, h0]
  refine foldl_preserves (C3Loop N) _ ?_ _ _ hbase
  rintro gb k ⟨p0, p1, p2, p4, p5⟩
  simp only []
  refine ⟨p0, p1, p2, ?_, fun m => p5 m⟩
  have hres : sqRels (gb.resizeRel k) := sqRels_resizeRel gb k p4
  intro m
  show (((gb.resizeRel k).relations.set k _).getD m default).nrows = _
  refine sqRels_set _ _ _ hres ?_ m
  rw [migrateRowCol_nrows, migrateRowCol_ncols]
  exact hres k

lemma replace_C3Loop (N : Nat) (g : Graph) (s h : Nat) (hC : C3Loop N g) :
    C3Loop N (_replace_deleted_node g s h) := by
  unfold _replace_deleted_node
  simp only []
  have hlab := foldl_preserves (C3Loop N) _ (labelRecStep_C3Loop N s h)
    (List.range g.labels.length) g hC
  have hmig := migrate_C3Loop N _ s h hlab
  obtain ⟨q0, q1, q2, q4, q5⟩ := hmig
  exact ⟨q0, q1, q2, fun m => q4 m, fun m => q5 m⟩

lemma deleteLoop_C3Loop (IDs : List Nat) (post N : Nat) :
    ∀ (fuel : Nat) (g : Graph) (save ldIdx holeIdx : Nat), C3Loop N g →
    C3Loop N (_deleteLoop IDs post fuel g save ldIdx holeIdx) := by
  intro fuel
  induction fuel with
  | zero => intro g _ _ _ hC; exact hC
  | succ f ih =>
    intro g save ldIdx holeIdx hC
    have hunf : _deleteLoop IDs post (f + 1) g save ldIdx holeIdx =
        if IDs.getD holeIdx 0 < post then
          if holeIdx + 1 < IDs.length then
            _deleteLoop IDs post f
              (_replace_deleted_node g (_skipDeleted IDs save ldIdx).1 (IDs.getD holeIdx 0))
              ((_skipDeleted IDs save ldIdx).1 - 1) (_skipDeleted IDs save ldIdx).2 (holeIdx + 1)
          else _replace_deleted_node g (_skipDeleted IDs save ldIdx).1 (IDs.getD holeIdx 0)
        else g := rfl
    rw [hunf]
    by_cases hc : IDs.getD holeIdx 0 < post
    · rw [if_pos hc]
      by_cases hb : holeIdx + 1 < IDs.length
      · rw [if_pos hb]
        exact ih _ _ _ _ (replace_C3Loop N g _ _ hC)
      · rw [if_neg hb]
        exact replace_C3Loop N g _ _ hC
    · rw [if_neg hc]
      exact hC

lemma C3Inv_delNodes (g : Graph) (IDs : List Nat) (h : C3Inv g)
    (hlt : ∀ x ∈ IDs, x < g.node_count) : C3Inv (Graph_DeleteNodes g IDs) := by
  obtain ⟨h1, h2, h3, h4, h5⟩ := h
  unfold Graph_DeleteNodes
  by_cases hz : IDs.length = 0
  · rw [if_pos hz]
    exact ⟨h1, h2, h3, h4, h5⟩
  · rw [if_neg hz]
    simp only []
    have hN1 : 1 ≤ g.node_count := by
      have hpos : 0 < IDs.length := by omega
      rcases List.exists_mem_of_length_pos hpos with ⟨x, hx⟩
      have := hlt x hx
      omega
    have hloop := deleteLoop_C3Loop IDs (g.node_count - IDs.length) g.node_count
      IDs.length g (g.node_count - 1) (IDs.length - 1) 0 ⟨rfl, h1, h2, h4, h5⟩
    obtain ⟨q0, q1, q2, q4, q5⟩ := hloop
    set g' := _deleteLoop IDs (g.node_count - IDs.length) IDs.length g
      (g.node_count - 1) (IDs.length - 1) 0 with hg'
    have hpost : g.node_count - IDs.length < g.node_count := by omega
    have hne : g'.adjacency_matrix.nrows ≠ g.node_count - IDs.length := by omega
    refine ⟨?_, ?_, ?_, fun m => q4 m, fun m => q5 m⟩
    · show (_Graph_ResizeMatrix ({ g' with node_count := g.node_count - IDs.length } : Graph)
        g'.adjacency_matrix).nrows = _
      exact _Graph_ResizeMatrix_sq _ _ q1
    · show _ ≤ (_Graph_ResizeMatrix ({ g' with node_count := g.node_count - IDs.length } : Graph)
        g'.adjacency_matrix).nrows
      rw [_Graph_ResizeMatrix_nrows]
    · intro i j hE
      show i < g.node_count - IDs.length ∧ j < g.node_count - IDs.length
      unfold _Graph_ResizeMatrix at hE
      rw [if_pos (by exact hne)] at hE
      exact resize_conf _ _ _ i j hE

lemma C3Inv_addRel (g : Graph) (h : C3Inv g) : C3Inv (Graph_AddRelationMatrix g).1 := by
  obtain ⟨h1, h2, h3, h4, h5⟩ := h
  refine ⟨h1, h2, h3, ?_, fun m => h5 m⟩
  intro m
  show ((g.relations ++ [GMatrix.new g.node_cap g.node_cap]).getD m default).nrows =
    ((g.relations ++ [GMatrix.new g.node_cap g.node_cap]).getD m default).ncols
  rw [getD_append_one]
  by_cases hm : m < g.relations.length
  · rw [if_pos hm]; exact h4 m
  · rw [if_neg hm]
    by_cases hm2 : m = g.relations.length
    · rw [if_pos hm2]; rfl
    · rw [if_neg hm2]; rfl

lemma C3Inv_addLabel (g : Graph) (h : C3Inv g) : C3Inv (Graph_AddLabelMatrix g).1 := by
  obtain ⟨h1, h2, h3, h4, h5⟩ := h
  refine ⟨h1, h2, h3, fun m => h4 m, ?_⟩
  intro m
  show ((g.labels ++ [GMatrix.new g.node_cap g.node_cap]).getD m default).nrows =
    ((g.labels ++ [GMatrix.new g.node_cap g.node_cap]).getD m default).ncols
  rw [getD_append_one]
  by_cases hm : m < g.labels.length
  · rw [if_pos hm]; exact h5 m
  · rw [if_neg hm]
    by_cases hm2 : m = g.labels.length
    · rw [if_pos hm2]; rfl
    · rw [if_neg hm2]; rfl

/-- C3 (amended): after every public mutation, every matrix owned by
the graph is square, and the adjacency matrix has dimension at least
`node_count` with no nonzero entry at row or column `≥ node_count`.
(The original claim fails for relation and label matrices, which may
retain stale dimensions and stale entries until their next access; see
the counterexample.) -/
theorem public_ops_preserve_matrix_bounds (n : Nat) (h : 0 < n) (ops : List GOp) :
    C3Inv (applyOps (Graph_New n) ops) := by
  refine foldl_preserves C3Inv GStep ?_ ops (Graph_New n) ?_
  · intro g op hg
    unfold GStep
    by_cases hv : GValid g op
    · rw [if_pos hv]
      cases op with
      | create m ls => exact C3Inv_create _ _ _ hg
      | connect conns => exact C3Inv_connect _ _ hg
      | labelRange a b l => exact C3Inv_labelRange _ _ _ _ hg
      | delEdge s d r => exact C3Inv_delEdge _ _ _ _ hg
      | delNodes ids =>
        refine C3Inv_delNodes _ _ hg ?_
        unfold GValid at hv
        exact hv.2
      | addRel => exact C3Inv_addRel _ hg
      | addLabel => exact C3Inv_addLabel _ hg
    · rw [if_neg hv]
      exact hg
  · exact ⟨rfl, by show (0 : Nat) ≤ _; omega, by intro i j hE; exact absurd hE (by simp [Graph_New]),
      fun m => by
        show ((([] : List GMatrix)).getD m default).nrows = _
        rfl,
      fun m => by
        show ((([] : List GMatrix)).getD m default).nrows = _
        rfl⟩

/-- Witness for C3 (amended) on a short real run. -/
theorem public_ops_preserve_matrix_bounds_witness :
    0 < 16 ∧ C3Inv (applyOps (Graph_New 16)
      [GOp.addRel, GOp.create 3 none, GOp.connect [(0, 1, 0)]]) :=
  ⟨by decide, public_ops_preserve_matrix_bounds 16 (by decide)
    [GOp.addRel, GOp.create 3 none, GOp.connect [(0, 1, 0)]]⟩

/-- Counterexample to C3 as stated: after
`new(1); add_label; create_nodes(2); label_nodes(1,1,0); delete_nodes([0])`
the label matrix still holds its stale diagonal entry `(1,1)` although
`node_count` is 1 — only the adjacency matrix was force-resized. -/
theorem matrix_bounds_claim_fails :
    ¬ C3Claim (applyOps (Graph_New 1)
      [GOp.addLabel, GOp.create 2 none, GOp.labelRange 1 1 0, GOp.delNodes [0]]) := by
  intro hcl
  have hlen : 0 < (applyOps (Graph_New 1)
      [GOp.addLabel, GOp.create 2 none, GOp.labelRange 1 1 0, GOp.delNodes [0]]).labels.length := by
    decide
  have hmem : (applyOps (Graph_New 1)
      [GOp.addLabel, GOp.create 2 none, GOp.labelRange 1 1 0,
        GOp.delNodes [0]]).labels.getD 0 default ∈
      (applyOps (Graph_New 1)
        [GOp.addLabel, GOp.create 2 none, GOp.labelRange 1 1 0, GOp.delNodes [0]]).labels := by
    rw [List.getD_eq_getElem _ _ hlen]
    exact List.getElem_mem hlen
  have h1 := (hcl.2.2 _ hmem).2.2 1 1 (by decide)
  have h2 : (applyOps (Graph_New 1)
      [GOp.addLabel, GOp.create 2 none, GOp.labelRange 1 1 0,
        GOp.delNodes [0]]).node_count = 1 := by decide
  omega

/-! ### The swap-down compaction characterised

`Graph_DeleteNodes` fills holes (deleted ids below the post-delete
count) in ascending order with donors (surviving ids at or above it) in
descending order, calling `_replace_deleted_node` once per pair.  The
loop's control flow never depends on the graph, so it is extracted
below as a pure function on the id list. -/

/-- The `(donor, hole)` pairs the main delete loop passes to
`_replace_deleted_node`, in call order. -/
def _deleteLoopPairs (IDs : List Nat) (post : Nat) :
    Nat → Nat → Nat → Nat → List (Nat × Nat)
  | 0, _, _, _ => []
  | fuel + 1, save, ldIdx, holeIdx =>
    if IDs.getD holeIdx 0 < post then
      let sk := _skipDeleted IDs save ldIdx
      if holeIdx + 1 < IDs.length then
        (sk.1, IDs.getD holeIdx 0) ::
          _deleteLoopPairs IDs post fuel (sk.1 - 1) sk.2 (holeIdx + 1)
      else [(sk.1, IDs.getD holeIdx 0)]
    else []

/-- Run `_replace_deleted_node` over a list of `(donor, hole)` pairs. -/
def applyPairs (g : Graph) (ps : List (Nat × Nat)) : Graph :=
  ps.foldl (fun g p => _replace_deleted_node g p.1 p.2) g

lemma deleteLoop_as_pairs (IDs : List Nat) (post : Nat) :
    ∀ (fuel : Nat) (g : Graph) (save ldIdx holeIdx : Nat),
      _deleteLoop IDs post fuel g save ldIdx holeIdx =
        applyPairs g (_deleteLoopPairs IDs post fuel save ldIdx holeIdx) := by
  intro fuel
  induction fuel with
  | zero => intro g save l hi; rfl
  | succ f ih =>
    intro g save l hi
    have h1 : _deleteLoop IDs post (f + 1) g save l hi =
        if IDs.getD hi 0 < post then
          (if hi + 1 < IDs.length then
            _deleteLoop IDs post f
              (_replace_deleted_node g (_skipDeleted IDs save l).1 (IDs.getD hi 0))
              ((_skipDeleted IDs save l).1 - 1) (_skipDeleted IDs save l).2 (hi + 1)
          else _replace_deleted_node g (_skipDeleted IDs save l).1 (IDs.getD hi 0))
        else g := rfl
    have h2 : _deleteLoopPairs IDs post (f + 1) save l hi =
        if IDs.getD hi 0 < post then
          (if hi + 1 < IDs.length then
            ((_skipDeleted IDs save l).1, IDs.getD hi 0) ::
              _deleteLoopPairs IDs post f ((_skipDeleted IDs save l).1 - 1)
                (_skipDeleted IDs save l).2 (hi + 1)
          else [((_skipDeleted IDs save l).1, IDs.getD hi 0)])
        else [] := rfl
    rw [h1, h2]
    by_cases hc : IDs.getD hi 0 < post
    · rw [if_pos hc, if_pos hc]
      by_cases hb : hi + 1 < IDs.length
      · rw [if_pos hb, if_pos hb]
        exact ih _ _ _ _
      · rw [if_neg hb, if_neg hb]
        rfl
    · rw [if_neg hc, if_neg hc]
      rfl

/-- Two strictly ascending lists with the same members are equal. -/
lemma sorted_lt_ext : ∀ (l l' : List Nat), l.Pairwise (· < ·) → l'.Pairwise (· < ·) →
    (∀ x, x ∈ l ↔ x ∈ l') → l = l' := by
  intro l
  induction l with
  | nil =>
    intro l' _ _ hmem
    cases l' with
    | nil => rfl
    | cons b t' => exact absurd ((hmem b).2 (List.mem_cons_self b t')) (by simp)
  | cons a t ih =>
    intro l' hl hl' hmem
    cases l' with
    | nil => exact absurd ((hmem a).1 (List.mem_cons_self a t)) (by simp)
    | cons b t' =>
      have hab : a = b := by
        rcases List.mem_cons.mp ((hmem a).1 (List.mem_cons_self a t)) with h | h
        · exact h
        · rcases List.mem_cons.mp ((hmem b).2 (List.mem_cons_self b t')) with h2 | h2
          · exact h2.symm
          · have h3 := (List.pairwise_cons.mp hl).1 b h2
            have h4 := (List.pairwise_cons.mp hl').1 a h
            omega
      subst hab
      have htails : ∀ x, x ∈ t ↔ x ∈ t' := by
        intro x
        constructor
        · intro hx
          have hax := (List.pairwise_cons.mp hl).1 x hx
          rcases List.mem_cons.mp ((hmem x).1 (List.mem_cons_of_mem a hx)) with h | h
          · omega
          · exact h
        · intro hx
          have hax := (List.pairwise_cons.mp hl').1 x hx
          rcases List.mem_cons.mp ((hmem x).2 (List.mem_cons_of_mem a hx)) with h | h
          · omega
          · exact h
      rw [ih t' (List.pairwise_cons.mp hl).2 (List.pairwise_cons.mp hl').2 htails]

lemma length_filter_range_ge (post : Nat) :
    ∀ n, ((List.range n).filter (fun x => decide (post ≤ x))).length = n - post := by
  intro n
  induction n with
  | zero => simp
  | succ n ih =>
    rw [List.range_succ, List.filter_append, List.length_append, ih]
    by_cases h : post ≤ n
    · simp [h]
      omega
    · simp [h]
      omega

lemma length_filter_and_split {α : Type} (p q : α → Bool) :
    ∀ l : List α,
      (l.filter (fun x => p x && q x)).length +
        (l.filter (fun x => p x && !q x)).length = (l.filter p).length := by
  intro l
  induction l with
  | nil => rfl
  | cons a t ih =>
    simp only [List.filter_cons]
    cases hp : p a <;> cases hq : q a <;> simp [hp, hq] <;> omega

lemma length_filter_split {α : Type} (q : α → Bool) :
    ∀ l : List α,
      (l.filter q).length + (l.filter (fun x => !q x)).length = l.length := by
  intro l
  induction l with
  | nil => rfl
  | cons a t ih =>
    simp only [List.filter_cons]
    cases hq : q a <;> simp [hq] <;> omega

/-- Surviving ids in `[post, v]`, ascending: ids not scheduled for
deletion that sit at or above the post-delete count. -/
def survUpTo (D : List Nat) (post v : Nat) : List Nat :=
  (List.range (v + 1)).filter (fun x => decide (post ≤ x) && !(decide (x ∈ D)))

/-- Deleted ids below `post` from position `hi` of the sorted id list,
ascending: the holes the loop still has to fill. -/
def holesFrom (D : List Nat) (post hi : Nat) : List Nat :=
  (D.drop hi).filter (fun x => decide (x < post))

/-- The `(donor, hole)` pairs `Graph_DeleteNodes g D` relocates: the
surviving ids of `[N - |D|, N)` in descending order, matched with the
deleted ids below `N - |D|` in ascending order. -/
def relocPairs (D : List Nat) (N : Nat) : List (Nat × Nat) :=
  (survUpTo D (N - D.length) (N - 1)).reverse.zip (holesFrom D (N - D.length) 0)

lemma mem_survUpTo (D : List Nat) (post v x : Nat) :
    x ∈ survUpTo D post v ↔ x ≤ v ∧ post ≤ x ∧ x ∉ D := by
  unfold survUpTo
  simp [List.mem_filter, List.mem_range, Nat.lt_succ_iff]

lemma mem_holesFrom (D : List Nat) (post hi x : Nat) :
    x ∈ holesFrom D post hi ↔ x ∈ D.drop hi ∧ x < post := by
  unfold holesFrom
  simp [List.mem_filter]

lemma sorted_getD_lt (D : List Nat) (hs : D.Pairwise (· < ·)) (m m' : Nat)
    (hmm : m < m') (hm' : m' < D.length) : D.getD m 0 < D.getD m' 0 := by
  rw [List.getD_eq_getElem _ _ (by omega), List.getD_eq_getElem _ _ hm']
  exact List.pairwise_iff_getElem.mp hs m m' (by omega) hm' hmm

lemma sorted_getD_le (D : List Nat) (hs : D.Pairwise (· < ·)) (m m' : Nat)
    (hmm : m ≤ m') (hm' : m' < D.length) : D.getD m 0 ≤ D.getD m' 0 := by
  rcases Nat.eq_or_lt_of_le hmm with h | h
  · rw [h]
  · exact Nat.le_of_lt (sorted_getD_lt D hs m m' h hm')

lemma mem_iff_getD (D : List Nat) (x : Nat) :
    x ∈ D ↔ ∃ m, m < D.length ∧ D.getD m 0 = x := by
  constructor
  · intro hx
    rcases List.mem_iff_getElem.mp hx with ⟨m, hm, he⟩
    exact ⟨m, hm, by rw [List.getD_eq_getElem _ _ hm]; exact he⟩
  · rintro ⟨m, hm, he⟩
    rw [List.getD_eq_getElem _ _ hm] at he
    rw [← he]
    exact List.getElem_mem hm

/-- The relationship the delete loop maintains between `id_to_save` and
`largest_delete_idx`: the index is in range, every deletion id at a
higher index exceeds `save`, and either the id at the index is at most
`save` or every deletion id exceeds `save`. -/
def SkipInv (D : List Nat) (save ldIdx : Nat) : Prop :=
  ldIdx < D.length ∧
  (∀ m, ldIdx < m → m < D.length → save < D.getD m 0) ∧
  (D.getD ldIdx 0 ≤ save ∨ ∀ m, m < D.length → save < D.getD m 0)

lemma skipInv_not_mem (D : List Nat) (hs : D.Pairwise (· < ·)) (save ldIdx : Nat)
    (hinv : SkipInv D save ldIdx) (hne : save ≠ D.getD ldIdx 0) : save ∉ D := by
  obtain ⟨hl, hgt, hdisj⟩ := hinv
  intro hmem
  rcases (mem_iff_getD D save).mp hmem with ⟨m, hm, he⟩
  rcases hdisj with hle | hall
  · by_cases hml : m ≤ ldIdx
    · have := sorted_getD_le D hs m ldIdx hml hl
      omega
    · have := hgt m (by omega) hm
      omega
  · have := hall m hm
    omega

/-- What the inner skip loop returns: the largest id at most `save`
that is not scheduled for deletion (everything in between is), with the
index invariant re-established. -/
lemma skipDeleted_spec (D : List Nat) (hs : D.Pairwise (· < ·)) (post : Nat) :
    ∀ save ldIdx, SkipInv D save ldIdx →
      (∃ x, x ≤ save ∧ post ≤ x ∧ x ∉ D) →
      (_skipDeleted D save ldIdx).1 ∉ D ∧
      (_skipDeleted D save ldIdx).1 ≤ save ∧
      post ≤ (_skipDeleted D save ldIdx).1 ∧
      (∀ y, (_skipDeleted D save ldIdx).1 < y → y ≤ save → y ∈ D) ∧
      SkipInv D (_skipDeleted D save ldIdx).1 (_skipDeleted D save ldIdx).2 := by
  intro save
  induction save with
  | zero =>
    intro l hinv hex
    rcases hex with ⟨x, hx1, hx2, hx3⟩
    have hx0 : x = 0 := by omega
    subst hx0
    show (0 : Nat) ∉ D ∧ (0 : Nat) ≤ 0 ∧ post ≤ 0 ∧
      (∀ y, (0 : Nat) < y → y ≤ 0 → y ∈ D) ∧ SkipInv D 0 l
    exact ⟨hx3, le_refl _, hx2, by intro y h1 h2; omega, hinv⟩
  | succ s ih =>
    intro l hinv hex
    have hunf : _skipDeleted D (s + 1) l =
        if s + 1 = D.getD l 0 then _skipDeleted D s (l - 1) else (s + 1, l) := rfl
    by_cases hc : s + 1 = D.getD l 0
    · rw [hunf, if_pos hc]
      have hmem : (s + 1) ∈ D := by
        rw [hc]
        exact (mem_iff_getD D _).mpr ⟨l, hinv.1, rfl⟩
      have hinv' : SkipInv D s (l - 1) := by
        obtain ⟨hl, hgt, hdisj⟩ := hinv
        refine ⟨by omega, ?_, ?_⟩
        · intro m hm1 hm2
          by_cases hml : m = l
          · subst hml
            omega
          · by_cases hml2 : l < m
            · have := hgt m hml2 hm2
              omega
            · omega
        · by_cases hl0 : l = 0
          · subst hl0
            right
            intro m hm
            have := sorted_getD_le D hs 0 m (by omega) hm
            omega
          · left
            have hlt := sorted_getD_lt D hs (l - 1) l (by omega) hl
            omega
      have hex' : ∃ x, x ≤ s ∧ post ≤ x ∧ x ∉ D := by
        rcases hex with ⟨x, hx1, hx2, hx3⟩
        refine ⟨x, ?_, hx2, hx3⟩
        have : x ≠ s + 1 := fun he => hx3 (he ▸ hmem)
        omega
      obtain ⟨r1, r2, r3, r4, r5⟩ := ih (l - 1) hinv' hex'
      refine ⟨r1, by omega, r3, ?_, r5⟩
      intro y h1 h2
      by_cases hy : y ≤ s
      · exact r4 y h1 hy
      · have hy1 : y = s + 1 := by omega
        rw [hy1]
        exact hmem
    · rw [hunf, if_neg hc]
      have hnmem : (s + 1) ∉ D := skipInv_not_mem D hs (s + 1) l hinv hc
      have hpost : post ≤ s + 1 := by
        rcases hex with ⟨x, hx1, hx2, _⟩
        omega
      show (s + 1) ∉ D ∧ s + 1 ≤ s + 1 ∧ post ≤ s + 1 ∧
        (∀ y, s + 1 < y → y ≤ s + 1 → y ∈ D) ∧ SkipInv D (s + 1) l
      exact ⟨hnmem, le_refl _, hpost, by intro y h1 h2; omega, hinv⟩

lemma survUpTo_sorted (D : List Nat) (post v : Nat) :
    (survUpTo D post v).Pairwise (· < ·) :=
  List.Pairwise.filter _ (List.pairwise_lt_range _)

lemma survUpTo_head (D : List Nat) (post save s' : Nat) (h1 : 1 ≤ s') (h2 : s' ≤ save)
    (h3 : post ≤ s') (h4 : s' ∉ D) (h5 : ∀ y, s' < y → y ≤ save → y ∈ D) :
    survUpTo D post save = survUpTo D post (s' - 1) ++ [s'] := by
  apply sorted_lt_ext
  · exact survUpTo_sorted D post save
  · rw [List.pairwise_append]
    refine ⟨survUpTo_sorted D post (s' - 1), List.pairwise_singleton _ _, ?_⟩
    intro a ha b hb
    rw [mem_survUpTo] at ha
    rw [List.mem_singleton] at hb
    omega
  · intro x
    rw [mem_survUpTo, List.mem_append, mem_survUpTo, List.mem_singleton]
    constructor
    · rintro ⟨hxv, hxp, hxD⟩
      by_cases hxs : x = s'
      · right
        exact hxs
      · left
        refine ⟨?_, hxp, hxD⟩
        by_cases hgt : s' < x
        · exact absurd (h5 x hgt hxv) hxD
        · omega
    · rintro (⟨hxv, hxp, hxD⟩ | hx)
      · exact ⟨by omega, hxp, hxD⟩
      · rw [hx]
        exact ⟨h2, h3, h4⟩

lemma mem_drop_getD_le (D : List Nat) (hs : D.Pairwise (· < ·)) (hi : Nat)
    (hhi : hi < D.length) (a : Nat) (ha : a ∈ D.drop hi) : D.getD hi 0 ≤ a := by
  rcases List.mem_iff_getElem.mp ha with ⟨m, hm, he⟩
  rw [List.getElem_drop] at he
  rw [List.length_drop] at hm
  have h2 := sorted_getD_le D hs hi (hi + m) (by omega) (by omega)
  rw [List.getD_eq_getElem D 0 (show hi + m < D.length by omega)] at h2
  omega

lemma holesFrom_cons (D : List Nat) (post hi : Nat) (hhi : hi < D.length)
    (hlt : D.getD hi 0 < post) :
    holesFrom D post hi = D.getD hi 0 :: holesFrom D post (hi + 1) := by
  unfold holesFrom
  rw [List.drop_eq_getElem_cons hhi, List.filter_cons,
    ← List.getD_eq_getElem D 0 hhi]
  rw [if_pos (show (fun x => decide (x < post)) (D.getD hi 0) = true from decide_eq_true hlt)]

lemma holesFrom_nil (D : List Nat) (hs : D.Pairwise (· < ·)) (post hi : Nat)
    (hhi : hi < D.length) (hge : post ≤ D.getD hi 0) :
    holesFrom D post hi = [] := by
  unfold holesFrom
  rw [List.filter_eq_nil_iff]
  intro a ha
  have := mem_drop_getD_le D hs hi hhi a ha
  simp only [decide_eq_true_eq]
  omega

lemma holesFrom_past (D : List Nat) (post hi : Nat) (hhi : D.length ≤ hi) :
    holesFrom D post hi = [] := by
  unfold holesFrom
  rw [List.drop_eq_nil_of_le hhi]
  rfl

/-- Counting: exactly as many surviving ids sit at or above the
post-delete count as deleted ids sit below it. -/
lemma holes_length_eq (D : List Nat) (N : Nat) (hs : D.Pairwise (· < ·))
    (helts : ∀ x ∈ D, x < N) (hN : 1 ≤ N) :
    (holesFrom D (N - D.length) 0).length = (survUpTo D (N - D.length) (N - 1)).length := by
  have hnodup : D.Nodup := hs.imp Nat.ne_of_lt
  have hKN : D.length ≤ N := by
    have h1 : D.toFinset.card = D.length := List.toFinset_card_of_nodup hnodup
    have h2 : D.toFinset ⊆ Finset.range N := by
      intro x hx
      rw [Finset.mem_range]
      exact helts x (List.mem_toFinset.mp hx)
    have h3 := Finset.card_le_card h2
    rw [h1, Finset.card_range] at h3
    exact h3
  have hsplit := length_filter_and_split (fun x => decide (N - D.length ≤ x))
    (fun x => decide (x ∈ D)) (List.range N)
  have hrange := length_filter_range_ge (N - D.length) N
  have hE1 : (List.range N).filter (fun x => decide (N - D.length ≤ x) && decide (x ∈ D)) =
      D.filter (fun x => decide (N - D.length ≤ x)) := by
    apply sorted_lt_ext
    · exact List.Pairwise.filter _ (List.pairwise_lt_range _)
    · exact List.Pairwise.filter _ hs
    · intro x
      simp only [List.mem_filter, List.mem_range, Bool.and_eq_true, decide_eq_true_eq]
      constructor
      · rintro ⟨_, h2, h3⟩
        exact ⟨h3, h2⟩
      · rintro ⟨h1, h2⟩
        exact ⟨helts x h1, h2, h1⟩
  have hDsplit := length_filter_split (fun x => decide (N - D.length ≤ x)) D
  have hcongr : D.filter (fun x => !(decide (N - D.length ≤ x))) =
      D.filter (fun x => decide (x < N - D.length)) := by
    apply List.filter_congr
    intro x _
    rw [← decide_not]
    exact decide_eq_decide.mpr Nat.not_le
  have hholes : holesFrom D (N - D.length) 0 = D.filter (fun x => decide (x < N - D.length)) := by
    unfold holesFrom
    rw [List.drop_zero]
  have hsurv : survUpTo D (N - D.length) (N - 1) =
      (List.range N).filter (fun x => decide (N - D.length ≤ x) && !(decide (x ∈ D))) := by
    unfold survUpTo
    rw [show N - 1 + 1 = N from by omega]
  rw [hholes, hsurv]
  rw [hE1, hrange] at hsplit
  rw [hcongr] at hDsplit
  omega

/-- The pair sequence the loop performs is exactly the descending
survivors matched with the ascending holes. -/
lemma deleteLoopPairs_eq (D : List Nat) (post : Nat) (hs : D.Pairwise (· < ·)) :
    ∀ (fuel save ldIdx holeIdx : Nat),
      fuel + holeIdx = D.length → holeIdx < D.length →
      SkipInv D save ldIdx →
      (holesFrom D post holeIdx).length = (survUpTo D post save).length →
      _deleteLoopPairs D post fuel save ldIdx holeIdx =
        (survUpTo D post save).reverse.zip (holesFrom D post holeIdx) := by
  intro fuel
  induction fuel with
  | zero =>
    intro save l hi hfuel hhi _ _
    exact absurd hfuel (by omega)
  | succ f ih =>
    intro save l hi hfuel hhi hinv hcount
    have hunf : _deleteLoopPairs D post (f + 1) save l hi =
        if D.getD hi 0 < post then
          (if hi + 1 < D.length then
            ((_skipDeleted D save l).1, D.getD hi 0) ::
              _deleteLoopPairs D post f ((_skipDeleted D save l).1 - 1)
                (_skipDeleted D save l).2 (hi + 1)
          else [((_skipDeleted D save l).1, D.getD hi 0)])
        else [] := rfl
    rw [hunf]
    by_cases hguard : D.getD hi 0 < post
    · rw [if_pos hguard]
      have hcons := holesFrom_cons D post hi hhi hguard
      have hnonempty : survUpTo D post save ≠ [] := by
        intro hnil
        rw [hcons, hnil] at hcount
        simp at hcount
      have hex : ∃ x, x ≤ save ∧ post ≤ x ∧ x ∉ D := by
        rcases List.exists_mem_of_ne_nil _ hnonempty with ⟨x, hx⟩
        rw [mem_survUpTo] at hx
        exact ⟨x, hx.1, hx.2.1, hx.2.2⟩
      obtain ⟨r1, r2, r3, r4, r5⟩ := skipDeleted_spec D hs post save l hinv hex
      have hr1 : 1 ≤ (_skipDeleted D save l).1 := by omega
      have hhead := survUpTo_head D post save (_skipDeleted D save l).1 hr1 r2 r3 r1 r4
      have hrev : (survUpTo D post save).reverse =
          (_skipDeleted D save l).1 ::
            (survUpTo D post ((_skipDeleted D save l).1 - 1)).reverse := by
        rw [hhead]
        simp
      have hinv' : SkipInv D ((_skipDeleted D save l).1 - 1) (_skipDeleted D save l).2 := by
        obtain ⟨q1, q2, q3⟩ := r5
        refine ⟨q1, ?_, ?_⟩
        · intro m hm1 hm2
          have := q2 m hm1 hm2
          omega
        · rcases q3 with hq | hq
          · left
            have hneq : D.getD (_skipDeleted D save l).2 0 ≠ (_skipDeleted D save l).1 := by
              intro he
              exact r1 ((mem_iff_getD D _).mpr ⟨(_skipDeleted D save l).2, q1, he⟩)
            omega
          · right
            intro m hm
            have := hq m hm
            omega
      by_cases hb : hi + 1 < D.length
      · rw [if_pos hb]
        have hcount' : (holesFrom D post (hi + 1)).length =
            (survUpTo D post ((_skipDeleted D save l).1 - 1)).length := by
          rw [hcons, hhead] at hcount
          simp at hcount
          omega
        rw [ih ((_skipDeleted D save l).1 - 1) (_skipDeleted D save l).2 (hi + 1)
          (by omega) hb hinv' hcount']
        rw [hrev, hcons]
        rfl
      · rw [if_neg hb]
        rw [hrev, hcons]
        have hpast : holesFrom D post (hi + 1) = [] :=
          holesFrom_past D post (hi + 1) (by omega)
        rw [hpast]
        simp
    · rw [if_neg hguard]
      have hnil := holesFrom_nil D hs post hi hhi (by omega)
      rw [hnil]
      simp

/-- `Graph_DeleteNodes` on a sorted, in-range, nonempty id list is the
relocation pair sequence followed by the count commit and the adjacency
force-resize. -/
lemma deleteNodes_eq_pairs (g : Graph) (D : List Nat) (hs : D.Pairwise (· < ·))
    (helts : ∀ x ∈ D, x < g.node_count) (hne : D ≠ []) :
    Graph_DeleteNodes g D =
      { applyPairs g (relocPairs D g.node_count) with
          node_count := g.node_count - D.length,
          adjacency_matrix := _Graph_ResizeMatrix
            { applyPairs g (relocPairs D g.node_count) with
                node_count := g.node_count - D.length }
            (applyPairs g (relocPairs D g.node_count)).adjacency_matrix } := by
  have hK : ¬ D.length = 0 := by
    intro h
    exact hne (List.length_eq_zero.mp h)
  have hN1 : 1 ≤ g.node_count := by
    rcases List.exists_mem_of_ne_nil _ hne with ⟨x, hx⟩
    have := helts x hx
    omega
  have hinv0 : SkipInv D (g.node_count - 1) (D.length - 1) := by
    refine ⟨by omega, ?_, ?_⟩
    · intro m hm1 hm2
      omega
    · left
      have hlt : D.getD (D.length - 1) 0 < g.node_count := by
        have hmem : D.getD (D.length - 1) 0 ∈ D :=
          (mem_iff_getD D _).mpr ⟨D.length - 1, by omega, rfl⟩
        exact helts _ hmem
      omega
  have hcnt0 : (holesFrom D (g.node_count - D.length) 0).length =
      (survUpTo D (g.node_count - D.length) (g.node_count - 1)).length :=
    holes_length_eq D g.node_count hs helts hN1
  unfold Graph_DeleteNodes
  rw [if_neg hK]
  simp only []
  rw [deleteLoop_as_pairs, deleteLoopPairs_eq D (g.node_count - D.length) hs D.length
    (g.node_count - 1) (D.length - 1) 0 (by omega) (by omega) hinv0 hcnt0]
  rfl

/-- `_Graph_ResizeMatrix` depends on the graph only through
`node_count`. -/
def clipTo (nc : Nat) (m : GMatrix) : GMatrix :=
  if m.nrows ≠ nc then m.resize nc nc else m

lemma resizeMatrix_eq_clipTo (g : Graph) (m : GMatrix) :
    _Graph_ResizeMatrix g m = clipTo g.node_count m := rfl

lemma clipTo_entry_lt (nc : Nat) (m : GMatrix) (i j : Nat) (hi : i < nc) (hj : j < nc) :
    (clipTo nc m).entry i j = m.entry i j := by
  unfold clipTo
  by_cases h : m.nrows ≠ nc
  · rw [if_pos h]
    show (if i < nc ∧ j < nc then m.entry i j else false) = m.entry i j
    rw [if_pos ⟨hi, hj⟩]
  · rw [if_neg h]

lemma clipTo_entry_eq_of_conf (nc : Nat) (m : GMatrix)
    (hconf : ∀ i j, m.entry i j = true → i < nc ∧ j < nc) (i j : Nat) :
    (clipTo nc m).entry i j = m.entry i j := by
  by_cases hij : i < nc ∧ j < nc
  · exact clipTo_entry_lt nc m i j hij.1 hij.2
  · unfold clipTo
    by_cases h : m.nrows ≠ nc
    · rw [if_pos h]
      show (if i < nc ∧ j < nc then m.entry i j else false) = m.entry i j
      rw [if_neg hij]
      cases he : m.entry i j
      · rfl
      · exact absurd (hconf i j he) hij
    · rw [if_neg h]

lemma clipTo_conf (nc : Nat) (m : GMatrix)
    (hconf : ∀ i j, m.entry i j = true → i < nc ∧ j < nc) :
    ∀ i j, (clipTo nc m).entry i j = true → i < nc ∧ j < nc := by
  intro i j he
  rw [clipTo_entry_eq_of_conf nc m hconf] at he
  exact hconf i j he

/-- The full entry account of the row/column migration, inside the
square `[0, n)²` (with the donor row inside it and distinct from the
hole): column `h` receives column `s`, row `h` receives row `s`, the
`(h, h)` cell receives the donor diagonal, and everything else is
untouched. -/
lemma migrateRowCol_entry_spec (m : GMatrix) (n s h i j : Nat)
    (hi : i < n) (hj : j < n) (hsn : s < n) (hsh : s ≠ h) :
    (m.migrateRowCol n s h).entry i j =
      if j = h then (if i = h then m.entry s s else m.entry i s)
      else if i = h then m.entry s j else m.entry i j := by
  unfold GMatrix.migrateRowCol
  by_cases hjh : j = h
  · subst hjh
    by_cases hih : i = j
    · subst hih
      simp [hi, hsn, hsh]
    · simp [hih, hi, hj, hsn, hsh]
  · by_cases hih : i = h
    · subst hih
      simp [hjh, hi, hj, hsn, hsh]
    · simp [hjh, hih]

/-- Outside `[0, n)²` the migration writes nothing. -/
lemma migrateRowCol_entry_out (m : GMatrix) (n s h i j : Nat)
    (hout : n ≤ i ∨ n ≤ j) (hh : h < n) :
    (m.migrateRowCol n s h).entry i j = m.entry i j := by
  unfold GMatrix.migrateRowCol
  rcases hout with hout | hout
  · have hin : ¬ i < n := by omega
    have hih : ¬ i = h := by omega
    simp [hin, hih]
  · have hjn : ¬ j < n := by omega
    have hjh : ¬ j = h := by omega
    simp [hjn, hjh]

/-- The per-label-matrix transformation of `_replace_deleted_node`'s
reconciliation loop: the accessor clip, then the has-label case
table. -/
def labelStepM (nc s h : Nat) (m0 : GMatrix) : GMatrix :=
  let m := clipTo nc m0
  if m.entry h h && !(m.entry s s) then m.clearColumn nc h
  else if !(m.entry h h) && m.entry s s then m.setElement h h
  else m

/-- The reconciliation loop touches only the label matrices, each
exactly once with `labelStepM`. -/
lemma labelLoop_spec (s h : Nat) (g : Graph) :
    ∀ n, n ≤ g.labels.length →
      ((List.range n).foldl (fun g k =>
        let g := g.resizeLab k
        let m := labD g k
        let src_has_label := m.entry s s
        let dest_has_label := m.entry h h
        if dest_has_label && !src_has_label then
          { g with labels := g.labels.set k (m.clearColumn (Graph_NodeCount g) h) }
        else if !dest_has_label && src_has_label then
          { g with labels := g.labels.set k (m.setElement h h) }
        else g) g).node_count = g.node_count ∧
      ((List.range n).foldl (fun g k =>
        let g := g.resizeLab k
        let m := labD g k
        let src_has_label := m.entry s s
        let dest_has_label := m.entry h h
        if dest_has_label && !src_has_label then
          { g with labels := g.labels.set k (m.clearColumn (Graph_NodeCount g) h) }
        else if !dest_has_label && src_has_label then
          { g with labels := g.labels.set k (m.setElement h h) }
        else g) g).node_cap = g.node_cap ∧
      ((List.range n).foldl (fun g k =>
        let g := g.resizeLab k
        let m := labD g k
        let src_has_label := m.entry s s
        let dest_has_label := m.entry h h
        if dest_has_label && !src_has_label then
          { g with labels := g.labels.set k (m.clearColumn (Graph_NodeCount g) h) }
        else if !dest_has_label && src_has_label then
          { g with labels := g.labels.set k (m.setElement h h) }
        else g) g).block_count = g.block_count ∧
      ((List.range n).foldl (fun g k =>
        let g := g.resizeLab k
        let m := labD g k
        let src_has_label := m.entry s s
        let dest_has_label := m.entry h h
        if dest_has_label && !src_has_label then
          { g with labels := g.labels.set k (m.clearColumn (Graph_NodeCount g) h) }
        else if !dest_has_label && src_has_label then
          { g with labels := g.labels.set k (m.setElement h h) }
        else g) g).nodes = g.nodes ∧
      ((List.range n).foldl (fun g k =>
        let g := g.resizeLab k
        let m := labD g k
        let src_has_label := m.entry s s
        let dest_has_label := m.entry h h
        if dest_has_label && !src_has_label then
          { g with labels := g.labels.set k (m.clearColumn (Graph_NodeCount g) h) }
        else if !dest_has_label && src_has_label then
          { g with labels := g.labels.set k (m.setElement h h) }
        else g) g).adjacency_matrix = g.adjacency_matrix ∧
      ((List.range n).foldl (fun g k =>
        let g := g.resizeLab k
        let m := labD g k
        let src_has_label := m.entry s s
        let dest_has_label := m.entry h h
        if dest_has_label && !src_has_label then
          { g with labels := g.labels.set k (m.clearColumn (Graph_NodeCount g) h) }
        else if !dest_has_label && src_has_label then
          { g with labels := g.labels.set k (m.setElement h h) }
        else g) g).relations = g.relations ∧
      ((List.range n).foldl (fun g k =>
        let g := g.resizeLab k
        let m := labD g k
        let src_has_label := m.entry s s
        let dest_has_label := m.entry h h
        if dest_has_label && !src_has_label then
          { g with labels := g.labels.set k (m.clearColumn (Graph_NodeCount g) h) }
        else if !dest_has_label && src_has_label then
          { g with labels := g.labels.set k (m.setElement h h) }
        else g) g).labels.length = g.labels.length ∧
      ∀ k, labD ((List.range n).foldl (fun g k =>
        let g := g.resizeLab k
        let m := labD g k
        let src_has_label := m.entry s s
        let dest_has_label := m.entry h h
        if dest_has_label && !src_has_label then
          { g with labels := g.labels.set k (m.clearColumn (Graph_NodeCount g) h) }
        else if !dest_has_label && src_has_label then
          { g with labels := g.labels.set k (m.setElement h h) }
        else g) g) k =
        if k < n then labelStepM g.node_count s h (labD g k) else labD g k := by
  intro n
  induction n with
  | zero =>
    intro _
    refine ⟨rfl, rfl, rfl, rfl, rfl, rfl, rfl, ?_⟩
    intro k
    simp
  | succ n ihn =>
    intro hn
    obtain ⟨i1, i2, i3, i4, i5, i6, i7, i8⟩ := ihn (by omega)
    rw [List.range_succ, List.foldl_append]
    simp only [List.foldl_cons, List.foldl_nil]
    set gmid := (List.range n).foldl (fun g k =>
        let g := g.resizeLab k
        let m := labD g k
        let src_has_label := m.entry s s
        let dest_has_label := m.entry h h
        if dest_has_label && !src_has_label then
          { g with labels := g.labels.set k (m.clearColumn (Graph_NodeCount g) h) }
        else if !dest_has_label && src_has_label then
          { g with labels := g.labels.set k (m.setElement h h) }
        else g) g with hgmid
    have hnlen : n < gmid.labels.length := by omega
    have hm : labD (gmid.resizeLab n) n = clipTo g.node_count (labD g n) := by
      rw [labD_resizeLab, if_pos ⟨rfl, hnlen⟩, resizeMatrix_eq_clipTo, i1]
      have : labD gmid n = labD g n := by
        rw [i8 n]
        simp
      rw [this]
    have hcnt : Graph_NodeCount (gmid.resizeLab n) = g.node_count := by
      show (gmid.resizeLab n).node_count = g.node_count
      rw [resizeLab_node_count, i1]
    rw [hm, hcnt]
    by_cases hc1 : ((clipTo g.node_count (labD g n)).entry h h &&
        !(clipTo g.node_count (labD g n)).entry s s) = true
    · rw [if_pos hc1]
      refine ⟨i1, i2, i3, i4, i5, i6, ?_, ?_⟩
      · show ((gmid.resizeLab n).labels.set n _).length = g.labels.length
        rw [List.length_set, resizeLab_length, i7]
      · intro k
        show labD { gmid.resizeLab n with labels := ((gmid.resizeLab n).labels.set n
          ((clipTo g.node_count (labD g n)).clearColumn g.node_count h)) } k = _
        unfold labD
        show ((gmid.resizeLab n).labels.set n _).getD k default = _
        rw [getD_set]
        by_cases hk : n = k
        · subst hk
          rw [if_pos ⟨rfl, by rw [resizeLab_length]; omega⟩]
          rw [if_pos (by omega)]
          unfold labelStepM
          simp only []
          exact (if_pos hc1).symm
        · rw [if_neg (by intro hcon; exact hk hcon.1)]
          show labD (gmid.resizeLab n) k = _
          rw [labD_resizeLab, if_neg (by intro hcon; exact hk hcon.1), i8 k]
          by_cases hkn : k < n
          · rw [if_pos hkn, if_pos (by omega)]
            rfl
          · rw [if_neg hkn, if_neg (by omega)]
            rfl
    · rw [if_neg hc1]
      by_cases hc2 : (!(clipTo g.node_count (labD g n)).entry h h &&
          (clipTo g.node_count (labD g n)).entry s s) = true
      · rw [if_pos hc2]
        refine ⟨i1, i2, i3, i4, i5, i6, ?_, ?_⟩
        · show ((gmid.resizeLab n).labels.set n _).length = g.labels.length
          rw [List.length_set, resizeLab_length, i7]
        · intro k
          show labD { gmid.resizeLab n with labels := ((gmid.resizeLab n).labels.set n
            ((clipTo g.node_count (labD g n)).setElement h h)) } k = _
          unfold labD
          show ((gmid.resizeLab n).labels.set n _).getD k default = _
          rw [getD_set]
          by_cases hk : n = k
          · subst hk
            rw [if_pos ⟨rfl, by rw [resizeLab_length]; omega⟩]
            rw [if_pos (by omega)]
            unfold labelStepM
            simp only []
            exact ((if_neg hc1).trans (if_pos hc2)).symm
          · rw [if_neg (by intro hcon; exact hk hcon.1)]
            show labD (gmid.resizeLab n) k = _
            rw [labD_resizeLab, if_neg (by intro hcon; exact hk hcon.1), i8 k]
            by_cases hkn : k < n
            · rw [if_pos hkn, if_pos (by omega)]
              rfl
            · rw [if_neg hkn, if_neg (by omega)]
              rfl
      · rw [if_neg hc2]
        refine ⟨i1, i2, i3, i4, i5, i6, ?_, ?_⟩
        · rw [resizeLab_length, i7]
        · intro k
          rw [labD_resizeLab]
          by_cases hk : n = k
          · subst hk
            rw [if_pos ⟨rfl, hnlen⟩, resizeMatrix_eq_clipTo, i1]
            have hg : labD gmid n = labD g n := by
              rw [i8 n]
              simp
            rw [hg, if_pos (by omega)]
            unfold labelStepM
            simp only []
            exact ((if_neg hc1).trans (if_neg hc2)).symm
          · rw [if_neg (by intro hcon; exact hk hcon.1), i8 k]
            by_cases hkn : k < n
            · rw [if_pos hkn, if_pos (by omega)]
            · rw [if_neg hkn, if_neg (by omega)]

/-- The per-relation step of `_Graph_MigrateRowCol` (an abbreviation of
its loop body, with the captured entry `node_count` as `n0`). -/
def migRelStep (n0 s h : Nat) (g : Graph) (k : Nat) : Graph :=
  let g := g.resizeRel k
  { g with relations := g.relations.set k ((relD g k).migrateRowCol n0 s h) }

lemma migrateRelLoop_spec (s h n0 : Nat) (g : Graph) :
    ∀ n, n ≤ g.relations.length →
      (((List.range n).foldl (migRelStep n0 s h) g).node_count = g.node_count ∧
       ((List.range n).foldl (migRelStep n0 s h) g).node_cap = g.node_cap ∧
       ((List.range n).foldl (migRelStep n0 s h) g).block_count = g.block_count ∧
       ((List.range n).foldl (migRelStep n0 s h) g).nodes = g.nodes ∧
       ((List.range n).foldl (migRelStep n0 s h) g).labels = g.labels ∧
       ((List.range n).foldl (migRelStep n0 s h) g).adjacency_matrix = g.adjacency_matrix ∧
       ((List.range n).foldl (migRelStep n0 s h) g).relations.length = g.relations.length) ∧
      ∀ k, relD ((List.range n).foldl (migRelStep n0 s h) g) k =
        if k < n then (clipTo g.node_count (relD g k)).migrateRowCol n0 s h else relD g k := by
  intro n
  induction n with
  | zero =>
    intro _
    refine ⟨⟨rfl, rfl, rfl, rfl, rfl, rfl, rfl⟩, ?_⟩
    intro k
    simp
  | succ n ihn =>
    intro hn
    obtain ⟨⟨i1, i2, i3, i4, i5, i6, i7⟩, i8⟩ := ihn (by omega)
    rw [List.range_succ, List.foldl_append]
    simp only [List.foldl_cons, List.foldl_nil]
    set gmid := (List.range n).foldl (migRelStep n0 s h) g with hgmid
    have hnlen : n < gmid.relations.length := by omega
    have hm : relD (gmid.resizeRel n) n = clipTo g.node_count (relD g n) := by
      rw [relD_resizeRel, if_pos ⟨rfl, hnlen⟩, resizeMatrix_eq_clipTo, i1]
      have hgn : relD gmid n = relD g n := by
        rw [i8 n]
        simp
      rw [hgn]
    have hstep : migRelStep n0 s h gmid n =
        { gmid.resizeRel n with relations := ((gmid.resizeRel n).relations.set n
          ((clipTo g.node_count (relD g n)).migrateRowCol n0 s h)) } := by
      unfold migRelStep
      simp only []
      rw [hm]
    rw [hstep]
    refine ⟨⟨i1, i2, i3, i4, i5, i6, ?_⟩, ?_⟩
    · show ((gmid.resizeRel n).relations.set n _).length = g.relations.length
      rw [List.length_set, resizeRel_length, i7]
    · intro k
      show ((gmid.resizeRel n).relations.set n _).getD k default = _
      rw [getD_set]
      by_cases hk : n = k
      · subst hk
        rw [if_pos ⟨rfl, by rw [resizeRel_length]; omega⟩, if_pos (by omega)]
      · rw [if_neg (by intro hcon; exact hk hcon.1)]
        show relD (gmid.resizeRel n) k = _
        rw [relD_resizeRel, if_neg (by intro hcon; exact hk hcon.1), i8 k]
        by_cases hkn : k < n
        · rw [if_pos hkn, if_pos (by omega)]
        · rw [if_neg hkn, if_neg (by omega)]

/-- What `_Graph_MigrateRowCol` does: the adjacency matrix and every
relation matrix get their accessor clip followed by the row/column
migration; nothing else changes. -/
lemma migrate_spec (g : Graph) (s h : Nat) :
    (_Graph_MigrateRowCol g s h).node_count = g.node_count ∧
    (_Graph_MigrateRowCol g s h).node_cap = g.node_cap ∧
    (_Graph_MigrateRowCol g s h).block_count = g.block_count ∧
    (_Graph_MigrateRowCol g s h).nodes = g.nodes ∧
    (_Graph_MigrateRowCol g s h).labels = g.labels ∧
    (_Graph_MigrateRowCol g s h).relations.length = g.relations.length ∧
    (_Graph_MigrateRowCol g s h).adjacency_matrix =
      (clipTo g.node_count g.adjacency_matrix).migrateRowCol g.node_count s h ∧
    ∀ k, relD (_Graph_MigrateRowCol g s h) k =
      if k < g.relations.length then
        (clipTo g.node_count (relD g k)).migrateRowCol g.node_count s h
      else relD g k := by
  have hunf : _Graph_MigrateRowCol g s h =
      (List.range (({ g.resizeAdj with adjacency_matrix :=
          ((g.resizeAdj).adjacency_matrix.migrateRowCol g.node_count s h) } : Graph)).relations.length).foldl
        (migRelStep g.node_count s h)
        ({ g.resizeAdj with adjacency_matrix :=
          ((g.resizeAdj).adjacency_matrix.migrateRowCol g.node_count s h) } : Graph) := rfl
  obtain ⟨⟨m1, m2, m3, m4, m5, m6, m7⟩, m8⟩ := migrateRelLoop_spec s h g.node_count
    ({ g.resizeAdj with adjacency_matrix :=
      ((g.resizeAdj).adjacency_matrix.migrateRowCol g.node_count s h) } : Graph)
    (({ g.resizeAdj with adjacency_matrix :=
      ((g.resizeAdj).adjacency_matrix.migrateRowCol g.node_count s h) } : Graph)).relations.length
    (le_refl _)
  rw [hunf]
  exact ⟨m1, m2, m3, m4, m5, m7, m6, fun k => m8 k⟩

lemma nodeBlockMigrate_spec (g : Graph) (s h : Nat) :
    (_Graph_NodeBlockMigrateNode g s h).node_count = g.node_count ∧
    (_Graph_NodeBlockMigrateNode g s h).node_cap = g.node_cap ∧
    (_Graph_NodeBlockMigrateNode g s h).block_count = g.block_count ∧
    (_Graph_NodeBlockMigrateNode g s h).adjacency_matrix = g.adjacency_matrix ∧
    (_Graph_NodeBlockMigrateNode g s h).relations = g.relations ∧
    (_Graph_NodeBlockMigrateNode g s h).labels = g.labels ∧
    ∀ k, (_Graph_NodeBlockMigrateNode g s h).nodes k =
      if k = s then { g.nodes s with id := h }
      else if k = h then { g.nodes s with id := h } else g.nodes k :=
  ⟨rfl, rfl, rfl, rfl, rfl, rfl, fun k => rfl⟩

/-- Where a surviving id sits after the compaction described by `ps`:
donors are sent to their holes, everything else stays put. -/
def relocTarget (ps : List (Nat × Nat)) (x : Nat) : Nat :=
  match ps.find? (fun p => p.1 == x) with
  | some p => p.2
  | none => x

lemma relocTarget_not_donor (ps : List (Nat × Nat)) (x : Nat)
    (hx : x ∉ ps.map Prod.fst) : relocTarget ps x = x := by
  unfold relocTarget
  have hnone : ps.find? (fun p => p.1 == x) = none := by
    rw [List.find?_eq_none]
    intro p hp
    simp only [beq_iff_eq]
    intro he
    exact hx (List.mem_map.mpr ⟨p, hp, he⟩)
  rw [hnone]

lemma relocTarget_cases (ps : List (Nat × Nat)) (x : Nat) :
    relocTarget ps x = x ∨ relocTarget ps x ∈ ps.map Prod.snd := by
  unfold relocTarget
  cases hf : ps.find? (fun p => p.1 == x) with
  | none => exact Or.inl rfl
  | some p => exact Or.inr (List.mem_map.mpr ⟨p, List.mem_of_find?_eq_some hf, rfl⟩)

lemma find?_cons_pos {β : Type} (p : β → Bool) (a : β) (l : List β) (h : p a = true) :
    (a :: l).find? p = some a := by
  rw [List.find?_cons, h]

lemma find?_cons_neg {β : Type} (p : β → Bool) (a : β) (l : List β) (h : p a = false) :
    (a :: l).find? p = l.find? p := by
  rw [List.find?_cons, h]

lemma relocTarget_append_donor : ∀ (pre : List (Nat × Nat)) (s h : Nat),
    s ∉ pre.map Prod.fst → relocTarget (pre ++ [(s, h)]) s = h := by
  intro pre
  induction pre with
  | nil =>
    intro s h _
    unfold relocTarget
    rw [List.nil_append, find?_cons_pos (fun q => q.1 == s) (s, h) [] (by simp)]
  | cons a t ih =>
    intro s h hs
    have ha : (a.1 == s) = false := by
      rw [beq_eq_false_iff_ne]
      intro he
      exact hs (List.mem_map.mpr ⟨a, List.mem_cons_self _ _, he⟩)
    unfold relocTarget
    rw [List.cons_append, find?_cons_neg (fun q => q.1 == s) a (t ++ [(s, h)]) ha]
    exact ih s h (fun hmem => hs (by rw [List.map_cons]; exact List.mem_cons_of_mem _ hmem))

lemma relocTarget_append_other : ∀ (pre : List (Nat × Nat)) (s h x : Nat), x ≠ s →
    relocTarget (pre ++ [(s, h)]) x = relocTarget pre x := by
  intro pre
  induction pre with
  | nil =>
    intro s h x hx
    unfold relocTarget
    rw [List.nil_append, find?_cons_neg (fun q => q.1 == x) (s, h) []
      (by rw [beq_eq_false_iff_ne]; exact fun he => hx he.symm)]
  | cons a t ih =>
    intro s h x hx
    unfold relocTarget
    rw [List.cons_append]
    cases ha : (a.1 == x)
    · rw [find?_cons_neg (fun q => q.1 == x) a (t ++ [(s, h)]) ha,
        find?_cons_neg (fun q => q.1 == x) a t ha]
      exact ih s h x hx
    · rw [find?_cons_pos (fun q => q.1 == x) a (t ++ [(s, h)]) ha,
        find?_cons_pos (fun q => q.1 == x) a t ha]

lemma relocTarget_donor : ∀ (ps : List (Nat × Nat)) (p : Nat × Nat),
    p ∈ ps → (ps.map Prod.fst).Nodup → relocTarget ps p.1 = p.2 := by
  intro ps
  induction ps with
  | nil =>
    intro p hp _
    exact absurd hp (by simp)
  | cons a t ih =>
    intro p hp hnd
    simp only [List.map_cons] at hnd
    rcases List.mem_cons.mp hp with h | h
    · subst h
      unfold relocTarget
      rw [find?_cons_pos (fun q => q.1 == p.1) p t (by simp)]
    · have ha : (a.1 == p.1) = false := by
        rw [beq_eq_false_iff_ne]
        intro he
        have hmem : a.1 ∈ t.map Prod.fst := by
          rw [he]
          exact List.mem_map.mpr ⟨p, h, rfl⟩
        exact (List.nodup_cons.mp hnd).1 hmem
      unfold relocTarget
      rw [find?_cons_neg (fun q => q.1 == p.1) a t ha]
      exact ih p h (List.nodup_cons.mp hnd).2

lemma clipTo_dims (nc : Nat) (m : GMatrix) (hsq : m.nrows = m.ncols) :
    (clipTo nc m).nrows = nc ∧ (clipTo nc m).ncols = nc := by
  unfold clipTo
  by_cases h : m.nrows ≠ nc
  · rw [if_pos h]
    exact ⟨rfl, rfl⟩
  · rw [if_neg h]
    push_neg at h
    exact ⟨h, by rw [← hsq]; exact h⟩

lemma labelStepM_entry_off (nc s h : Nat) (m0 : GMatrix) (i j : Nat)
    (hi : i < nc) (hj : j < nc) (hjh : j ≠ h) (hih : i ≠ h) :
    (labelStepM nc s h m0).entry i j = m0.entry i j := by
  unfold labelStepM
  simp only []
  have hbase : (clipTo nc m0).entry i j = m0.entry i j := clipTo_entry_lt nc m0 i j hi hj
  by_cases hc1 : ((clipTo nc m0).entry h h && !(clipTo nc m0).entry s s) = true
  · rw [if_pos hc1, GMatrix.clearColumn_entry,
      if_neg (by intro hcon; exact hjh hcon.1)]
    exact hbase
  · rw [if_neg hc1]
    by_cases hc2 : (!(clipTo nc m0).entry h h && (clipTo nc m0).entry s s) = true
    · rw [if_pos hc2, GMatrix.setElement_entry,
        if_neg (by intro hcon; exact hih hcon.2.1)]
      exact hbase
    · rw [if_neg hc2]
      exact hbase

lemma labelStepM_entry_dest (nc s h : Nat) (m0 : GMatrix)
    (hsq : m0.nrows = m0.ncols) (hh : h < nc) (hs : s < nc) :
    (labelStepM nc s h m0).entry h h = m0.entry s s := by
  unfold labelStepM
  simp only []
  have hdh : (clipTo nc m0).entry h h = m0.entry h h := clipTo_entry_lt nc m0 h h hh hh
  have hds : (clipTo nc m0).entry s s = m0.entry s s := clipTo_entry_lt nc m0 s s hs hs
  obtain ⟨hr, hc⟩ := clipTo_dims nc m0 hsq
  cases heh : m0.entry h h <;> cases hes : m0.entry s s
  · rw [if_neg (by rw [hdh, heh]; simp), if_neg (by rw [hdh, hds, heh, hes]; simp)]
    rw [hdh, heh]
  · rw [if_neg (by rw [hdh, heh]; simp), if_pos (by rw [hdh, hds, heh, hes]; simp)]
    rw [GMatrix.setElement_entry_inb _ _ _ _ _ (by omega) (by omega), if_pos ⟨rfl, rfl⟩]
  · rw [if_pos (by rw [hdh, hds, heh, hes]; simp)]
    rw [GMatrix.clearColumn_entry, if_pos ⟨rfl, hh⟩]
  · rw [if_neg (by rw [hdh, hds, heh, hes]; simp), if_neg (by rw [hdh, hds, heh, hes]; simp)]
    rw [hdh, heh]

/-- The running description of the graph part-way through the
compaction, relative to the original graph `g0` and the prefix `pre` of
relocation pairs already performed: the bookkeeping is unchanged, and
reading any matrix or node slot through the relocation map reproduces
the original data of every survivor. -/
structure MState (D : List Nat) (g0 : Graph) (pre : List (Nat × Nat)) (g : Graph) : Prop where
  count : g.node_count = g0.node_count
  cap : g.node_cap = g0.node_cap
  blocks : g.block_count = g0.block_count
  relLen : g.relations.length = g0.relations.length
  labLen : g.labels.length = g0.labels.length
  adj : ∀ x y, x < g0.node_count → x ∉ D → y < g0.node_count → y ∉ D →
    g.adjacency_matrix.entry (relocTarget pre x) (relocTarget pre y) =
      g0.adjacency_matrix.entry x y
  rel : ∀ k, k < g0.relations.length → ∀ x y, x < g0.node_count → x ∉ D →
    y < g0.node_count → y ∉ D →
    (relD g k).entry (relocTarget pre x) (relocTarget pre y) = (relD g0 k).entry x y
  lab : ∀ k, k < g0.labels.length → ∀ x, x < g0.node_count → x ∉ D →
    (labD g k).entry (relocTarget pre x) (relocTarget pre x) = (labD g0 k).entry x x
  slot : ∀ x, x < g0.node_count → x ∉ D →
    (g.nodes (relocTarget pre x)).payload = (g0.nodes x).payload

/-- Abstract form of the per-matrix relocation argument: if a matrix
read through the current relocation map reproduces an original matrix
on survivors, then after the clip-and-migrate of one more `(s, h)`
pair, reading through the extended map still does. -/
lemma migrate_reloc_entry (D : List Nat) (pre : List (Nat × Nat)) (nc s h : Nat)
    (M M0 : GMatrix)
    (hsN : s < nc) (hhN : h < nc) (hsh : s ≠ h)
    (hrs : relocTarget pre s = s)
    (hne_h : ∀ x, x ∉ D → relocTarget pre x ≠ h)
    (hlt_N : ∀ x, x < nc → relocTarget pre x < nc)
    (hrho_s : relocTarget (pre ++ [(s, h)]) s = h)
    (hrho_o : ∀ x, x ≠ s → relocTarget (pre ++ [(s, h)]) x = relocTarget pre x)
    (hMm : ∀ x y, x < nc → x ∉ D → y < nc → y ∉ D →
      M.entry (relocTarget pre x) (relocTarget pre y) = M0.entry x y)
    (hsD : s ∉ D) :
    ∀ x y, x < nc → x ∉ D → y < nc → y ∉ D →
      ((clipTo nc M).migrateRowCol nc s h).entry
        (relocTarget (pre ++ [(s, h)]) x) (relocTarget (pre ++ [(s, h)]) y) =
        M0.entry x y := by
  intro x y hx hxD hy hyD
  by_cases hxs : x = s <;> by_cases hys : y = s
  · rw [hxs, hys, hrho_s]
    rw [migrateRowCol_entry_spec _ _ _ _ _ _ hhN hhN hsN hsh]
    rw [if_pos rfl, if_pos rfl]
    rw [clipTo_entry_lt _ _ _ _ hsN hsN]
    have hb := hMm s s hsN hsD hsN hsD
    rw [hrs] at hb
    exact hb
  · rw [hxs, hrho_s, hrho_o y hys]
    have hyh := hne_h y hyD
    have hylt := hlt_N y hy
    rw [migrateRowCol_entry_spec _ _ _ _ _ _ hhN hylt hsN hsh]
    rw [if_neg hyh, if_pos rfl]
    rw [clipTo_entry_lt _ _ _ _ hsN hylt]
    have hb := hMm s y hsN hsD hy hyD
    rw [hrs] at hb
    exact hb
  · rw [hys, hrho_s, hrho_o x hxs]
    have hxh := hne_h x hxD
    have hxlt := hlt_N x hx
    rw [migrateRowCol_entry_spec _ _ _ _ _ _ hxlt hhN hsN hsh]
    rw [if_pos rfl, if_neg hxh]
    rw [clipTo_entry_lt _ _ _ _ hxlt hsN]
    have hb := hMm x s hx hxD hsN hsD
    rw [hrs] at hb
    exact hb
  · rw [hrho_o x hxs, hrho_o y hys]
    have hxh := hne_h x hxD
    have hyh := hne_h y hyD
    have hxlt := hlt_N x hx
    have hylt := hlt_N y hy
    rw [migrateRowCol_entry_spec _ _ _ _ _ _ hxlt hylt hsN hsh]
    rw [if_neg hyh, if_neg hxh]
    rw [clipTo_entry_lt _ _ _ _ hxlt hylt]
    exact hMm x y hx hxD hy hyD

/-- One relocation step extends the running description by its pair. -/
lemma replace_MState (D : List Nat) (g0 : Graph) (pre : List (Nat × Nat)) (g : Graph)
    (s h : Nat)
    (hsN : s < g0.node_count) (hsD : s ∉ D) (hhD : h ∈ D) (hhN : h < g0.node_count)
    (hsnew : s ∉ pre.map Prod.fst) (hhnew : h ∉ pre.map Prod.snd)
    (hpre : ∀ p ∈ pre, p.1 ∉ D ∧ p.2 ∈ D ∧ p.2 < g0.node_count)
    (hsql : sqLabs g)
    (hM : MState D g0 pre g) :
    MState D g0 (pre ++ [(s, h)]) (_replace_deleted_node g s h) := by
  have hsh : s ≠ h := fun he => hsD (he ▸ hhD)
  have hrs : relocTarget pre s = s := relocTarget_not_donor pre s hsnew
  have hne_h : ∀ x, x ∉ D → relocTarget pre x ≠ h := by
    intro x hxD
    rcases relocTarget_cases pre x with hc | hc
    · rw [hc]
      intro he
      exact hxD (he ▸ hhD)
    · intro he
      exact hhnew (he ▸ hc)
  have hlt_N : ∀ x, x < g0.node_count → relocTarget pre x < g0.node_count := by
    intro x hx
    rcases relocTarget_cases pre x with hc | hc
    · rw [hc]
      exact hx
    · rcases List.mem_map.mp hc with ⟨p, hp, he⟩
      rw [← he]
      exact (hpre p hp).2.2
  have hne_s : ∀ x, x ∉ D → x ≠ s → relocTarget pre x ≠ s := by
    intro x hxD hxs
    rcases relocTarget_cases pre x with hc | hc
    · rw [hc]
      exact hxs
    · intro he
      rcases List.mem_map.mp hc with ⟨p, hp, hpe⟩
      refine hsD ?_
      rw [← he, ← hpe]
      exact (hpre p hp).2.1
  have hrho_s : relocTarget (pre ++ [(s, h)]) s = h := relocTarget_append_donor pre s h hsnew
  have hrho_o : ∀ x, x ≠ s → relocTarget (pre ++ [(s, h)]) x = relocTarget pre x :=
    fun x hx => relocTarget_append_other pre s h x hx
  obtain ⟨l1, l2, l3, l4, l5, l6, l7, l8⟩ := labelLoop_spec s h g g.labels.length (le_refl _)
  set gL := (List.range g.labels.length).foldl (fun g k =>
      let g := g.resizeLab k
      let m := labD g k
      let src_has_label := m.entry s s
      let dest_has_label := m.entry h h
      if dest_has_label && !src_has_label then
        { g with labels := g.labels.set k (m.clearColumn (Graph_NodeCount g) h) }
      else if !dest_has_label && src_has_label then
        { g with labels := g.labels.set k (m.setElement h h) }
      else g) g with hgL
  obtain ⟨m1, m2, m3, m4, m5, m6, m7, m8⟩ := migrate_spec gL s h
  obtain ⟨n1, n2, n3, n4, n5, n6, n7⟩ := nodeBlockMigrate_spec (_Graph_MigrateRowCol gL s h) s h
  have hrepl : _replace_deleted_node g s h =
      _Graph_NodeBlockMigrateNode (_Graph_MigrateRowCol gL s h) s h := rfl
  have hcg : gL.node_count = g0.node_count := l1.trans hM.count
  rw [hrepl]
  refine ⟨?_, ?_, ?_, ?_, ?_, ?_, ?_, ?_, ?_⟩
  · rw [n1, m1, l1, hM.count]
  · rw [n2, m2, l2, hM.cap]
  · rw [n3, m3, l3, hM.blocks]
  · show (_Graph_NodeBlockMigrateNode (_Graph_MigrateRowCol gL s h) s h).relations.length = _
    rw [n5, m6, l6, hM.relLen]
  · show (_Graph_NodeBlockMigrateNode (_Graph_MigrateRowCol gL s h) s h).labels.length = _
    rw [n6, m5, l7, hM.labLen]
  · intro x y hx hxD hy hyD
    have hadj : (_Graph_NodeBlockMigrateNode (_Graph_MigrateRowCol gL s h) s h).adjacency_matrix =
        (clipTo g0.node_count g.adjacency_matrix).migrateRowCol g0.node_count s h := by
      rw [n4, m7, l5, hcg]
    rw [hadj]
    exact migrate_reloc_entry D pre g0.node_count s h g.adjacency_matrix
      g0.adjacency_matrix hsN hhN hsh hrs hne_h hlt_N hrho_s hrho_o
      (fun x y hx hxD hy hyD => hM.adj x y hx hxD hy hyD) hsD x y hx hxD hy hyD
  · intro k hk x y hx hxD hy hyD
    have hklen : k < gL.relations.length := by
      rw [l6, hM.relLen]
      exact hk
    have hrelk : relD (_Graph_NodeBlockMigrateNode (_Graph_MigrateRowCol gL s h) s h) k =
        (clipTo g0.node_count (relD g k)).migrateRowCol g0.node_count s h := by
      unfold relD
      rw [n5]
      show relD (_Graph_MigrateRowCol gL s h) k = _
      rw [m8 k, if_pos hklen, hcg]
      have hgk : relD gL k = relD g k := by
        unfold relD
        rw [l6]
      rw [hgk]
      rfl
    rw [hrelk]
    exact migrate_reloc_entry D pre g0.node_count s h (relD g k) (relD g0 k)
      hsN hhN hsh hrs hne_h hlt_N hrho_s hrho_o
      (fun x y hx hxD hy hyD => hM.rel k hk x y hx hxD hy hyD) hsD x y hx hxD hy hyD
  · intro k hk x hx hxD
    have hklen : k < g.labels.length := by
      rw [hM.labLen]
      exact hk
    have hlab3 : labD (_Graph_NodeBlockMigrateNode (_Graph_MigrateRowCol gL s h) s h) k =
        labelStepM g.node_count s h (labD g k) := by
      unfold labD
      rw [n6, m5]
      show labD gL k = _
      rw [l8 k, if_pos hklen]
      rfl
    rw [hlab3]
    have hnc : g.node_count = g0.node_count := hM.count
    by_cases hxs : x = s
    · rw [hxs, hrho_s]
      rw [labelStepM_entry_dest _ _ _ _ (hsql k) (by omega) (by omega)]
      have hb := hM.lab k hk s hsN hsD
      rw [hrs] at hb
      exact hb
    · rw [hrho_o x hxs]
      have hxh := hne_h x hxD
      have hxlt := hlt_N x hx
      rw [labelStepM_entry_off _ _ _ _ _ _ (by omega) (by omega) hxh hxh]
      exact hM.lab k hk x hx hxD
  · intro x hx hxD
    rw [n7]
    by_cases hxs : x = s
    · rw [hxs, hrho_s]
      rw [if_neg (Ne.symm hsh), if_pos rfl]
      show ((_Graph_MigrateRowCol gL s h).nodes s).payload = _
      rw [m4, l4]
      have hb := hM.slot s hsN hsD
      rw [hrs] at hb
      exact hb
    · rw [hrho_o x hxs]
      have hxh := hne_h x hxD
      have hxs' := hne_s x hxD hxs
      rw [if_neg hxs', if_neg hxh]
      rw [m4, l4]
      exact hM.slot x hx hxD

/-- Folding the relocation pairs extends the running description pair
by pair (and keeps the structural loop invariant). -/
lemma applyPairs_master (D : List Nat) (g0 : Graph) :
    ∀ (ps pre : List (Nat × Nat)) (g : Graph),
      (∀ p ∈ pre ++ ps, p.1 < g0.node_count ∧ p.1 ∉ D ∧ p.2 ∈ D ∧ p.2 < g0.node_count) →
      ((pre ++ ps).map Prod.fst).Nodup →
      ((pre ++ ps).map Prod.snd).Nodup →
      C3Loop g0.node_count g →
      MState D g0 pre g →
      C3Loop g0.node_count (applyPairs g ps) ∧ MState D g0 (pre ++ ps) (applyPairs g ps) := by
  intro ps
  induction ps with
  | nil =>
    intro pre g _ _ _ hC3 hM
    rw [List.append_nil]
    exact ⟨hC3, hM⟩
  | cons q ps ih =>
    intro pre g hgood hnf hns hC3 hM
    obtain ⟨s, h⟩ := q
    have hq := hgood (s, h) (by simp)
    have hsnew : s ∉ pre.map Prod.fst := by
      rw [List.map_append] at hnf
      have hdisj := (List.nodup_append.mp hnf).2.2
      intro hmem
      exact hdisj hmem (by simp)
    have hhnew : h ∉ pre.map Prod.snd := by
      rw [List.map_append] at hns
      have hdisj := (List.nodup_append.mp hns).2.2
      intro hmem
      exact hdisj hmem (by simp)
    have hpre : ∀ p ∈ pre, p.1 ∉ D ∧ p.2 ∈ D ∧ p.2 < g0.node_count := by
      intro p hp
      have hg := hgood p (List.mem_append_left _ hp)
      exact ⟨hg.2.1, hg.2.2.1, hg.2.2.2⟩
    have hstep := replace_MState D g0 pre g s h hq.1 hq.2.1 hq.2.2.1 hq.2.2.2
      hsnew hhnew hpre hC3.2.2.2.2 hM
    have hC3' := replace_C3Loop g0.node_count g s h hC3
    have happ : applyPairs g ((s, h) :: ps) = applyPairs (_replace_deleted_node g s h) ps := rfl
    rw [happ]
    have hassoc : pre ++ (s, h) :: ps = (pre ++ [(s, h)]) ++ ps := by simp
    rw [hassoc] at hgood hnf hns ⊢
    exact ih (pre ++ [(s, h)]) (_replace_deleted_node g s h) hgood hnf hns hC3' hstep

/-- Every relocation pair has a surviving donor in `[post, N)` and a
deleted hole below `post`. -/
lemma relocPairs_mem (D : List Nat) (N : Nat) (hN : 1 ≤ N) :
    ∀ p ∈ relocPairs D N, (N - D.length ≤ p.1 ∧ p.1 < N ∧ p.1 ∉ D) ∧
      (p.2 ∈ D ∧ p.2 < N - D.length) := by
  intro p hp
  rcases List.of_mem_zip hp with ⟨ha, hb⟩
  rw [List.mem_reverse, mem_survUpTo] at ha
  rw [mem_holesFrom, List.drop_zero] at hb
  exact ⟨⟨ha.2.1, by omega, ha.2.2⟩, hb.1, hb.2⟩

lemma relocPairs_nodup (D : List Nat) (N : Nat) (hs : D.Pairwise (· < ·))
    (helts : ∀ x ∈ D, x < N) (hN : 1 ≤ N) :
    ((relocPairs D N).map Prod.fst).Nodup ∧ ((relocPairs D N).map Prod.snd).Nodup := by
  have hlen : (holesFrom D (N - D.length) 0).length =
      (survUpTo D (N - D.length) (N - 1)).length := holes_length_eq D N hs helts hN
  have hrevlen : ((survUpTo D (N - D.length) (N - 1)).reverse).length =
      (survUpTo D (N - D.length) (N - 1)).length := List.length_reverse _
  constructor
  · rw [relocPairs, List.map_fst_zip _ _ (by omega)]
    exact List.nodup_reverse.mpr (List.Nodup.filter _ (List.nodup_range _))
  · rw [relocPairs, List.map_snd_zip _ _ (by omega)]
    unfold holesFrom
    rw [List.drop_zero]
    exact List.Nodup.filter _ (hs.imp Nat.ne_of_lt)

/-- Master description of `Graph_DeleteNodes` on a well-formed state:
the loop output reads every survivor's data through the relocation map,
and the returned graph is the loop output with the new count committed
and the adjacency matrix force-resized. -/
lemma deleteNodes_master (g : Graph) (D : List Nat) (hWF : WF g)
    (hs : D.Pairwise (· < ·)) (helts : ∀ x ∈ D, x < g.node_count) (hne : D ≠ []) :
    MState D g (relocPairs D g.node_count) (applyPairs g (relocPairs D g.node_count)) ∧
    C3Loop g.node_count (applyPairs g (relocPairs D g.node_count)) ∧
    Graph_DeleteNodes g D =
      { applyPairs g (relocPairs D g.node_count) with
          node_count := g.node_count - D.length,
          adjacency_matrix := _Graph_ResizeMatrix
            { applyPairs g (relocPairs D g.node_count) with
                node_count := g.node_count - D.length }
            (applyPairs g (relocPairs D g.node_count)).adjacency_matrix } := by
  have hN1 : 1 ≤ g.node_count := by
    rcases List.exists_mem_of_ne_nil _ hne with ⟨x, hx⟩
    have := helts x hx
    omega
  have hmems := relocPairs_mem D g.node_count hN1
  obtain ⟨hnf, hns⟩ := relocPairs_nodup D g.node_count hs helts hN1
  have hM0 : MState D g [] g :=
    ⟨rfl, rfl, rfl, rfl, rfl,
     by intro x y _ _ _ _; rfl,
     by intro k _ x y _ _ _ _; rfl,
     by intro k _ x _ _; rfl,
     by intro x _ _; rfl⟩
  have hC30 : C3Loop g.node_count g := ⟨rfl, hWF.adj_sq, hWF.adj_ge, hWF.rel_sq, hWF.lab_sq⟩
  have hmaster := applyPairs_master D g (relocPairs D g.node_count) [] g
    (by
      intro p hp
      rw [List.nil_append] at hp
      have hq := hmems p hp
      exact ⟨hq.1.2.1, hq.1.2.2, hq.2.1, by omega⟩)
    (by rw [List.nil_append]; exact hnf)
    (by rw [List.nil_append]; exact hns)
    hC30 hM0
  rw [List.nil_append] at hmaster
  exact ⟨hmaster.2, hmaster.1, deleteNodes_eq_pairs g D hs helts hne⟩

/-- The relocation map sends every survivor below the post-delete
count. -/
lemma relocTarget_lt_post (D : List Nat) (N : Nat) (hs : D.Pairwise (· < ·))
    (helts : ∀ x ∈ D, x < N) (hN : 1 ≤ N) (x : Nat) (hx : x < N) (hxD : x ∉ D) :
    relocTarget (relocPairs D N) x < N - D.length := by
  unfold relocTarget
  cases hf : (relocPairs D N).find? (fun p => p.1 == x) with
  | none =>
    show x < N - D.length
    by_contra hge
    push_neg at hge
    have hxs : x ∈ (survUpTo D (N - D.length) (N - 1)).reverse := by
      rw [List.mem_reverse, mem_survUpTo]
      exact ⟨by omega, hge, hxD⟩
    have hlen := holes_length_eq D N hs helts hN
    have hxf : x ∈ (relocPairs D N).map Prod.fst := by
      rw [relocPairs, List.map_fst_zip _ _ (by rw [List.length_reverse]; omega)]
      exact hxs
    rcases List.mem_map.mp hxf with ⟨q, hq, hqe⟩
    have hnone := List.find?_eq_none.mp hf q hq
    exact hnone (by rw [hqe]; exact beq_self_eq_true x)
  | some p =>
    show p.2 < N - D.length
    exact (relocPairs_mem D N hN p (List.mem_of_find?_eq_some hf)).2.2

/-- C1 (amended): after `Graph_DeleteNodes g D` on a well-formed graph
with `D` strictly ascending over live ids, every relocated pair
`(donor, dest)` carries the donor's edges and labels to the
destination, with surviving edge endpoints renamed by the relocation
map: the destination's row and column against any surviving endpoint
equal the donor's original row and column against that endpoint (in
the adjacency matrix and every relation matrix, the donor's diagonal
landing on the destination's diagonal), and the destination's label
diagonal equals the donor's original one.  (As literally stated the
claim is false: edges to deleted endpoints vanish and surviving
endpoints are renamed, so the raw edge multisets differ — see the
counterexample.) -/
theorem delete_relocates_donor_data (g : Graph) (D : List Nat) (hWF : WF g)
    (hsort : D.Pairwise (· < ·)) (helts : ∀ x ∈ D, x < g.node_count) :
    ∀ p ∈ relocPairs D g.node_count, ∀ x, x < g.node_count → x ∉ D →
      ((Graph_DeleteNodes g D).adjacency_matrix.entry p.2
          (relocTarget (relocPairs D g.node_count) x) =
        g.adjacency_matrix.entry p.1 x) ∧
      ((Graph_DeleteNodes g D).adjacency_matrix.entry
          (relocTarget (relocPairs D g.node_count) x) p.2 =
        g.adjacency_matrix.entry x p.1) ∧
      (∀ k, k < g.relations.length →
        (relD (Graph_DeleteNodes g D) k).entry p.2
            (relocTarget (relocPairs D g.node_count) x) =
          (relD g k).entry p.1 x ∧
        (relD (Graph_DeleteNodes g D) k).entry
            (relocTarget (relocPairs D g.node_count) x) p.2 =
          (relD g k).entry x p.1) ∧
      (∀ k, k < g.labels.length →
        (labD (Graph_DeleteNodes g D) k).entry p.2 p.2 = (labD g k).entry p.1 p.1) := by
  intro p hp x hx hxD
  by_cases hne : D = []
  · subst hne
    rw [relocPairs] at hp
    simp [holesFrom] at hp
  · have hN1 : 1 ≤ g.node_count := by
      rcases List.exists_mem_of_ne_nil _ hne with ⟨z, hz⟩
      have := helts z hz
      omega
    obtain ⟨hMS, hC3, heq⟩ := deleteNodes_master g D hWF hsort helts hne
    obtain ⟨hnf, hns⟩ := relocPairs_nodup D g.node_count hsort helts hN1
    have hpm := relocPairs_mem D g.node_count hN1 p hp
    have hdon : relocTarget (relocPairs D g.node_count) p.1 = p.2 :=
      relocTarget_donor (relocPairs D g.node_count) p hp hnf
    have hxlt : relocTarget (relocPairs D g.node_count) x < g.node_count - D.length :=
      relocTarget_lt_post D g.node_count hsort helts hN1 x hx hxD
    have hp2lt : p.2 < g.node_count - D.length := hpm.2.2
    have hp1N : p.1 < g.node_count := hpm.1.2.1
    have hp1D : p.1 ∉ D := hpm.1.2.2
    have hadjF : ∀ i j, i < g.node_count - D.length → j < g.node_count - D.length →
        (Graph_DeleteNodes g D).adjacency_matrix.entry i j =
          (applyPairs g (relocPairs D g.node_count)).adjacency_matrix.entry i j := by
      intro i j hi hj
      rw [heq]
      exact _Graph_ResizeMatrix_entry_lt _ _ i j hi hj
    have hrelF : ∀ k, relD (Graph_DeleteNodes g D) k =
        relD (applyPairs g (relocPairs D g.node_count)) k := by
      intro k
      rw [heq]
      rfl
    have hlabF : ∀ k, labD (Graph_DeleteNodes g D) k =
        labD (applyPairs g (relocPairs D g.node_count)) k := by
      intro k
      rw [heq]
      rfl
    refine ⟨?_, ?_, ?_, ?_⟩
    · rw [hadjF _ _ hp2lt hxlt]
      have hb := hMS.adj p.1 x hp1N hp1D hx hxD
      rw [hdon] at hb
      exact hb
    · rw [hadjF _ _ hxlt hp2lt]
      have hb := hMS.adj x p.1 hx hxD hp1N hp1D
      rw [hdon] at hb
      exact hb
    · intro k hk
      constructor
      · rw [hrelF k]
        have hb := hMS.rel k hk p.1 x hp1N hp1D hx hxD
        rw [hdon] at hb
        exact hb
      · rw [hrelF k]
        have hb := hMS.rel k hk x p.1 hx hxD hp1N hp1D
        rw [hdon] at hb
        exact hb
    · intro k hk
      rw [hlabF k]
      have hb := hMS.lab k hk p.1 hp1N hp1D
      rw [hdon] at hb
      exact hb

/-- Witness: delete node 0 from the two-node graph `gW`; the donor
(node 1) lands on id 0 with its label and its (empty) self-loop
cell. -/
theorem delete_relocates_donor_data_witness :
    WF gW ∧
    (labD (Graph_DeleteNodes gW [0]) 0).entry 0 0 = (labD gW 0).entry 1 1 ∧
    (Graph_DeleteNodes gW [0]).adjacency_matrix.entry 0 0 = gW.adjacency_matrix.entry 1 1 := by
  have hmain := delete_relocates_donor_data gW [0] gW_wf (by decide) (by decide)
    (1, 0) (by decide) 1 (by decide) (by decide)
  exact ⟨gW_wf, hmain.2.2.2 0 (by decide), hmain.1⟩

/-- The incoming-edge id multiset at `v` (sources of edges into `v`),
as the original claim reads it off the adjacency matrix. -/
def inEdges (g : Graph) (v : Nat) : List Nat :=
  (List.range g.node_count).filter (fun x => g.adjacency_matrix.entry v x)

/-- Counterexample to C1 as stated: in `gW`, node 1 (the donor for
hole 0 when deleting `[0]`) originally has incoming edge multiset
`[0]`, but after `delete_nodes([0])` the destination id 0 has no
incoming edges at all — the edge from the deleted node 0 vanishes
rather than moving. -/
theorem delete_relocation_claim_cex :
    (1, 0) ∈ relocPairs [0] gW.node_count ∧
    ¬ inEdges (Graph_DeleteNodes gW [0]) 0 = inEdges gW 1 := by
  constructor
  · decide
  · decide

lemma getNode_eval (g : Graph) (id : Nat) (h1 : id < g.node_count)
    (h2 : id / NODEBLOCK_CAP < g.block_count) :
    Graph_GetNode g id = some ⟨id, (g.nodes id).payload⟩ := by
  unfold Graph_GetNode
  rw [if_pos h1, if_pos h2]

lemma getNode_isSome_iff (g : Graph) (hcap : g.node_cap = g.block_count * NODEBLOCK_CAP)
    (hcnt : g.node_count ≤ g.node_cap) :
    ∀ id, (Graph_GetNode g id).isSome ↔ id < g.node_count := by
  intro id
  unfold Graph_GetNode
  by_cases h1 : id < g.node_count
  · rw [if_pos h1]
    have hdiv : id / NODEBLOCK_CAP < g.block_count := by
      rw [Nat.div_lt_iff_lt_mul (show 0 < NODEBLOCK_CAP by decide)]
      have hcap16 : g.node_cap = g.block_count * 16384 := hcap
      show id < g.block_count * 16384
      omega
    rw [if_pos hdiv]
    simp [h1]
  · rw [if_neg h1]
    simp [h1]

/-- C2: `Graph_DeleteNodes` on a well-formed graph with a strictly
ascending list of `k` live ids sets `node_count` to `old − k`, leaves
`Graph_GetNode` defined exactly on `[0, old − k)`, and every id below
the whole deletion list keeps its slot: `get_node` returns the same
payload (with the id field rewritten to the id, as always), and every
label diagonal entry at that id is unchanged. -/
theorem delete_counts_and_frame (g : Graph) (D : List Nat) (hWF : WF g)
    (hsort : D.Pairwise (· < ·)) (helts : ∀ x ∈ D, x < g.node_count) :
    (Graph_DeleteNodes g D).node_count = g.node_count - D.length ∧
    (∀ id, (Graph_GetNode (Graph_DeleteNodes g D) id).isSome ↔
      id < g.node_count - D.length) ∧
    (∀ i, i < g.node_count → (∀ x ∈ D, i < x) →
      Graph_GetNode (Graph_DeleteNodes g D) i = some ⟨i, (g.nodes i).payload⟩ ∧
      Graph_GetNode g i = some ⟨i, (g.nodes i).payload⟩ ∧
      ∀ k, k < g.labels.length →
        (labD (Graph_DeleteNodes g D) k).entry i i = (labD g k).entry i i) := by
  have hCAPpos : 0 < NODEBLOCK_CAP := by decide
  by_cases hne : D = []
  · subst hne
    have h0 : Graph_DeleteNodes g [] = g := by
      unfold Graph_DeleteNodes
      rw [if_pos (show ([] : List Nat).length = 0 from rfl)]
    rw [h0]
    refine ⟨by simp, ?_, ?_⟩
    · intro id
      have := getNode_isSome_iff g hWF.cap_eq hWF.count_le_cap id
      simpa using this
    · intro i hi _
      have hdiv : i / NODEBLOCK_CAP < g.block_count := by
        rw [Nat.div_lt_iff_lt_mul hCAPpos]
        have hcap16 : g.node_cap = g.block_count * 16384 := hWF.cap_eq
        have hcnt := hWF.count_le_cap
        show i < g.block_count * 16384
        omega
      exact ⟨getNode_eval g i hi hdiv, getNode_eval g i hi hdiv, fun k _ => rfl⟩
  · have hN1 : 1 ≤ g.node_count := by
      rcases List.exists_mem_of_ne_nil _ hne with ⟨z, hz⟩
      have := helts z hz
      omega
    obtain ⟨hMS, hC3, heq⟩ := deleteNodes_master g D hWF hsort helts hne
    have hFDcount : (Graph_DeleteNodes g D).node_count = g.node_count - D.length := by
      rw [heq]
    have hFDblocks : (Graph_DeleteNodes g D).block_count = g.block_count := by
      rw [heq]
      exact hMS.blocks
    have hFDcap : (Graph_DeleteNodes g D).node_cap = g.node_cap := by
      rw [heq]
      exact hMS.cap
    refine ⟨hFDcount, ?_, ?_⟩
    · intro id
      have hiff := getNode_isSome_iff (Graph_DeleteNodes g D)
        (by rw [hFDcap, hFDblocks]; exact hWF.cap_eq)
        (by rw [hFDcount, hFDcap]; have := hWF.count_le_cap; omega) id
      rw [hFDcount] at hiff
      exact hiff
    · intro i hi hiD
      have hiD' : i ∉ D := fun hmem => Nat.lt_irrefl i (hiD i hmem)
      have hipost : i < g.node_count - D.length := by
        have hnodup : D.Nodup := hsort.imp Nat.ne_of_lt
        have hsub : D.toFinset ⊆ Finset.Ico (i + 1) g.node_count := by
          intro z hz
          rw [Finset.mem_Ico]
          have hzD := List.mem_toFinset.mp hz
          exact ⟨hiD z hzD, helts z hzD⟩
        have hcard := Finset.card_le_card hsub
        rw [List.toFinset_card_of_nodup hnodup, Nat.card_Ico] at hcard
        omega
      have hrti : relocTarget (relocPairs D g.node_count) i = i := by
        apply relocTarget_not_donor
        intro hmem
        have hlen := holes_length_eq D g.node_count hsort helts hN1
        rw [relocPairs,
          List.map_fst_zip _ _ (by rw [List.length_reverse]; omega)] at hmem
        rw [List.mem_reverse, mem_survUpTo] at hmem
        omega
      have hdiv : i / NODEBLOCK_CAP < g.block_count := by
        rw [Nat.div_lt_iff_lt_mul hCAPpos]
        have hcap16 : g.node_cap = g.block_count * 16384 := hWF.cap_eq
        have hcnt := hWF.count_le_cap
        show i < g.block_count * 16384
        omega
      have hFDnode := getNode_eval (Graph_DeleteNodes g D) i
        (by rw [hFDcount]; exact hipost) (by rw [hFDblocks]; exact hdiv)
      have hpay : ((Graph_DeleteNodes g D).nodes i).payload = (g.nodes i).payload := by
        have hnodesF : (Graph_DeleteNodes g D).nodes =
            (applyPairs g (relocPairs D g.node_count)).nodes := by
          rw [heq]
        rw [hnodesF]
        have hb := hMS.slot i hi hiD'
        rw [hrti] at hb
        exact hb
      refine ⟨by rw [hFDnode, hpay], getNode_eval g i hi hdiv, ?_⟩
      intro k hk
      have hlabF : labD (Graph_DeleteNodes g D) k =
          labD (applyPairs g (relocPairs D g.node_count)) k := by
        rw [heq]
        rfl
      rw [hlabF]
      have hb := hMS.lab k hk i hi hiD'
      rw [hrti] at hb
      exact hb

/-- Witness: deleting `[0]` from `gW` leaves one live node, exactly
ids `[0, 1)` resolvable. -/
theorem delete_counts_and_frame_witness :
    WF gW ∧ (Graph_DeleteNodes gW [0]).node_count = gW.node_count - 1 ∧
    ((Graph_GetNode (Graph_DeleteNodes gW [0]) 0).isSome ↔ 0 < gW.node_count - 1) :=
  ⟨gW_wf, (delete_counts_and_frame gW [0] gW_wf (by decide) (by decide)).1,
    (delete_counts_and_frame gW [0] gW_wf (by decide) (by decide)).2.1 0⟩

lemma setElement_mono (m : GMatrix) (r c i j : Nat) (h : m.entry i j = true) :
    (m.setElement r c).entry i j = true := by
  rw [GMatrix.setElement_entry]
  by_cases hc : (r < m.nrows ∧ c < m.ncols) ∧ i = r ∧ j = c
  · rw [if_pos hc]
  · rw [if_neg hc]
    exact h

lemma clipTo_mono (nc : Nat) (m : GMatrix) (i j : Nat)
    (h : (clipTo nc m).entry i j = true) : m.entry i j = true := by
  unfold clipTo at h
  by_cases hc : m.nrows ≠ nc
  · rw [if_pos hc, GMatrix.resize_entry] at h
    by_cases hb : i < nc ∧ j < nc
    · rw [if_pos hb] at h
      exact h
    · rw [if_neg hb] at h
      exact absurd h (by simp)
  · rw [if_neg hc] at h
    exact h

lemma clipTo_sub (nc : Nat) (mr ma : GMatrix)
    (hconf : ∀ i j, mr.entry i j = true → i < nc ∧ j < nc)
    (hsub : ∀ i j, mr.entry i j = true → ma.entry i j = true) :
    ∀ i j, (clipTo nc mr).entry i j = true → (clipTo nc ma).entry i j = true := by
  intro i j hE
  have hmr : mr.entry i j = true := clipTo_mono nc mr i j hE
  have hb := hconf i j hmr
  rw [clipTo_entry_lt nc ma i j hb.1 hb.2]
  exact hsub i j hmr

/-- The row/column migration is pointwise monotone in the matrix: it
reads the same positions no matter the entries. -/
lemma migrateRowCol_mono (n s h : Nat) (mr ma : GMatrix)
    (hsub : ∀ i j, mr.entry i j = true → ma.entry i j = true) :
    ∀ i j, (mr.migrateRowCol n s h).entry i j = true →
      (ma.migrateRowCol n s h).entry i j = true := by
  intro i j hE
  unfold GMatrix.migrateRowCol at hE ⊢
  simp only [GMatrix.assignColumn_entry, GMatrix.assignRow_entry,
    GMatrix.clearColumn_entry] at hE ⊢
  by_cases h1 : j = h ∧ i < n
  · rw [if_pos h1] at hE ⊢
    by_cases h2 : i = h ∧ s < n
    · rw [if_pos h2] at hE ⊢
      by_cases h3 : s = h ∧ s < n
      · rw [if_pos h3] at hE
        exact absurd hE (by simp)
      · rw [if_neg h3] at hE ⊢
        exact hsub _ _ hE
    · rw [if_neg h2] at hE ⊢
      by_cases h3 : s = h ∧ i < n
      · rw [if_pos h3] at hE
        exact absurd hE (by simp)
      · rw [if_neg h3] at hE ⊢
        exact hsub _ _ hE
  · rw [if_neg h1] at hE ⊢
    by_cases h2 : i = h ∧ j < n
    · rw [if_pos h2] at hE ⊢
      by_cases h3 : j = h ∧ s < n
      · rw [if_pos h3] at hE
        exact absurd hE (by simp)
      · rw [if_neg h3] at hE ⊢
        exact hsub _ _ hE
    · rw [if_neg h2] at hE ⊢
      by_cases h3 : j = h ∧ i < n
      · rw [if_pos h3] at hE
        exact absurd hE (by simp)
      · rw [if_neg h3] at hE ⊢
        exact hsub _ _ hE

lemma resizeNodes_struct (g : Graph) (n : Nat) :
    (_Graph_ResizeNodes g n).node_count = g.node_count ∧
    (_Graph_ResizeNodes g n).adjacency_matrix = g.adjacency_matrix ∧
    (_Graph_ResizeNodes g n).relations = g.relations ∧
    (_Graph_ResizeNodes g n).labels = g.labels := by
  unfold _Graph_ResizeNodes
  by_cases h : g.node_count + n < g.node_cap
  · rw [if_pos h]
    exact ⟨rfl, rfl, rfl, rfl⟩
  · rw [if_neg h]
    exact ⟨rfl, rfl, rfl, rfl⟩

lemma createNodes_struct (g : Graph) (n : Nat) (ls : Option (List Int)) :
    (Graph_CreateNodes g n ls).relations = g.relations ∧
    (Graph_CreateNodes g n ls).node_count = g.node_count + n ∧
    (Graph_CreateNodes g n ls).adjacency_matrix =
      clipTo (g.node_count + n) g.adjacency_matrix := by
  obtain ⟨r1, r2, r3, r4⟩ := resizeNodes_struct g n
  have hbase : (({ _Graph_ResizeNodes g n with
        node_count := (_Graph_ResizeNodes g n).node_count + n } : Graph).resizeAdj).relations =
          g.relations ∧
      (({ _Graph_ResizeNodes g n with
        node_count := (_Graph_ResizeNodes g n).node_count + n } : Graph).resizeAdj).node_count =
          g.node_count + n ∧
      (({ _Graph_ResizeNodes g n with
        node_count :=
          (_Graph_ResizeNodes g n).node_count + n } : Graph).resizeAdj).adjacency_matrix =
          clipTo (g.node_count + n) g.adjacency_matrix := by
    refine ⟨?_, ?_, ?_⟩
    · rw [resizeAdj_relations]
      exact r3
    · rw [resizeAdj_node_count]
      show (_Graph_ResizeNodes g n).node_count + n = g.node_count + n
      rw [r1]
    · show _Graph_ResizeMatrix _ _ = _
      rw [resizeMatrix_eq_clipTo]
      show clipTo ((_Graph_ResizeNodes g n).node_count + n)
        ({ _Graph_ResizeNodes g n with
          node_count := (_Graph_ResizeNodes g n).node_count + n } : Graph).adjacency_matrix = _
      rw [r1]
      show clipTo (g.node_count + n) (_Graph_ResizeNodes g n).adjacency_matrix = _
      rw [r2]
  cases ls with
  | none => exact hbase
  | some ls2 =>
    have hstep : ∀ (gg : Graph) (idx : Nat),
        (gg.relations = g.relations ∧ gg.node_count = g.node_count + n ∧
          gg.adjacency_matrix = clipTo (g.node_count + n) g.adjacency_matrix) →
        ((let l := ls2.getD idx GRAPH_NO_LABEL
          if l ≠ GRAPH_NO_LABEL then
            let gg2 := gg.resizeLab l.toNat
            { gg2 with labels := (gg2.labels.set l.toNat
                ((labD gg2 l.toNat).setElement ((_Graph_ResizeNodes g n).node_count + idx)
                  ((_Graph_ResizeNodes g n).node_count + idx))) }
          else gg).relations = g.relations ∧
         (let l := ls2.getD idx GRAPH_NO_LABEL
          if l ≠ GRAPH_NO_LABEL then
            let gg2 := gg.resizeLab l.toNat
            { gg2 with labels := (gg2.labels.set l.toNat
                ((labD gg2 l.toNat).setElement ((_Graph_ResizeNodes g n).node_count + idx)
                  ((_Graph_ResizeNodes g n).node_count + idx))) }
          else gg).node_count = g.node_count + n ∧
         (let l := ls2.getD idx GRAPH_NO_LABEL
          if l ≠ GRAPH_NO_LABEL then
            let gg2 := gg.resizeLab l.toNat
            { gg2 with labels := (gg2.labels.set l.toNat
                ((labD gg2 l.toNat).setElement ((_Graph_ResizeNodes g n).node_count + idx)
                  ((_Graph_ResizeNodes g n).node_count + idx))) }
          else gg).adjacency_matrix = clipTo (g.node_count + n) g.adjacency_matrix) := by
      rintro gg idx ⟨p1, p2, p3⟩
      simp only []
      by_cases hl : ls2.getD idx GRAPH_NO_LABEL ≠ GRAPH_NO_LABEL
      · rw [if_pos hl]
        refine ⟨?_, ?_, ?_⟩
        · show (gg.resizeLab (ls2.getD idx GRAPH_NO_LABEL).toNat).relations = _
          rw [resizeLab_relations]
          exact p1
        · show (gg.resizeLab (ls2.getD idx GRAPH_NO_LABEL).toNat).node_count = _
          rw [resizeLab_node_count]
          exact p2
        · show (gg.resizeLab (ls2.getD idx GRAPH_NO_LABEL).toNat).adjacency_matrix = _
          rw [resizeLab_adjacency]
          exact p3
      · rw [if_neg hl]
        exact ⟨p1, p2, p3⟩
    exact foldl_preserves (fun gg : Graph => gg.relations = g.relations ∧
        gg.node_count = g.node_count + n ∧
        gg.adjacency_matrix = clipTo (g.node_count + n) g.adjacency_matrix)
      _ hstep (List.range n) _ hbase

lemma resizeMatrix_entry_mono (g : Graph) (m : GMatrix) (i j : Nat)
    (h : (_Graph_ResizeMatrix g m).entry i j = true) : m.entry i j = true :=
  clipTo_mono g.node_count m i j (by rw [← resizeMatrix_eq_clipTo]; exact h)

/-- `Graph_ConnectNodes` keeps every relation entry backed by an
adjacency entry, for any connection list, from a well-formed state. -/
lemma connect_preserves_sub (g : Graph) (conns : List (Nat × Nat × Int)) (hWF : WF g) :
    ∀ k i j, (relD (Graph_ConnectNodes g conns) k).entry i j = true →
      (Graph_ConnectNodes g conns).adjacency_matrix.entry i j = true := by
  unfold Graph_ConnectNodes
  have hfold := foldl_preserves (fun gb : Graph => gb.node_count = g.node_count ∧
      gb.adjacency_matrix.nrows = g.node_count ∧
      gb.adjacency_matrix.ncols = g.node_count ∧
      sqRels gb ∧
      (∀ k i j, (relD gb k).entry i j = true → gb.adjacency_matrix.entry i j = true))
    (fun g c =>
      let src_id := c.1
      let dest_id := c.2.1
      let r := c.2.2
      let g := { g with adjacency_matrix := g.adjacency_matrix.setElement dest_id src_id }
      if r ≠ GRAPH_NO_RELATION then
        let g := g.resizeRel r.toNat
        { g with relations := (g.relations.set r.toNat
            ((relD g r.toNat).setElement dest_id src_id)) }
      else g)
    ?_ conns g.resizeAdj
    ⟨rfl, _Graph_ResizeMatrix_nrows g _, _Graph_ResizeMatrix_ncols g _ hWF.adj_sq,
     hWF.rel_sq, ?_⟩
  · exact fun k i j hE => hfold.2.2.2.2 k i j hE
  · rintro gb c ⟨p1, p2, p3, p5, psub⟩
    simp only []
    set A := gb.adjacency_matrix.setElement c.2.1 c.1 with hA
    have hAnr : A.nrows = g.node_count := by
      rw [hA, GMatrix.setElement_nrows]
      exact p2
    have hAnc : A.ncols = g.node_count := by
      rw [hA, GMatrix.setElement_ncols]
      exact p3
    have hAmono : ∀ i j, gb.adjacency_matrix.entry i j = true → A.entry i j = true :=
      fun i j hE => setElement_mono _ _ _ _ _ hE
    by_cases hr : c.2.2 ≠ GRAPH_NO_RELATION
    · rw [if_pos hr]
      set gb1 : Graph := { gb with adjacency_matrix := A } with hgb1
      have hres : sqRels (gb1.resizeRel c.2.2.toNat) := sqRels_resizeRel _ _ (fun k => p5 k)
      refine ⟨?_, ?_, ?_, ?_, ?_⟩
      · show (gb1.resizeRel c.2.2.toNat).node_count = g.node_count
        rw [resizeRel_node_count]
        exact p1
      · show (gb1.resizeRel c.2.2.toNat).adjacency_matrix.nrows = g.node_count
        rw [resizeRel_adjacency]
        exact hAnr
      · show (gb1.resizeRel c.2.2.toNat).adjacency_matrix.ncols = g.node_count
        rw [resizeRel_adjacency]
        exact hAnc
      · intro m
        show ((((gb1.resizeRel c.2.2.toNat).relations.set c.2.2.toNat
            ((relD (gb1.resizeRel c.2.2.toNat) c.2.2.toNat).setElement c.2.1
              c.1))).getD m default).nrows =
          ((((gb1.resizeRel c.2.2.toNat).relations.set c.2.2.toNat
            ((relD (gb1.resizeRel c.2.2.toNat) c.2.2.toNat).setElement c.2.1
              c.1))).getD m default).ncols
        refine sqRels_set _ _ _ hres ?_ m
        rw [GMatrix.setElement_nrows, GMatrix.setElement_ncols]
        exact hres c.2.2.toNat
      · intro k i j hE
        show (gb1.resizeRel c.2.2.toNat).adjacency_matrix.entry i j = true
        rw [resizeRel_adjacency]
        show A.entry i j = true
        have hEk : (((gb1.resizeRel c.2.2.toNat).relations.set c.2.2.toNat
            ((relD (gb1.resizeRel c.2.2.toNat) c.2.2.toNat).setElement c.2.1
              c.1)).getD k default).entry i j = true := hE
        rw [getD_set] at hEk
        by_cases hk : c.2.2.toNat = k ∧ c.2.2.toNat < (gb1.resizeRel c.2.2.toNat).relations.length
        · rw [if_pos hk] at hEk
          set M := relD (gb1.resizeRel c.2.2.toNat) c.2.2.toNat with hM
          rw [GMatrix.setElement_entry] at hEk
          by_cases hcond : (c.2.1 < M.nrows ∧ c.1 < M.ncols) ∧ i = c.2.1 ∧ j = c.1
          · -- the freshly set relation bit: mirror it in the adjacency
            have hMnr : M.nrows = g.node_count := by
              rw [hM]
              rw [relD_resizeRel]
              by_cases hkl : c.2.2.toNat = c.2.2.toNat ∧ c.2.2.toNat < gb1.relations.length
              · rw [if_pos hkl, _Graph_ResizeMatrix_nrows]
                exact p1
              · rw [if_neg hkl]
                have hout : gb1.relations.length ≤ c.2.2.toNat := by
                  rcases Nat.lt_or_ge c.2.2.toNat gb1.relations.length with hlt | hge
                  · exact absurd ⟨rfl, hlt⟩ hkl
                  · exact hge
                have hk2 := hk.2
                rw [resizeRel_length] at hk2
                omega
            have hMd : c.2.1 < g.node_count := by
              have := hcond.1.1
              rw [hMnr] at this
              exact this
            have hMs : c.1 < g.node_count := by
              have hMnc : M.ncols = g.node_count := by
                have := hres c.2.2.toNat
                rw [← hM] at this
                rw [← this]
                exact hMnr
              have := hcond.1.2
              rw [hMnc] at this
              exact this
            rw [hA, GMatrix.setElement_entry]
            rw [if_pos ⟨⟨by rw [p2]; exact hMd, by rw [p3]; exact hMs⟩, hcond.2⟩]
          · rw [if_neg hcond] at hEk
            -- an old relation entry, possibly clipped
            have hold : (relD gb1 c.2.2.toNat).entry i j = true := by
              rw [hM, relD_resizeRel] at hEk
              by_cases hkl : c.2.2.toNat = c.2.2.toNat ∧ c.2.2.toNat < gb1.relations.length
              · rw [if_pos hkl] at hEk
                exact resizeMatrix_entry_mono _ _ _ _ hEk
              · rw [if_neg hkl] at hEk
                exact hEk
            exact hAmono i j (psub c.2.2.toNat i j hold)
        · rw [if_neg hk] at hEk
          have hEk2 : (relD (gb1.resizeRel c.2.2.toNat) k).entry i j = true := hEk
          have hold : (relD gb1 k).entry i j = true := by
            rw [relD_resizeRel] at hEk2
            by_cases hkl : c.2.2.toNat = k ∧ c.2.2.toNat < gb1.relations.length
            · rw [if_pos hkl] at hEk2
              rcases hkl with ⟨hkl1, hkl2⟩
              rw [← hkl1]
              exact resizeMatrix_entry_mono _ _ _ _ hEk2
            · rw [if_neg hkl] at hEk2
              exact hEk2
          exact hAmono i j (psub k i j hold)
    · rw [if_neg hr]
      refine ⟨p1, hAnr, hAnc, fun m => p5 m, ?_⟩
      intro k i j hE
      exact hAmono i j (psub k i j hE)
  · intro k i j hE
    have hg : (relD g k).entry i j = true := hE
    have hsubg := hWF.sub k i j hg
    show (_Graph_ResizeMatrix g g.adjacency_matrix).entry i j = true
    rw [_Graph_ResizeMatrix_entry_conf g _ hWF.adj_conf i j]
    exact hsubg

/-- `Graph_DeleteEdge` keeps every relation entry backed by an
adjacency entry, from a well-formed state with a live destination. -/
lemma delEdge_preserves_sub (g : Graph) (s d : Nat) (rel : Int) (hWF : WF g)
    (hd : d < g.node_count) :
    ∀ k i j, (relD (Graph_DeleteEdge g s d rel) k).entry i j = true →
      (Graph_DeleteEdge g s d rel).adjacency_matrix.entry i j = true := by
  have hWF' := WF_resizeAdj hWF
  by_cases hadj : (g.resizeAdj).adjacency_matrix.entry d s = true
  · by_cases hrel : rel = GRAPH_NO_RELATION
    · rw [hrel, deleteEdge_eq_untyped g s d hadj]
      obtain ⟨e1, e2, e3, e4, e5, e6⟩ := deleteEdges_run g.resizeAdj s d hWF' hd
      intro k i j hE
      rw [e3 k i j] at hE
      rw [e1 i j]
      by_cases hij : i = d ∧ j = s
      · exfalso
        by_cases hk : k < (g.resizeAdj).relations.length
        · rw [if_pos ⟨hk, hij.1, hij.2⟩] at hE
          exact absurd hE (by simp)
        · rw [if_neg (by tauto)] at hE
          have hdef : relD g.resizeAdj k = default := by
            unfold relD
            rw [resizeAdj_relations]
            exact List.getD_eq_default _ _ (by rw [resizeAdj_relations] at hk; omega)
          rw [hdef] at hE
          exact absurd hE (by simp)
      · rw [if_neg hij]
        rw [if_neg (by tauto)] at hE
        exact hWF'.sub k i j hE
    · rw [deleteEdge_eq_typed' g s d rel hadj hrel]
      by_cases hre : (relD g.resizeAdj rel.toNat).entry d s = true
      · obtain ⟨t1, t2, t3, t4, t5, t6, t7, t8⟩ :=
          deleteTypedEdges_run g.resizeAdj s d rel.toNat hWF' hd
            (by
              by_cases hrt : rel.toNat < (g.resizeAdj).relations.length
              · exact hrt
              · exfalso
                have hdef : relD g.resizeAdj rel.toNat = default := by
                  unfold relD
                  rw [resizeAdj_relations]
                  rw [resizeAdj_relations] at hrt
                  exact List.getD_eq_default _ _ (by omega)
                rw [hdef] at hre
                exact absurd hre (by simp)) hre
        intro k i j hE
        by_cases hij : i = d ∧ j = s
        · rcases hij with ⟨hi, hj⟩
          rw [hi, hj] at hE ⊢
          by_cases hkr : k = rel.toNat
          · rw [hkr] at hE
            rw [t1] at hE
            exact absurd hE (by simp)
          · have hk : k < (g.resizeAdj).relations.length := by
              by_cases hkl : k < (g.resizeAdj).relations.length
              · exact hkl
              · exfalso
                have hdef : relD (_Graph_DeleteTypedEdges g.resizeAdj s d rel.toNat) k =
                    default := by
                  unfold relD
                  exact List.getD_eq_default _ _ (by rw [t4]; omega)
                rw [hdef] at hE
                exact absurd hE (by simp)
            rw [t5 k d s (by tauto)] at hE
            exact t2.mpr ⟨k, hk, hkr, hE⟩
        · rw [t3 i j hij]
          rw [t5 k i j (by tauto)] at hE
          exact hWF'.sub k i j hE
      · have hre2 : (relD (g.resizeAdj.resizeRel rel.toNat) rel.toNat).entry d s = false := by
          rw [relD_resizeRel_entry g.resizeAdj rel.toNat rel.toNat
            (hWF'.rel_conf rel.toNat) d s]
          cases hv : (relD g.resizeAdj rel.toNat).entry d s
          · rfl
          · exact absurd hv hre
        rw [deleteTypedEdges_eq_of_not_connected g.resizeAdj s d rel.toNat hre2]
        intro k i j hE
        show (g.resizeAdj.resizeRel rel.toNat).adjacency_matrix.entry i j = true
        rw [resizeRel_adjacency]
        have hE2 : (relD g.resizeAdj k).entry i j = true := by
          rw [relD_resizeRel_entry g.resizeAdj rel.toNat k
            (hWF'.rel_conf rel.toNat) i j] at hE
          exact hE
        exact hWF'.sub k i j hE2
  · have hadj' : (g.resizeAdj).adjacency_matrix.entry d s = false := by
      cases hv : (g.resizeAdj).adjacency_matrix.entry d s
      · rfl
      · exact absurd hv hadj
    rw [deleteEdge_eq_noop g s d rel hadj']
    intro k i j hE
    exact hWF'.sub k i j hE

/-- The inclusion-and-confinement invariant carried through the
delete-nodes loop. -/
def DelSub (N : Nat) (g : Graph) : Prop :=
  g.node_count = N ∧
  (∀ i j, g.adjacency_matrix.entry i j = true → i < N ∧ j < N) ∧
  (∀ k i j, (relD g k).entry i j = true → i < N ∧ j < N) ∧
  (∀ k i j, (relD g k).entry i j = true → g.adjacency_matrix.entry i j = true)

lemma migrate_DelSub (N : Nat) (g : Graph) (s h : Nat) (hh : h < N) (hC : DelSub N g) :
    DelSub N (_Graph_MigrateRowCol g s h) := by
  obtain ⟨c0, cA, cR, cS⟩ := hC
  obtain ⟨m1, m2, m3, m4, m5, m6, m7, m8⟩ := migrate_spec g s h
  rw [c0] at m7 m8
  refine ⟨m1.trans c0, ?_, ?_, ?_⟩
  · intro i j hE
    rw [m7] at hE
    by_cases hin : i < N ∧ j < N
    · exact hin
    · rw [migrateRowCol_entry_out _ _ _ _ _ _ (by omega) hh] at hE
      exact cA i j (clipTo_mono _ _ _ _ hE)
  · intro k i j hE
    rw [m8 k] at hE
    by_cases hk : k < g.relations.length
    · rw [if_pos hk] at hE
      by_cases hin : i < N ∧ j < N
      · exact hin
      · rw [migrateRowCol_entry_out _ _ _ _ _ _ (by omega) hh] at hE
        exact cR k i j (clipTo_mono _ _ _ _ hE)
    · rw [if_neg hk] at hE
      exact cR k i j hE
  · intro k i j hE
    rw [m8 k] at hE
    rw [m7]
    by_cases hk : k < g.relations.length
    · rw [if_pos hk] at hE
      exact migrateRowCol_mono N s h _ _ (clipTo_sub N _ _ (cR k) (cS k)) i j hE
    · rw [if_neg hk] at hE
      exfalso
      have hdef : relD g k = default := by
        unfold relD
        exact List.getD_eq_default _ _ (by omega)
      rw [hdef] at hE
      exact absurd hE (by simp)

lemma replace_DelSub (N : Nat) (g : Graph) (s h : Nat) (hh : h < N) (hC : DelSub N g) :
    DelSub N (_replace_deleted_node g s h) := by
  obtain ⟨l1, l2, l3, l4, l5, l6, l7, l8⟩ := labelLoop_spec s h g g.labels.length (le_refl _)
  set gL := (List.range g.labels.length).foldl (fun g k =>
      let g := g.resizeLab k
      let m := labD g k
      let src_has_label := m.entry s s
      let dest_has_label := m.entry h h
      if dest_has_label && !src_has_label then
        { g with labels := g.labels.set k (m.clearColumn (Graph_NodeCount g) h) }
      else if !dest_has_label && src_has_label then
        { g with labels := g.labels.set k (m.setElement h h) }
      else g) g with hgL
  have hCL : DelSub N gL := by
    obtain ⟨c0, cA, cR, cS⟩ := hC
    refine ⟨l1.trans c0, ?_, ?_, ?_⟩
    · intro i j hE
      rw [l5] at hE
      exact cA i j hE
    · intro k i j hE
      have hrel : relD gL k = relD g k := by
        unfold relD
        rw [l6]
      rw [hrel] at hE
      exact cR k i j hE
    · intro k i j hE
      have hrel : relD gL k = relD g k := by
        unfold relD
        rw [l6]
      rw [hrel] at hE
      rw [l5]
      exact cS k i j hE
  obtain ⟨d0, dA, dR, dS⟩ := migrate_DelSub N gL s h hh hCL
  exact ⟨d0, dA, dR, dS⟩

lemma deleteLoop_DelSub (IDs : List Nat) (post N : Nat) (hpN : post ≤ N) :
    ∀ (fuel : Nat) (g : Graph) (save ldIdx holeIdx : Nat), DelSub N g →
      DelSub N (_deleteLoop IDs post fuel g save ldIdx holeIdx) := by
  intro fuel
  induction fuel with
  | zero => intro g _ _ _ hC; exact hC
  | succ f ih =>
    intro g save ldIdx holeIdx hC
    have hunf : _deleteLoop IDs post (f + 1) g save ldIdx holeIdx =
        if IDs.getD holeIdx 0 < post then
          if holeIdx + 1 < IDs.length then
            _deleteLoop IDs post f
              (_replace_deleted_node g (_skipDeleted IDs save ldIdx).1 (IDs.getD holeIdx 0))
              ((_skipDeleted IDs save ldIdx).1 - 1) (_skipDeleted IDs save ldIdx).2 (holeIdx + 1)
          else _replace_deleted_node g (_skipDeleted IDs save ldIdx).1 (IDs.getD holeIdx 0)
        else g := rfl
    rw [hunf]
    by_cases hc : IDs.getD holeIdx 0 < post
    · rw [if_pos hc]
      by_cases hb : holeIdx + 1 < IDs.length
      · rw [if_pos hb]
        exact ih _ _ _ _ (replace_DelSub N g _ _ (by omega) hC)
      · rw [if_neg hb]
        exact replace_DelSub N g _ _ (by omega) hC
    · rw [if_neg hc]
      exact hC

/-- `Graph_DeleteNodes` keeps every live relation entry backed by an
adjacency entry, from a well-formed state. -/
lemma delNodes_preserves_sub (g : Graph) (D : List Nat) (hWF : WF g) :
    ∀ k d s, d < (Graph_DeleteNodes g D).node_count →
      s < (Graph_DeleteNodes g D).node_count →
      (relD (Graph_DeleteNodes g D) k).entry d s = true →
      (Graph_DeleteNodes g D).adjacency_matrix.entry d s = true := by
  unfold Graph_DeleteNodes
  by_cases hz : D.length = 0
  · rw [if_pos hz]
    intro k d s _ _ hE
    exact hWF.sub k d s hE
  · rw [if_neg hz]
    simp only []
    have hloop := deleteLoop_DelSub D (g.node_count - D.length) g.node_count (by omega)
      D.length g (g.node_count - 1) (D.length - 1) 0
      ⟨rfl, hWF.adj_conf, hWF.rel_conf, hWF.sub⟩
    obtain ⟨q0, qA, qR, qS⟩ := hloop
    set g' := _deleteLoop D (g.node_count - D.length) D.length g
      (g.node_count - 1) (D.length - 1) 0 with hg'
    intro k d s hdlt hslt hE
    have hdlt' : d < g.node_count - D.length := hdlt
    have hslt' : s < g.node_count - D.length := hslt
    have hE' : (relD g' k).entry d s = true := hE
    have hadj := qS k d s hE'
    show (_Graph_ResizeMatrix ({ g' with node_count := g.node_count - D.length } : Graph)
      g'.adjacency_matrix).entry d s = true
    rw [_Graph_ResizeMatrix_entry_lt _ _ d s hdlt' hslt']
    exact hadj

/-- C4: every single public mutation, called with arguments that pass
the C code's assertions, preserves the relation-implies-adjacency
inclusion on the live region `[0, node_count)²` of the resulting state,
starting from any state satisfying the data-model invariants. -/
theorem wf_step_preserves_rel_le_adj (g : Graph) (hWF : WF g) (op : GOp)
    (hv : GValid g op) :
    ∀ k d s, d < (GStep g op).node_count → s < (GStep g op).node_count →
      (relD (GStep g op) k).entry d s = true →
      (GStep g op).adjacency_matrix.entry d s = true := by
  unfold GStep
  rw [if_pos hv]
  cases op with
  | create n ls =>
    intro k d s hd hs hE
    obtain ⟨c1, c2, c3⟩ := createNodes_struct g n ls
    have hE2 : (relD g k).entry d s = true := by
      unfold relD at hE ⊢
      rw [c1] at hE
      exact hE
    rw [c2] at hd hs
    rw [c3, clipTo_entry_lt (g.node_count + n) g.adjacency_matrix d s hd hs]
    exact hWF.sub k d s hE2
  | connect conns =>
    intro k d s _ _ hE
    exact connect_preserves_sub g conns hWF k d s hE
  | labelRange a b l =>
    intro k d s _ _ hE
    have hrel : (Graph_LabelNodes g a b l).relations = g.relations := by
      show (g.resizeLab l).relations = g.relations
      rw [resizeLab_relations]
    have hadj : (Graph_LabelNodes g a b l).adjacency_matrix = g.adjacency_matrix := by
      show (g.resizeLab l).adjacency_matrix = g.adjacency_matrix
      rw [resizeLab_adjacency]
    have hE2 : (relD g k).entry d s = true := by
      unfold relD at hE ⊢
      rw [hrel] at hE
      exact hE
    rw [hadj]
    exact hWF.sub k d s hE2
  | delEdge sid did r =>
    intro k d s _ _ hE
    exact delEdge_preserves_sub g sid did r hWF hv.2.1 k d s hE
  | delNodes ids =>
    exact delNodes_preserves_sub g ids hWF
  | addRel =>
    intro k d s _ _ hE
    have hadj : ((Graph_AddRelationMatrix g).1).adjacency_matrix = g.adjacency_matrix := rfl
    rw [hadj]
    have hrel : ((Graph_AddRelationMatrix g).1).relations =
        g.relations ++ [GMatrix.new g.node_cap g.node_cap] := rfl
    have hE2 : ((g.relations ++
        [GMatrix.new g.node_cap g.node_cap]).getD k default).entry d s = true := by
      unfold relD at hE
      rw [hrel] at hE
      exact hE
    rw [getD_append_one] at hE2
    by_cases hk : k < g.relations.length
    · rw [if_pos hk] at hE2
      exact hWF.sub k d s hE2
    · rw [if_neg hk] at hE2
      by_cases hk2 : k = g.relations.length
      · rw [if_pos hk2] at hE2
        exact absurd hE2 (by simp)
      · rw [if_neg hk2] at hE2
        exact absurd hE2 (by simp)
  | addLabel =>
    intro k d s _ _ hE
    have hE2 : (relD g k).entry d s = true := hE
    exact hWF.sub k d s hE2

theorem wf_step_preserves_rel_le_adj_witness :
    WF gW ∧ GValid gW (GOp.create 1 none) ∧
    (GStep gW (GOp.create 1 none)).adjacency_matrix.entry 1 0 = true :=
  ⟨gW_wf, trivial,
    wf_step_preserves_rel_le_adj gW gW_wf (GOp.create 1 none) trivial 0 1 0
      (by decide) (by decide) (by decide)⟩

/-- A reachable state where the unrestricted inclusion fails: deleting
node 0 after creating a self-loop on node 1 leaves a stale relation
entry at (1, 1) that the migration copied, with no adjacency entry. -/
def c4Cex : Graph :=
  applyOps (Graph_New 2)
    [GOp.addRel, GOp.create 2 none, GOp.connect [(1, 1, (0 : Int))], GOp.delNodes [0]]

/-- The claim's unrestricted reachable-state form is false: at `c4Cex`,
relation 0 holds entry (1, 1) while the adjacency matrix does not. -/
theorem rel_le_adj_claim_cex :
    ¬ (∀ k i j, (relD c4Cex k).entry i j = true →
        c4Cex.adjacency_matrix.entry i j = true) := by
  intro hcl
  exact absurd (hcl 0 1 1 (by decide)) (by decide)

end RedisGraph
